import Mathlib

/-!
# go-common: a verification development

A shallow embedding of the Go package `common` (files `errors.go`, `http.go`,
`encoding.go`, `logger.go`) together with the parts of the Go standard library
the package calls.

Conventions of the embedding.

* A Go `string` is a Lean `String` (a sequence of Unicode code points, that is,
  a valid UTF-8 string).  A request body is a list of bytes (`List UInt8`).
* A Go function that may panic returns `Except`, the exception being the panic.
* A Go `error` is a value of `GoError`; the `nil` error is `none`.
* Tables of the Unicode standard that the Go library consults (`unicode.IsPrint`,
  `unicode.ToLower`, `unicode.SimpleFold`) are not reproduced: they are the
  fields of the parameter `Unicode`, consulted only for code points above the
  ranges the library itself decides without a table.
-/

namespace Common

/-- Equality of the results of a function that may panic is decidable. -/
instance instDecidableEqExcept {ε α : Type} [DecidableEq ε] [DecidableEq α] :
    DecidableEq (Except ε α)
  | .ok a, .ok b => if h : a = b then isTrue (by rw [h]) else isFalse (fun h' => h (by cases h'; rfl))
  | .error a, .error b =>
    if h : a = b then isTrue (by rw [h]) else isFalse (fun h' => h (by cases h'; rfl))
  | .ok _, .error _ => isFalse (fun h => by cases h)
  | .error _, .ok _ => isFalse (fun h => by cases h)

/-! ## Standard library: characters and strings -/

/-- Tables of the Unicode standard used by the Go library, for non-ASCII code points. -/
structure Unicode where
  /-- Table behind `unicode.IsPrint`, consulted above U+00FF. -/
  IsPrint : Char → Bool
  /-- Table behind `unicode.ToLower`, consulted for non-ASCII strings. -/
  ToLower : Char → Char
  /-- The least code point of the simple-folding orbit (`foldRune` of
  `encoding/json`), consulted above U+007F. -/
  foldRune : Char → Char

/-- The double quote character. -/
def dquote : Char := Char.ofNat 34

/-- The backslash character. -/
def backslash : Char := Char.ofNat 92

/-- The digits of `strconv` for hexadecimal output. -/
def lowerhex (n : Nat) : Char :=
  (['0', '1', '2', '3', '4', '5', '6', '7', '8', '9', 'a', 'b', 'c', 'd', 'e', 'f'].getD (n % 16) '0')

/-- The last `k` hexadecimal digits of `n`, most significant first. -/
def hexDigits : Nat → Nat → List Char
  | 0, _ => []
  | k + 1, n => hexDigits k (n / 16) ++ [lowerhex n]

/-- Go's `strconv.IsPrint` up to U+00FF, where it is decided without a table. -/
def isPrintLatin1 (r : Char) : Bool :=
  if 0x20 ≤ r.toNat ∧ r.toNat < 0x7F then true
  else if 0xA1 ≤ r.toNat ∧ r.toNat ≤ 0xFF then r.toNat != 0xAD
  else false

/-- Go's `strconv.IsPrint`. -/
def IsPrint (U : Unicode) (r : Char) : Bool :=
  if r.toNat ≤ 0xFF then isPrintLatin1 r else U.IsPrint r

/-- Go's `strconv.appendEscapedRune` for the double quote as delimiter
(`ASCIIonly` and `graphicOnly` false), on a valid code point; `printable` is
`strconv.IsPrint`. -/
def appendEscapedRuneWith (printable : Char → Bool) (r : Char) : List Char :=
  if r = dquote ∨ r = backslash then [backslash, r]
  else if printable r then [r]
  else if r.toNat = 7 then [backslash, 'a']
  else if r.toNat = 8 then [backslash, 'b']
  else if r.toNat = 12 then [backslash, 'f']
  else if r.toNat = 10 then [backslash, 'n']
  else if r.toNat = 13 then [backslash, 'r']
  else if r.toNat = 9 then [backslash, 't']
  else if r.toNat = 11 then [backslash, 'v']
  else if r.toNat < 0x20 ∨ r.toNat = 0x7F then backslash :: 'x' :: hexDigits 2 r.toNat
  else if r.toNat < 0x10000 then backslash :: 'u' :: hexDigits 4 r.toNat
  else backslash :: 'U' :: hexDigits 8 r.toNat

/-- Go's `strconv.appendEscapedRune` with the tables of `U`. -/
def appendEscapedRune (U : Unicode) (r : Char) : List Char :=
  appendEscapedRuneWith (IsPrint U) r

/-- The escaped runes of a string, without the delimiters. -/
def quoteBody (U : Unicode) : List Char → List Char
  | [] => []
  | r :: rs => appendEscapedRune U r ++ quoteBody U rs

/-- Go's `strconv.Quote`, the verb `%q` of `fmt` on a string. -/
def Quote (U : Unicode) (s : String) : String :=
  String.mk (dquote :: (quoteBody U s.toList ++ [dquote]))

/-- Lower-casing of one ASCII byte, as in the ASCII path of `strings.ToLower`. -/
def asciiLower (c : Char) : Char :=
  if 'A'.toNat ≤ c.toNat ∧ c.toNat ≤ 'Z'.toNat then Char.ofNat (c.toNat + 32) else c

/-- Go's `strings.ToLower`: byte-wise on an ASCII string, through the Unicode
table otherwise. -/
def ToLower (U : Unicode) (s : String) : String :=
  if s.toList.all (fun c => decide (c.toNat < 0x80)) then String.mk (s.toList.map asciiLower)
  else String.mk (s.toList.map U.ToLower)

/-- Splitting of a list of characters at every occurrence of `sep`; `cur` is the
part read so far, reversed. -/
def splitChars (sep : Char) : List Char → List Char → List (List Char)
  | [], cur => [cur.reverse]
  | c :: cs, cur =>
    if c = sep then cur.reverse :: splitChars sep cs [] else splitChars sep cs (c :: cur)

/-- Go's `strings.Split(s, " ")`. -/
def SplitSpace (s : String) : List String :=
  (splitChars ' ' s.toList []).map String.mk

/-- Whether `p` starts `l`, and what follows it. -/
def dropLeading : List Char → List Char → Option (List Char)
  | [], l => some l
  | _ :: _, [] => none
  | p :: ps, c :: cs => if p = c then dropLeading ps cs else none

/-- Go's `strings.HasPrefix`. -/
def startsWith (s pre : String) : Bool :=
  (dropLeading pre.toList s.toList).isSome

/-- Go's `strings.TrimPrefix`. -/
def TrimLeading (s pre : String) : String :=
  match dropLeading pre.toList s.toList with
  | some rest => String.mk rest
  | none => s

/-- Decimal digits of a natural number, least significant first; `fuel` bounds
the number of digits. -/
def decimalRev : Nat → Nat → List Char
  | 0, _ => []
  | fuel + 1, n =>
    if n < 10 then [Char.ofNat (48 + n)] else Char.ofNat (48 + n % 10) :: decimalRev fuel (n / 10)

/-- The verb `%d` of `fmt` on an integer. -/
def formatInt (i : Int) : String :=
  match i with
  | Int.ofNat n => String.mk (decimalRev (n + 1) n).reverse
  | Int.negSucc n => String.mk ('-' :: (decimalRev (n + 2) (n + 1)).reverse)

/-! ## errors.go -/

/-- The error values of the package created once with `errors.New` or
`fmt.Errorf`; each is an identity, compared by `==` and `errors.Is`. -/
inductive Sentinel
  | ErrInternalServer
  | ErrNotFound
  | ErrNoAuthHeader
  | ErrForbidden
  | ErrUnauthorized
  | ErrInvalidAuthHeader
  | ErrBadRequest
  | ErrJSONParsing
  | ErrJSONEmpty
  | ErrJSONSingleValue
  | ErrJSONTooLarge
  deriving DecidableEq, Repr

/-- The constant `MaxBytes` of `encoding.go`. -/
def MaxBytes : Nat := 1048576

/-- The text each package error was created with. -/
def Sentinel.text : Sentinel → String
  | .ErrInternalServer => "internal server error"
  | .ErrNotFound => "resource not found"
  | .ErrNoAuthHeader => "no authorization header provided"
  | .ErrForbidden => "forbidden"
  | .ErrUnauthorized => "unauthorized"
  | .ErrInvalidAuthHeader => "invalid authorization header"
  | .ErrBadRequest => "bad request"
  | .ErrJSONParsing => "body contains badly-formed JSON"
  | .ErrJSONEmpty => "body must not be empty"
  | .ErrJSONSingleValue => "body must only contain a single JSON value"
  | .ErrJSONTooLarge => "body must not be larger than " ++ formatInt MaxBytes ++ " bytes"

/-- The type `JSONError` is an `int8`. -/
abbrev JSONError := Int

/-- The constant `InvalidType`. -/
def InvalidType : JSONError := 0

/-- The constant `UnknownKey`. -/
def UnknownKey : JSONError := 1

/-- The struct `JSONCustomError`. -/
structure JSONCustomError where
  /-- The field `Type`. -/
  Typ : JSONError
  /-- The field `Key`. -/
  Key : String
  deriving DecidableEq, Repr

/-- The function `NewJSONCustomError`. -/
def NewJSONCustomError (t : JSONError) (k : String) : JSONCustomError :=
  { Typ := t, Key := k }

/-- The method `(*JSONCustomError).Error`; the exception is the panic. -/
def JSONCustomError.Error (U : Unicode) (e : JSONCustomError) : Except String String :=
  if e.Key = "" then
    .error "JSONCustomError initialized without a key"
  else if e.Typ = InvalidType then
    .ok ("body contains incorrect JSON type for field " ++ Quote U e.Key)
  else if e.Typ = UnknownKey then
    .ok ("body contains unknown key " ++ e.Key)
  else
    .ok "body contains incorrect JSON type"

/-- Go error values met by the package: its own, and those of `io`,
`encoding/json`, `net/http` and `fmt`. -/
inductive GoError
  /-- The value `io.EOF`. -/
  | EOF
  /-- The value `io.ErrUnexpectedEOF`. -/
  | ErrUnexpectedEOF
  /-- A package-level error of `errors.go`. -/
  | sentinel (s : Sentinel)
  /-- The result of `fmt.Errorf` with one verb `%w`: the formatted text and the wrapped error. -/
  | wrap (text : String) (inner : GoError)
  /-- A `*json.SyntaxError`. -/
  | SyntaxError (msg : String) (Offset : Int)
  /-- A `*json.UnmarshalTypeError`; `Typ` is the name of the Go type in the field `Type`. -/
  | UnmarshalTypeError (Value : String) (Typ : String) (Offset : Int) (Struct : String)
      (Field : String)
  /-- A `*json.InvalidUnmarshalError`, by its text. -/
  | InvalidUnmarshalError (text : String)
  /-- The `*http.MaxBytesError` returned by the reader of `http.MaxBytesReader`. -/
  | MaxBytesError
  /-- Any other error without a wrapped error, by its text. -/
  | errorString (text : String)
  /-- A `*JSONCustomError`. -/
  | custom (e : JSONCustomError)
  deriving DecidableEq, Repr

/-- The method `Error` of an error value; the exception is the panic. -/
def GoError.Error (U : Unicode) : GoError → Except String String
  | .EOF => .ok "EOF"
  | .ErrUnexpectedEOF => .ok "unexpected EOF"
  | .sentinel s => .ok s.text
  | .wrap text _ => .ok text
  | .SyntaxError msg _ => .ok msg
  | .UnmarshalTypeError v t _ s f =>
    if s ≠ "" ∨ f ≠ "" then
      .ok ("json: cannot unmarshal " ++ v ++ " into Go struct field " ++ s ++ "." ++ f
        ++ " of type " ++ t)
    else
      .ok ("json: cannot unmarshal " ++ v ++ " into Go value of type " ++ t)
  | .InvalidUnmarshalError text => .ok text
  | .MaxBytesError => .ok "http: request body too large"
  | .errorString text => .ok text
  | .custom e => e.Error U

/-- Go's `errors.Is` for a target that is a sentinel value: some error of the
chain is the target. -/
def GoError.Is : GoError → GoError → Bool
  | .wrap text inner, target => decide (GoError.wrap text inner = target) || inner.Is target
  | err, target => decide (err = target)

/-- Go's `errors.As` for a `*json.SyntaxError`: the offset of the first one in the chain. -/
def GoError.AsSyntaxError : GoError → Option Int
  | .SyntaxError _ off => some off
  | .wrap _ inner => inner.AsSyntaxError
  | _ => none

/-- Go's `errors.As` for a `*json.UnmarshalTypeError`: the field and the offset
of the first one in the chain. -/
def GoError.AsUnmarshalTypeError : GoError → Option (String × Int)
  | .UnmarshalTypeError _ _ off _ f => some (f, off)
  | .wrap _ inner => inner.AsUnmarshalTypeError
  | _ => none

/-- Go's `errors.As` for a `*json.InvalidUnmarshalError`. -/
def GoError.AsInvalidUnmarshalError : GoError → Bool
  | .InvalidUnmarshalError _ => true
  | .wrap _ inner => inner.AsInvalidUnmarshalError
  | _ => false

/-! ## Standard library: `net/http` headers and `context` -/

/-- Go's `http.Header`, a `map[string][]string`, as an association list; the
first pair with a key is the entry of the map. -/
abbrev Header := List (String × List String)

/-- The map read `h[k]`; `none` when the key is absent. -/
def Header.index : Header → String → Option (List String)
  | [], _ => none
  | (k', v) :: rest, k => if k' = k then some v else Header.index rest k

/-- The map write `h[k] = v`. -/
def Header.assign (h : Header) (k : String) (v : List String) : Header :=
  (k, v) :: h.filter (fun p => decide (p.1 ≠ k))

/-- The bytes `net/textproto` accepts in a header name (`validHeaderFieldByte`). -/
def validHeaderFieldByte (c : Char) : Bool :=
  let n := c.toNat
  (48 ≤ n ∧ n ≤ 57) || (65 ≤ n ∧ n ≤ 90) || (97 ≤ n ∧ n ≤ 122)
    || [33, 35, 36, 37, 38, 39, 42, 43, 45, 46, 94, 95, 96, 124, 126].contains n

/-- The loop of `canonicalMIMEHeaderKey`: upper case at the start and after a
dash, lower case elsewhere. -/
def canonicalLoop : Bool → List Char → List Char
  | _, [] => []
  | upper, c :: cs =>
    let c' :=
      if upper ∧ 97 ≤ c.toNat ∧ c.toNat ≤ 122 then Char.ofNat (c.toNat - 32)
      else if ¬ upper ∧ 65 ≤ c.toNat ∧ c.toNat ≤ 90 then Char.ofNat (c.toNat + 32)
      else c
    c' :: canonicalLoop (c' = '-') cs

/-- Go's `textproto.CanonicalMIMEHeaderKey`: a name with a byte that is not
valid in a header name is returned unchanged. -/
def CanonicalMIMEHeaderKey (s : String) : String :=
  if s.toList.all validHeaderFieldByte then String.mk (canonicalLoop true s.toList) else s

/-- Go's `Header.Get`: the first value of the canonical key, or the empty string. -/
def Header.Get (h : Header) (key : String) : String :=
  match h.index (CanonicalMIMEHeaderKey key) with
  | some (v :: _) => v
  | _ => ""

/-- Go's `Header.Set`: the canonical key gets the single value. -/
def Header.Set (h : Header) (key value : String) : Header :=
  h.assign (CanonicalMIMEHeaderKey key) [value]

/-- A small universe of Go types for the values stored in a context. -/
inductive GoType
  | int
  | string
  | bool
  deriving DecidableEq, Repr

/-- The values of a Go type of the universe. -/
def GoType.interp : GoType → Type
  | .int => Int
  | .string => String
  | .bool => Bool

/-- A non-nil value of the interface type `any`: a dynamic type and a value of it. -/
structure Dynamic where
  /-- The dynamic type. -/
  type : GoType
  /-- The value. -/
  val : type.interp

/-- A value of the interface type `any`; `none` is the nil interface. -/
abbrev Any := Option Dynamic

/-- A key of a context: of the type `ContextKey` of the package, or of another type. -/
inductive CtxKey
  | contextKey (name : String)
  | foreign (id : Nat)
  deriving DecidableEq, Repr

/-- A `context.Context` as the chain of `context.WithValue` calls that built it,
the newest first; the empty chain is `context.Background()`. -/
abbrev Context := List (CtxKey × Any)

/-- Go's `context.WithValue` (the key is comparable and not nil). -/
def WithValue (parent : Context) (key : CtxKey) (val : Any) : Context :=
  (key, val) :: parent

/-- The method `Value` of a context: the value of the newest pair with the key,
nil when there is none. -/
def Context.Value : Context → CtxKey → Any
  | [], _ => none
  | (k, v) :: parent, key => if k = key then v else Context.Value parent key

/-- A type argument of a generic function: a concrete type or the interface `any`. -/
inductive TypeArg
  | concrete (t : GoType)
  | any

/-- The values of a type argument. -/
def TypeArg.interp : TypeArg → Type
  | .concrete t => t.interp
  | .any => Dynamic

/-- The type assertion `x.(V)` in its two-result form: `none` when it fails. -/
def typeAssert (V : TypeArg) (x : Any) : Option V.interp :=
  match V, x with
  | _, none => none
  | .any, some d => some d
  | .concrete t, some d => if h : d.type = t then some (h ▸ d.val) else none

/-- The fields of `*http.Request` the package reads. -/
structure Request where
  /-- The field `Header`. -/
  Header : Header
  /-- The bytes the field `Body` delivers before it reports the end of the stream. -/
  Body : List UInt8
  /-- The context returned by the method `Context`. -/
  ctx : Context

/-! ## http.go -/

/-- The function `ContextSet`. -/
def ContextSet (r : Request) (key : String) (value : Any) : Request :=
  let ctx := WithValue r.ctx (.contextKey key) value
  { r with ctx := ctx }

/-- The function `ContextGet`; the exception is the panic. -/
def ContextGet (V : TypeArg) (r : Request) (key : String) : Except String V.interp :=
  match typeAssert V (r.ctx.Value (.contextKey key)) with
  | none => .error ("key: " ++ key ++ " doesn't exist on context")
  | some value => .ok value

/-- The function `ExtractBearerToken`. -/
def ExtractBearerToken (U : Unicode) (r : Request) : String × Option GoError :=
  let authHeader := r.Header.Get "Authorization"
  if authHeader = "" then
    ("", some (.sentinel .ErrNoAuthHeader))
  else
    let parts := SplitSpace authHeader
    if parts.length ≠ 2 ∨ ToLower U (parts.getD 0 "") ≠ "bearer" then
      ("", some (.sentinel .ErrInvalidAuthHeader))
    else
      (parts.getD 1 "", none)

/-! ## Standard library: `encoding/json` output and `io.Writer` -/

/-- The characters `encoding/json` copies unescaped into a string literal when
HTML escaping is on (`htmlSafeSet`), among the ASCII characters. -/
def htmlSafe (c : Char) : Bool :=
  decide (0x20 ≤ c.toNat ∧ c.toNat < 0x80) && c != dquote && c != backslash
    && c != '<' && c != '>' && c != '&'

/-- The text `encoding/json` writes for one character of a string
(`appendString` with HTML escaping, as of Go 1.22). -/
def escapeJSONChar (c : Char) : List Char :=
  if c.toNat < 0x80 then
    if htmlSafe c then [c]
    else if c = backslash ∨ c = dquote then [backslash, c]
    else if c.toNat = 8 then [backslash, 'b']
    else if c.toNat = 12 then [backslash, 'f']
    else if c.toNat = 10 then [backslash, 'n']
    else if c.toNat = 13 then [backslash, 'r']
    else if c.toNat = 9 then [backslash, 't']
    else [backslash, 'u', '0', '0', lowerhex (c.toNat / 16), lowerhex c.toNat]
  else if c.toNat = 0x2028 ∨ c.toNat = 0x2029 then
    [backslash, 'u', '2', '0', '2', lowerhex c.toNat]
  else [c]

/-- The JSON string literal of a string. -/
def jsonStringChars (s : String) : List Char :=
  dquote :: (s.toList.flatMap escapeJSONChar ++ [dquote])

/-- Lexicographic order of strings by code point, the order of Go's `<` on
valid UTF-8 strings. -/
def ltChars : List Char → List Char → Bool
  | [], [] => false
  | [], _ :: _ => true
  | _ :: _, [] => false
  | a :: as, b :: bs => if a.toNat < b.toNat then true else if b.toNat < a.toNat then false
    else ltChars as bs

/-- Insertion of a pair into a list sorted by key. -/
def insertByKey {α : Type} (p : String × α) : List (String × α) → List (String × α)
  | [] => [p]
  | q :: qs => if ltChars q.1.toList p.1.toList then q :: insertByKey p qs else p :: q :: qs

/-- The pairs of a map in the order of their keys, as `encoding/json` writes them. -/
def sortByKey {α : Type} : List (String × α) → List (String × α)
  | [] => []
  | p :: ps => insertByKey p (sortByKey ps)

/-- The members of a JSON object joined by commas. -/
def joinMembers : List (List Char) → List Char
  | [] => []
  | [m] => m
  | m :: ms => m ++ ',' :: joinMembers ms

/-- The JSON text of a `map[string]string`; a map is a list of pairs with distinct keys. -/
def jsonMapChars (m : List (String × String)) : List Char :=
  '{' :: (joinMembers ((sortByKey m).map
    (fun p => jsonStringChars p.1 ++ ':' :: jsonStringChars p.2)) ++ ['}'])

/-- An `io.Writer` with state `σ`: the method `Write` maps the state and the data
to the new state, the number of bytes written and the error. -/
structure Writer (σ : Type) where
  /-- The method `Write`. -/
  Write : σ → String → σ × Nat × Option GoError

/-- The length in bytes of a string. -/
def byteLen (s : String) : Nat :=
  (s.toList.map Char.utf8Size).sum

/-- A `bytes.Buffer` as a writer: the state is the content. -/
def bytesBuffer : Writer String :=
  { Write := fun content data => (content ++ data, byteLen data, none) }

/-! ## logger.go -/

/-- The type `Level` is an `int8`. -/
abbrev Level := Int

/-- The constant `LevelInfo`. -/
def LevelInfo : Level := 0

/-- The constant `LevelError`. -/
def LevelError : Level := 1

/-- The constant `LevelFatal`. -/
def LevelFatal : Level := 2

/-- The method `Level.String`. -/
def Level.String (l : Level) : String :=
  if l = LevelInfo then "INFO"
  else if l = LevelError then "ERROR"
  else if l = LevelFatal then "FATAL"
  else ""

/-- The struct `LogEntry`; the absent (nil) map of properties is the empty list. -/
structure LogEntry where
  /-- The field `Level`, tagged `json:"level"`. -/
  Level : String
  /-- The field `Time`, tagged `json:"time"`. -/
  Time : String
  /-- The field `Message`, tagged `json:"message,omitempty"`. -/
  Message : String
  /-- The field `Properties`, tagged `json:"properties,omitempty"`. -/
  Properties : List (String × String)
  /-- The field `Trace`, tagged `json:"trace,omitempty"`. -/
  Trace : String
  deriving DecidableEq, Repr

/-- The members `json.Marshal` writes for a `LogEntry`, by the tags of the
struct: name and JSON text, a member tagged `omitempty` being left out when its
value is empty. -/
def LogEntry.members (e : LogEntry) : List (String × List Char) :=
  [("level", jsonStringChars e.Level), ("time", jsonStringChars e.Time)]
    ++ (if e.Message = "" then [] else [("message", jsonStringChars e.Message)])
    ++ (if e.Properties = [] then [] else [("properties", jsonMapChars e.Properties)])
    ++ (if e.Trace = "" then [] else [("trace", jsonStringChars e.Trace)])

/-- Go's `json.Marshal` on a `LogEntry`; it has no failing case on this type. -/
def MarshalLogEntry (e : LogEntry) : Except GoError String :=
  .ok (String.mk ('{' :: (joinMembers (e.members.map
    (fun m => jsonStringChars m.1 ++ ':' :: m.2)) ++ ['}'])))

/-- What the process reads from its environment when it logs. -/
structure Runtime where
  /-- The value of `time.Now().UTC().Format(time.RFC3339)`. -/
  now : String
  /-- The value of `string(debug.Stack())`. -/
  stack : String

/-- The struct `Logger`: the state of the sink `out` and the minimum level
(the mutex has no content in a sequential run). -/
structure Logger (σ : Type) where
  /-- The state of the writer `out`. -/
  out : σ
  /-- The field `minLevel`. -/
  minLevel : Level

/-- The function `NewLogger`. -/
def NewLogger {σ : Type} (out : σ) (minLevel : Level) : Logger σ :=
  { out := out, minLevel := minLevel }

/-- The method `Logger.print`: the logger after the call, the number of bytes
written and the error. -/
def Logger.print {σ : Type} (U : Unicode) (W : Writer σ) (rt : Runtime) (l : Logger σ)
    (level : Level) (message : String) (properties : List (String × String)) :
    Logger σ × Nat × Option GoError :=
  if level < l.minLevel then
    (l, 0, none)
  else
    let entry : LogEntry :=
      { Level := level.String, Time := rt.now, Message := message, Properties := properties,
        Trace := "" }
    let entry := if level ≥ LevelError then { entry with Trace := rt.stack } else entry
    let line : String :=
      match MarshalLogEntry entry with
      | .ok js => js
      | .error err =>
        LevelError.String ++ ": unable to marshal log message: "
          ++ (match err.Error U with | .ok s => s | .error p => p)
    let r := W.Write l.out (line ++ "\n")
    ({ l with out := r.1 }, r.2.1, r.2.2)

/-- The entry `Logger.print` builds for a level it does not drop. -/
def Logger.entry (rt : Runtime) (level : Level) (message : String)
    (properties : List (String × String)) : LogEntry :=
  { Level := level.String, Time := rt.now, Message := message, Properties := properties,
    Trace := if level ≥ LevelError then rt.stack else "" }

/-- The verb `%v` of `fmt` on an error: its text, a panic of the method `Error`
being caught and reported in the output. -/
def formatError (U : Unicode) (err : GoError) : String :=
  match err.Error U with
  | .ok s => s
  | .error p => "%!v(PANIC=Error method: " ++ p ++ ")"

/-- What an emit operation leaves behind: the logger, what was written to the
standard error stream, and the exit code when the process was ended. -/
structure Emitted (σ : Type) where
  /-- The logger after the call. -/
  logger : Logger σ
  /-- The writes of the method `Logger.error` to `os.Stderr`. -/
  stderr : List String
  /-- The argument of `os.Exit`, when it was called. -/
  exit : Option Nat

/-- The method `Logger.error`: the text written to `os.Stderr`. -/
def Logger.error (U : Unicode) (err : GoError) : String :=
  "Failed to log message: " ++ formatError U err ++ "\n"

/-- The method `Logger.PrintInfo`. -/
def Logger.PrintInfo {σ : Type} (U : Unicode) (W : Writer σ) (rt : Runtime) (l : Logger σ)
    (message : String) (properties : List (String × String)) : Emitted σ :=
  match l.print U W rt LevelInfo message properties with
  | (l', _, some err) => { logger := l', stderr := [Logger.error U err], exit := none }
  | (l', _, none) => { logger := l', stderr := [], exit := none }

/-- The method `Logger.PrintError`; the exception is the panic of `err.Error()`. -/
def Logger.PrintError {σ : Type} (U : Unicode) (W : Writer σ) (rt : Runtime) (l : Logger σ)
    (err : GoError) (properties : List (String × String)) : Except String (Emitted σ) :=
  match err.Error U with
  | .error p => .error p
  | .ok message =>
    match l.print U W rt LevelError message properties with
    | (l', _, some err) => .ok { logger := l', stderr := [Logger.error U err], exit := none }
    | (l', _, none) => .ok { logger := l', stderr := [], exit := none }

/-- The method `Logger.PrintFatal`; the exception is the panic of `err.Error()`. -/
def Logger.PrintFatal {σ : Type} (U : Unicode) (W : Writer σ) (rt : Runtime) (l : Logger σ)
    (err : GoError) (properties : List (String × String)) : Except String (Emitted σ) :=
  match err.Error U with
  | .error p => .error p
  | .ok message =>
    match l.print U W rt LevelFatal message properties with
    | (l', _, some err) => .ok { logger := l', stderr := [Logger.error U err], exit := some 1 }
    | (l', _, none) => .ok { logger := l', stderr := [], exit := some 1 }

/-! ## Standard library: `http.ResponseWriter` and `httptest.ResponseRecorder` -/

/-- An `http.ResponseWriter` with state `σ`; the exception is a panic. -/
structure ResponseWriter (σ : Type) where
  /-- The map returned by the method `Header`. -/
  Header : σ → Common.Header
  /-- The state after the map returned by `Header` was changed in place. -/
  setHeader : σ → Common.Header → σ
  /-- The method `WriteHeader`. -/
  WriteHeader : σ → Int → Except String σ
  /-- The method `Write`. -/
  Write : σ → String → Except String (σ × Nat × Option GoError)

/-- The fields of `httptest.ResponseRecorder`. -/
structure ResponseRecorder where
  /-- The field `Code`. -/
  Code : Int
  /-- The field `HeaderMap`. -/
  HeaderMap : Header
  /-- The content of the field `Body`. -/
  Body : String
  /-- The field `snapHeader`, the headers as they were when the header was written. -/
  snapHeader : Header
  /-- The field `wroteHeader`. -/
  wroteHeader : Bool

/-- Go's `httptest.NewRecorder`. -/
def NewRecorder : ResponseRecorder :=
  { Code := 200, HeaderMap := [], Body := "", snapHeader := [], wroteHeader := false }

/-- The method `ResponseRecorder.WriteHeader`, with the check of
`checkWriteHeaderCode`. -/
def ResponseRecorder.WriteHeader (rw : ResponseRecorder) (code : Int) :
    Except String ResponseRecorder :=
  if rw.wroteHeader then .ok rw
  else if code < 100 ∨ code > 999 then .error ("invalid WriteHeader code " ++ formatInt code)
  else .ok { rw with Code := code, wroteHeader := true, snapHeader := rw.HeaderMap }

/-- The error `http.ErrBodyNotAllowed`. -/
def ErrBodyNotAllowed : GoError :=
  .errorString "http: request method or response status code does not allow body"

/-- The function `bodyAllowedForStatus` of `net/http`: a status from 100 to 199,
204 and 304 allow no body. -/
def bodyAllowedForStatus (status : Int) : Bool :=
  if 100 ≤ status ∧ status ≤ 199 then false
  else if status = 204 then false
  else if status = 304 then false
  else true

/-- The method `ResponseRecorder.Write`; `sniff` is `http.DetectContentType`,
consulted when the header was not written and has no content type.  The write
is recorded in every case; when the recorded status allows no body the method
returns 0 and `http.ErrBodyNotAllowed`. -/
def ResponseRecorder.Write (sniff : String → String) (rw : ResponseRecorder) (buf : String) :
    Except String (ResponseRecorder × Nat × Option GoError) :=
  let written : Except String ResponseRecorder :=
    if rw.wroteHeader then .ok rw
    else
      let m :=
        if (rw.HeaderMap.index "Content-Type").isNone ∧ rw.HeaderMap.Get "Transfer-Encoding" = ""
        then rw.HeaderMap.Set "Content-Type" (sniff buf) else rw.HeaderMap
      ResponseRecorder.WriteHeader { rw with HeaderMap := m } 200
  match written with
  | .error p => .error p
  | .ok rw' =>
    if bodyAllowedForStatus rw'.Code then .ok ({ rw' with Body := rw'.Body ++ buf }, byteLen buf, none)
    else .ok ({ rw' with Body := rw'.Body ++ buf }, 0, some ErrBodyNotAllowed)

/-- The recorder as a response writer. -/
def recorder (sniff : String → String) : ResponseWriter ResponseRecorder :=
  { Header := fun rw => rw.HeaderMap,
    setHeader := fun rw m => { rw with HeaderMap := m },
    WriteHeader := ResponseRecorder.WriteHeader,
    Write := ResponseRecorder.Write sniff }

/-! ## encoding.go: `WriteJSON` -/

/-- A small universe of the values of type `any` stored in an envelope;
`unsupported` is a value of a type `encoding/json` cannot write (a channel, a
function), by the name of its type. -/
inductive EnvelopeValue
  | null
  | bool (b : Bool)
  | int (i : Int)
  | str (s : String)
  | unsupported (typeName : String)
  deriving DecidableEq, Repr

/-- The type `Envelope`, a `map[string]any`: `none` is the nil map, a map is a
list of pairs with distinct keys. -/
abbrev Envelope := Option (List (String × EnvelopeValue))

/-- The JSON text `encoding/json` writes for a value of the universe, or the
`*json.UnsupportedTypeError`. -/
def EnvelopeValue.marshal : EnvelopeValue → Except GoError (List Char)
  | .null => .ok "null".toList
  | .bool b => .ok (if b then "true".toList else "false".toList)
  | .int i => .ok (formatInt i).toList
  | .str s => .ok (jsonStringChars s)
  | .unsupported t => .error (.errorString ("json: unsupported type: " ++ t))

/-- The members of a JSON object, the pairs taken in order; the first value
that cannot be written ends the encoding. -/
def marshalMembers : List (String × EnvelopeValue) → Except GoError (List (List Char))
  | [] => .ok []
  | (k, v) :: rest =>
    match v.marshal with
    | .error err => .error err
    | .ok text =>
      match marshalMembers rest with
      | .error err => .error err
      | .ok ms => .ok ((jsonStringChars k ++ ':' :: text) :: ms)

/-- Go's `json.Marshal` on an `Envelope`. -/
def Marshal (data : Envelope) : Except GoError String :=
  match data with
  | none => .ok "null"
  | some m =>
    match marshalMembers (sortByKey m) with
    | .error err => .error err
    | .ok ms => .ok (String.mk ('{' :: (joinMembers ms ++ ['}'])))

/-- The function `WriteJSON`; the exception is a panic of the response writer.
The order in which Go ranges over a map is not specified: the pairs of `headers`
are taken last to first, so that the first pair with a key, which is the entry
of the map, is the one assigned last. -/
def WriteJSON {σ : Type} (U : Unicode) (W : ResponseWriter σ) (w : σ) (status : Int)
    (data : Envelope) (headers : Header) : Except String (σ × Option GoError) :=
  match Marshal data with
  | .error err =>
    .ok (w, some (.wrap ("error marshalling JSON: " ++ formatError U err) err))
  | .ok js =>
    let w1 := headers.foldr (fun kv w => W.setHeader w ((W.Header w).assign kv.1 kv.2)) w
    let w2 := W.setHeader w1 ((W.Header w1).Set "Content-Type" "application/json")
    match W.WriteHeader w2 status with
    | .error p => .error p
    | .ok w3 =>
      match W.Write w3 js with
      | .error p => .error p
      | .ok (w4, _, err) => .ok (w4, err)

/-! ## Standard library: the scanner of `encoding/json` (`scanner.go`) -/

/-- The state functions of the scanner, the values of its field `step`. -/
inductive Step
  | BeginValueOrEmpty | BeginValue | BeginStringOrEmpty | BeginString | EndValue | EndTop
  | InString | InStringEsc | InStringEscU | InStringEscU1 | InStringEscU12 | InStringEscU123
  | Neg | S1 | S0 | Dot | Dot0 | E | ESign | E0
  | T | Tr | Tru | F | Fa | Fal | Fals | N | Nu | Nul
  | Error
  deriving DecidableEq, Repr

/-- The values pushed on the parse stack (`parseObjectKey` and so on). -/
inductive ParseState
  | ObjectKey | ObjectValue | ArrayValue
  deriving DecidableEq, Repr

/-- The codes a step returns (`scanContinue` and so on). -/
inductive ScanCode
  | Continue | BeginLiteral | BeginObject | ObjectKey | ObjectValue | EndObject
  | BeginArray | ArrayValue | EndArray | SkipSpace | End | Error
  deriving DecidableEq, Repr

/-- The struct `scanner`; the parse stack has its top first. -/
structure Scanner where
  /-- The field `step`. -/
  step : Step
  /-- The field `endTop`. -/
  endTop : Bool
  /-- The field `parseState`. -/
  parseState : List ParseState
  /-- The field `err`. -/
  err : Option GoError
  /-- The field `bytes`, the number of bytes given to the scanner. -/
  bytes : Int
  deriving DecidableEq, Repr

/-- The constant `maxNestingDepth`. -/
def maxNestingDepth : Nat := 10000

/-- The function `quoteChar`: a byte formatted as a quoted character literal. -/
def quoteChar (c : UInt8) : String :=
  if c.toNat = 39 then String.mk [Char.ofNat 39, backslash, Char.ofNat 39, Char.ofNat 39]
  else if c.toNat = 34 then String.mk [Char.ofNat 39, dquote, Char.ofNat 39]
  else String.mk (Char.ofNat 39 ::
    (appendEscapedRuneWith isPrintLatin1 (Char.ofNat c.toNat) ++ [Char.ofNat 39]))

/-- The method `scanner.error`. -/
def Scanner.error (s : Scanner) (c : UInt8) (context : String) : Scanner × ScanCode :=
  ({ s with step := .Error,
            err := some (.SyntaxError ("invalid character " ++ quoteChar c ++ " " ++ context)
              s.bytes) }, .Error)

/-- The method `scanner.reset`. -/
def Scanner.reset (s : Scanner) : Scanner :=
  { s with step := .BeginValue, parseState := [], err := none, endTop := false }

/-- The method `scanner.pushParseState`. -/
def Scanner.pushParseState (s : Scanner) (c : UInt8) (newParseState : ParseState)
    (successState : ScanCode) : Scanner × ScanCode :=
  let s' := { s with parseState := newParseState :: s.parseState }
  if s'.parseState.length ≤ maxNestingDepth then (s', successState)
  else s'.error c "exceeded max depth"

/-- The method `scanner.popParseState`. -/
def Scanner.popParseState (s : Scanner) : Scanner :=
  let rest := s.parseState.tail
  if rest.length = 0 then { s with parseState := rest, step := .EndTop, endTop := true }
  else { s with parseState := rest, step := .EndValue }

/-- The function `isSpace`. -/
def isSpace (c : UInt8) : Bool :=
  c.toNat = 32 || c.toNat = 9 || c.toNat = 13 || c.toNat = 10

/-- Whether the byte is a decimal digit. -/
def isDigit (c : UInt8) : Bool :=
  decide (48 ≤ c.toNat ∧ c.toNat ≤ 57)

/-- Whether the byte is a hexadecimal digit. -/
def isHexDigit (c : UInt8) : Bool :=
  isDigit c || decide (97 ≤ c.toNat ∧ c.toNat ≤ 102) || decide (65 ≤ c.toNat ∧ c.toNat ≤ 70)

/-- The state `stateEndTop`: a non-space byte after the top-level value records
an error and the code is `scanEnd` all the same. -/
def stateEndTop (s : Scanner) (c : UInt8) : Scanner × ScanCode :=
  if ¬ isSpace c then ((s.error c "after top-level value").1, .End) else (s, .End)

/-- The state `stateEndValue`. -/
def stateEndValue (s : Scanner) (c : UInt8) : Scanner × ScanCode :=
  match s.parseState with
  | [] => stateEndTop { s with step := .EndTop, endTop := true } c
  | ps :: rest =>
    if isSpace c then ({ s with step := .EndValue }, .SkipSpace)
    else
      match ps with
      | .ObjectKey =>
        if c.toNat = 58 then
          ({ s with parseState := .ObjectValue :: rest, step := .BeginValue }, .ObjectKey)
        else s.error c "after object key"
      | .ObjectValue =>
        if c.toNat = 44 then
          ({ s with parseState := .ObjectKey :: rest, step := .BeginString }, .ObjectValue)
        else if c.toNat = 125 then (s.popParseState, .EndObject)
        else s.error c "after object key:value pair"
      | .ArrayValue =>
        if c.toNat = 44 then ({ s with step := .BeginValue }, .ArrayValue)
        else if c.toNat = 93 then (s.popParseState, .EndArray)
        else s.error c "after array element"

/-- The state `stateBeginValue`. -/
def stateBeginValue (s : Scanner) (c : UInt8) : Scanner × ScanCode :=
  if isSpace c then (s, .SkipSpace)
  else if c.toNat = 123 then
    Scanner.pushParseState { s with step := .BeginStringOrEmpty } c .ObjectKey .BeginObject
  else if c.toNat = 91 then
    Scanner.pushParseState { s with step := .BeginValueOrEmpty } c .ArrayValue .BeginArray
  else if c.toNat = 34 then ({ s with step := .InString }, .BeginLiteral)
  else if c.toNat = 45 then ({ s with step := .Neg }, .BeginLiteral)
  else if c.toNat = 48 then ({ s with step := .S0 }, .BeginLiteral)
  else if c.toNat = 116 then ({ s with step := .T }, .BeginLiteral)
  else if c.toNat = 102 then ({ s with step := .F }, .BeginLiteral)
  else if c.toNat = 110 then ({ s with step := .N }, .BeginLiteral)
  else if 49 ≤ c.toNat ∧ c.toNat ≤ 57 then ({ s with step := .S1 }, .BeginLiteral)
  else s.error c "looking for beginning of value"

/-- The state `stateBeginValueOrEmpty`. -/
def stateBeginValueOrEmpty (s : Scanner) (c : UInt8) : Scanner × ScanCode :=
  if isSpace c then (s, .SkipSpace)
  else if c.toNat = 93 then stateEndValue s c
  else stateBeginValue s c

/-- The state `stateBeginString`. -/
def stateBeginString (s : Scanner) (c : UInt8) : Scanner × ScanCode :=
  if isSpace c then (s, .SkipSpace)
  else if c.toNat = 34 then ({ s with step := .InString }, .BeginLiteral)
  else s.error c "looking for beginning of object key string"

/-- The state `stateBeginStringOrEmpty`. -/
def stateBeginStringOrEmpty (s : Scanner) (c : UInt8) : Scanner × ScanCode :=
  if isSpace c then (s, .SkipSpace)
  else if c.toNat = 125 then
    stateEndValue { s with parseState := .ObjectValue :: s.parseState.tail } c
  else stateBeginString s c

/-- The state `stateInString`. -/
def stateInString (s : Scanner) (c : UInt8) : Scanner × ScanCode :=
  if c.toNat = 34 then ({ s with step := .EndValue }, .Continue)
  else if c.toNat = 92 then ({ s with step := .InStringEsc }, .Continue)
  else if c.toNat < 0x20 then s.error c "in string literal"
  else (s, .Continue)

/-- The state `stateInStringEsc`. -/
def stateInStringEsc (s : Scanner) (c : UInt8) : Scanner × ScanCode :=
  if [98, 102, 110, 114, 116, 92, 47, 34].contains c.toNat then
    ({ s with step := .InString }, .Continue)
  else if c.toNat = 117 then ({ s with step := .InStringEscU }, .Continue)
  else s.error c "in string escape code"

/-- The states `stateInStringEscU` to `stateInStringEscU123`: `next` is the
state after a hexadecimal digit. -/
def stateInStringEscHex (next : Step) (s : Scanner) (c : UInt8) : Scanner × ScanCode :=
  if isHexDigit c then ({ s with step := next }, .Continue)
  else s.error c "in \\u hexadecimal character escape"

/-- The state `state0`. -/
def state0 (s : Scanner) (c : UInt8) : Scanner × ScanCode :=
  if c.toNat = 46 then ({ s with step := .Dot }, .Continue)
  else if c.toNat = 101 ∨ c.toNat = 69 then ({ s with step := .E }, .Continue)
  else stateEndValue s c

/-- The state `state1`. -/
def state1 (s : Scanner) (c : UInt8) : Scanner × ScanCode :=
  if isDigit c then ({ s with step := .S1 }, .Continue) else state0 s c

/-- The state `stateNeg`. -/
def stateNeg (s : Scanner) (c : UInt8) : Scanner × ScanCode :=
  if c.toNat = 48 then ({ s with step := .S0 }, .Continue)
  else if 49 ≤ c.toNat ∧ c.toNat ≤ 57 then ({ s with step := .S1 }, .Continue)
  else s.error c "in numeric literal"

/-- The state `stateDot`. -/
def stateDot (s : Scanner) (c : UInt8) : Scanner × ScanCode :=
  if isDigit c then ({ s with step := .Dot0 }, .Continue)
  else s.error c "after decimal point in numeric literal"

/-- The state `stateDot0`. -/
def stateDot0 (s : Scanner) (c : UInt8) : Scanner × ScanCode :=
  if isDigit c then (s, .Continue)
  else if c.toNat = 101 ∨ c.toNat = 69 then ({ s with step := .E }, .Continue)
  else stateEndValue s c

/-- The state `stateESign`. -/
def stateESign (s : Scanner) (c : UInt8) : Scanner × ScanCode :=
  if isDigit c then ({ s with step := .E0 }, .Continue)
  else s.error c "in exponent of numeric literal"

/-- The state `stateE`. -/
def stateE (s : Scanner) (c : UInt8) : Scanner × ScanCode :=
  if c.toNat = 43 ∨ c.toNat = 45 then ({ s with step := .ESign }, .Continue)
  else stateESign s c

/-- The state `stateE0`. -/
def stateE0 (s : Scanner) (c : UInt8) : Scanner × ScanCode :=
  if isDigit c then (s, .Continue) else stateEndValue s c

/-- The states of the literals `true`, `false` and `null`: the byte expected,
the state that follows and the context of the error. -/
def stateLiteral (expected : Nat) (next : Step) (context : String) (s : Scanner) (c : UInt8) :
    Scanner × ScanCode :=
  if c.toNat = expected then ({ s with step := next }, .Continue) else s.error c context

/-- One call `s.step(s, c)`: the state function held by the field `step`. -/
def Scanner.run (s : Scanner) (c : UInt8) : Scanner × ScanCode :=
  match s.step with
  | .BeginValueOrEmpty => stateBeginValueOrEmpty s c
  | .BeginValue => stateBeginValue s c
  | .BeginStringOrEmpty => stateBeginStringOrEmpty s c
  | .BeginString => stateBeginString s c
  | .EndValue => stateEndValue s c
  | .EndTop => stateEndTop s c
  | .InString => stateInString s c
  | .InStringEsc => stateInStringEsc s c
  | .InStringEscU => stateInStringEscHex .InStringEscU1 s c
  | .InStringEscU1 => stateInStringEscHex .InStringEscU12 s c
  | .InStringEscU12 => stateInStringEscHex .InStringEscU123 s c
  | .InStringEscU123 => stateInStringEscHex .InString s c
  | .Neg => stateNeg s c
  | .S1 => state1 s c
  | .S0 => state0 s c
  | .Dot => stateDot s c
  | .Dot0 => stateDot0 s c
  | .E => stateE s c
  | .ESign => stateESign s c
  | .E0 => stateE0 s c
  | .T => stateLiteral 114 .Tr "in literal true (expecting 'r')" s c
  | .Tr => stateLiteral 117 .Tru "in literal true (expecting 'u')" s c
  | .Tru => stateLiteral 101 .EndValue "in literal true (expecting 'e')" s c
  | .F => stateLiteral 97 .Fa "in literal false (expecting 'a')" s c
  | .Fa => stateLiteral 108 .Fal "in literal false (expecting 'l')" s c
  | .Fal => stateLiteral 115 .Fals "in literal false (expecting 's')" s c
  | .Fals => stateLiteral 101 .EndValue "in literal false (expecting 'e')" s c
  | .N => stateLiteral 117 .Nu "in literal null (expecting 'u')" s c
  | .Nu => stateLiteral 108 .Nul "in literal null (expecting 'l')" s c
  | .Nul => stateLiteral 108 .EndValue "in literal null (expecting 'l')" s c
  | .Error => (s, .Error)

/-- How the search for the end of a value in the bytes at hand ends. -/
inductive ScanOutcome
  /-- A complete value of `n` bytes. -/
  | value (n : Nat) (s : Scanner)
  /-- A syntax error. -/
  | failed (err : GoError) (s : Scanner)
  /-- The bytes ran out before the value was complete. -/
  | needMore (s : Scanner)
  deriving DecidableEq, Repr

/-- The inner loop of `Decoder.readValue` over the bytes of the stream; `n` bytes
were scanned so far. -/
def scanValue : Scanner → List UInt8 → Nat → ScanOutcome
  | s, [], _ => .needMore s
  | s, c :: cs, n =>
    let r := Scanner.run { s with bytes := s.bytes + 1 } c
    match r.2 with
    | .End => .value n { r.1 with bytes := r.1.bytes - 1 }
    | .EndObject =>
      if (stateEndValue r.1 32).2 = .End then .value (n + 1) (stateEndValue r.1 32).1
      else scanValue (stateEndValue r.1 32).1 cs (n + 1)
    | .EndArray =>
      if (stateEndValue r.1 32).2 = .End then .value (n + 1) (stateEndValue r.1 32).1
      else scanValue (stateEndValue r.1 32).1 cs (n + 1)
    | .Error =>
      match r.1.err with
      | some err => .failed err r.1
      | none => .failed (.SyntaxError "" r.1.bytes) r.1
    | _ => scanValue r.1 cs (n + 1)

/-! ## Standard library: UTF-8 and the string literals of `encoding/json` -/

/-- The code point `utf8.RuneError`, U+FFFD. -/
def RuneError : Char := Char.ofNat 0xFFFD

/-- Whether the byte lies between the bounds, both included. -/
def inRange (lo hi : Nat) (b : UInt8) : Bool :=
  decide (lo ≤ b.toNat ∧ b.toNat ≤ hi)

/-- Go's `utf8.DecodeRune`: the code point at the head of the bytes and its
width; an encoding that is not valid gives `RuneError` and the width 1. -/
def DecodeRune : List UInt8 → Char × Nat
  | [] => (RuneError, 0)
  | b0 :: rest =>
    let n0 := b0.toNat
    if n0 < 0x80 then (Char.ofNat n0, 1)
    else if n0 < 0xC2 then (RuneError, 1)
    else if n0 < 0xE0 then
      match rest with
      | b1 :: _ =>
        if inRange 0x80 0xBF b1 then (Char.ofNat ((n0 - 0xC0) * 64 + (b1.toNat - 0x80)), 2)
        else (RuneError, 1)
      | _ => (RuneError, 1)
    else if n0 < 0xF0 then
      match rest with
      | b1 :: b2 :: _ =>
        if inRange (if n0 = 0xE0 then 0xA0 else 0x80) (if n0 = 0xED then 0x9F else 0xBF) b1
            ∧ inRange 0x80 0xBF b2 then
          (Char.ofNat ((n0 - 0xE0) * 4096 + (b1.toNat - 0x80) * 64 + (b2.toNat - 0x80)), 3)
        else (RuneError, 1)
      | _ => (RuneError, 1)
    else if n0 < 0xF5 then
      match rest with
      | b1 :: b2 :: b3 :: _ =>
        if inRange (if n0 = 0xF0 then 0x90 else 0x80) (if n0 = 0xF4 then 0x8F else 0xBF) b1
            ∧ inRange 0x80 0xBF b2 ∧ inRange 0x80 0xBF b3 then
          (Char.ofNat ((n0 - 0xF0) * 262144 + (b1.toNat - 0x80) * 4096
            + (b2.toNat - 0x80) * 64 + (b3.toNat - 0x80)), 4)
        else (RuneError, 1)
      | _ => (RuneError, 1)
    else (RuneError, 1)

/-- The UTF-8 encoding of a code point. -/
def utf8Bytes (c : Char) : List UInt8 :=
  let n := c.toNat
  if n < 0x80 then [n.toUInt8]
  else if n < 0x800 then [(0xC0 + n / 64).toUInt8, (0x80 + n % 64).toUInt8]
  else if n < 0x10000 then
    [(0xE0 + n / 4096).toUInt8, (0x80 + n / 64 % 64).toUInt8, (0x80 + n % 64).toUInt8]
  else
    [(0xF0 + n / 262144).toUInt8, (0x80 + n / 4096 % 64).toUInt8, (0x80 + n / 64 % 64).toUInt8,
      (0x80 + n % 64).toUInt8]

/-- The bytes of a string, its UTF-8 encoding. -/
def bytesOf (s : String) : List UInt8 :=
  s.toList.flatMap utf8Bytes

/-- The value of a hexadecimal digit. -/
def hexValue (c : UInt8) : Option Nat :=
  if 48 ≤ c.toNat ∧ c.toNat ≤ 57 then some (c.toNat - 48)
  else if 97 ≤ c.toNat ∧ c.toNat ≤ 102 then some (c.toNat - 97 + 10)
  else if 65 ≤ c.toNat ∧ c.toNat ≤ 70 then some (c.toNat - 65 + 10)
  else none

/-- The function `getu4` of `decode.go`: the number written by a leading
`\uXXXX` and the bytes after it. -/
def getu4 : List UInt8 → Option (Nat × List UInt8)
  | b :: u :: h1 :: h2 :: h3 :: h4 :: rest =>
    if b.toNat = 92 ∧ u.toNat = 117 then
      match hexValue h1, hexValue h2, hexValue h3, hexValue h4 with
      | some a, some b, some c, some d => some (((a * 16 + b) * 16 + c) * 16 + d, rest)
      | _, _, _, _ => none
    else none
  | _ => none

/-- The character of a one-letter escape of a JSON string. -/
def simpleEscape (e : UInt8) : Option Char :=
  if e.toNat = 34 ∨ e.toNat = 92 ∨ e.toNat = 47 ∨ e.toNat = 39 then some (Char.ofNat e.toNat)
  else if e.toNat = 98 then some (Char.ofNat 8)
  else if e.toNat = 102 then some (Char.ofNat 12)
  else if e.toNat = 110 then some (Char.ofNat 10)
  else if e.toNat = 114 then some (Char.ofNat 13)
  else if e.toNat = 116 then some (Char.ofNat 9)
  else none

/-- The function `unquoteBytes` of `decode.go`, from the byte after the opening
quote: the text of the string literal, coerced to well-formed UTF-8, and the
bytes after the closing quote; `none` when the bytes are no string literal. -/
def unquoteRest : Nat → List UInt8 → Option (List Char × List UInt8)
  | 0, _ => none
  | _ + 1, [] => none
  | fuel + 1, c :: cs =>
    if c.toNat = 34 then some ([], cs)
    else if c.toNat = 92 then
      match cs with
      | [] => none
      | e :: cs' =>
        if e.toNat = 117 then
          match getu4 (c :: cs) with
          | none => none
          | some (rr, after) =>
            if 0xD800 ≤ rr ∧ rr < 0xE000 then
              match getu4 after with
              | some (rr1, after1) =>
                if rr < 0xDC00 ∧ 0xDC00 ≤ rr1 ∧ rr1 < 0xE000 then
                  (unquoteRest fuel after1).map
                    (fun p => (Char.ofNat ((rr - 0xD800) * 1024 + (rr1 - 0xDC00) + 0x10000)
                      :: p.1, p.2))
                else (unquoteRest fuel after).map (fun p => (RuneError :: p.1, p.2))
              | none => (unquoteRest fuel after).map (fun p => (RuneError :: p.1, p.2))
            else (unquoteRest fuel after).map (fun p => (Char.ofNat rr :: p.1, p.2))
        else
          match simpleEscape e with
          | none => none
          | some ch => (unquoteRest fuel cs').map (fun p => (ch :: p.1, p.2))
    else if c.toNat < 0x20 then none
    else if c.toNat < 0x80 then
      (unquoteRest fuel cs).map (fun p => (Char.ofNat c.toNat :: p.1, p.2))
    else
      (unquoteRest fuel ((c :: cs).drop (DecodeRune (c :: cs)).2)).map
        (fun p => ((DecodeRune (c :: cs)).1 :: p.1, p.2))

/-! ## Standard library: `Unmarshal` of `encoding/json` (`decode.go`)

The destinations modelled are those the package decodes into: a pointer to a
`map[string]string`, a pointer to a struct whose fields are strings, and a
destination that is no valid target. -/

/-- The kinds of JSON value the decoder names in a type error, with the text
of a string. -/
inductive Kind
  | null
  | bool
  | number
  | string (s : String)
  | object
  | array
  deriving DecidableEq, Repr

/-- The field `Value` of an `UnmarshalTypeError` for a kind of JSON value. -/
def Kind.name : Kind → String
  | .null => "null"
  | .bool => "bool"
  | .number => "number"
  | .string _ => "string"
  | .object => "object"
  | .array => "array"

/-- A value read from the bytes: its kind, the offset a type error on it
reports, and the bytes after it. -/
structure Item where
  /-- The kind of the value. -/
  kind : Kind
  /-- The offset `d.readIndex()` after a literal, `d.off` after the opening
  bracket of an object or array. -/
  off : Nat
  /-- The bytes after the value. -/
  rest : List UInt8
  deriving DecidableEq, Repr

/-- The scanner before the first byte of a value. -/
def freshScanner : Scanner :=
  { step := .BeginValue, endTop := false, parseState := [], err := none, bytes := 0 }

/-- The bytes a number literal is made of, as `rescanLiteral` reads them. -/
def numberByte (c : UInt8) : Bool :=
  isDigit c || c.toNat = 46 || c.toNat = 101 || c.toNat = 69 || c.toNat = 43 || c.toNat = 45

/-- The value at the head of `data`, which starts at its first byte; `total` is
the length of the whole text being decoded, from which the offsets are
counted.  `none` when the bytes start no value. -/
def readItem (total : Nat) (data : List UInt8) : Option Item :=
  match data with
  | [] => none
  | c :: cs =>
    if c.toNat = 34 then
      (unquoteRest data.length cs).map
        (fun p => { kind := .string (String.mk p.1), off := total - p.2.length, rest := p.2 })
    else if c.toNat = 45 ∨ isDigit c then
      some { kind := .number, off := total - (cs.dropWhile numberByte).length,
             rest := cs.dropWhile numberByte }
    else if c.toNat = 116 then
      some { kind := .bool, off := total - (cs.drop 3).length, rest := cs.drop 3 }
    else if c.toNat = 102 then
      some { kind := .bool, off := total - (cs.drop 4).length, rest := cs.drop 4 }
    else if c.toNat = 110 then
      some { kind := .null, off := total - (cs.drop 3).length, rest := cs.drop 3 }
    else if c.toNat = 123 ∨ c.toNat = 91 then
      match scanValue freshScanner data 0 with
      | .value n _ =>
        some { kind := if c.toNat = 123 then .object else .array, off := total - cs.length,
               rest := data.drop n }
      | _ => none
    else none

/-- A member of a JSON object: the key, unquoted, and the kind and offset of its value. -/
structure Member where
  /-- The key. -/
  key : String
  /-- The kind of the value. -/
  kind : Kind
  /-- The offset a type error on the value reports. -/
  off : Nat
  deriving DecidableEq, Repr

/-- The members of a JSON object, from the byte after the opening brace or
after a comma; `none` when the bytes are not the rest of an object. -/
def readMembers : Nat → Nat → List UInt8 → Option (List Member)
  | 0, _, _ => none
  | fuel + 1, total, data =>
    match data.dropWhile isSpace with
    | [] => none
    | c :: cs =>
      if c.toNat = 125 then some []
      else if c.toNat = 34 then
        match unquoteRest (c :: cs).length cs with
        | none => none
        | some (key, afterKey) =>
          match afterKey.dropWhile isSpace with
          | [] => none
          | colon :: afterColon =>
            if colon.toNat = 58 then
              match readItem total (afterColon.dropWhile isSpace) with
              | none => none
              | some item =>
                match item.rest.dropWhile isSpace with
                | [] => none
                | sep :: afterSep =>
                  if sep.toNat = 125 then
                    some [{ key := String.mk key, kind := item.kind, off := item.off }]
                  else if sep.toNat = 44 then
                    (readMembers fuel total afterSep).map
                      (fun ms => { key := String.mk key, kind := item.kind, off := item.off }
                        :: ms)
                  else none
            else none
      else none

/-- A destination of `Decode`. -/
inductive Dest
  /-- A pointer to a `map[string]string`; `none` is the nil map, a map is a list
  of pairs with distinct keys. -/
  | map (m : Option (List (String × String)))
  /-- A pointer to a struct whose fields are strings: the name of the struct
  type (empty for an unnamed type), the text of the type, and the fields by
  their JSON names with their values. -/
  | struct (name : String) (typ : String) (fields : List (String × String))
  /-- A destination that is nil or no pointer, by the text of the
  `InvalidUnmarshalError` it causes. -/
  | invalid (text : String)
  deriving DecidableEq, Repr

/-- The map write `m[k] = v` on a list of pairs with distinct keys. -/
def mapSet (m : List (String × String)) (k v : String) : List (String × String) :=
  if m.any (fun p => decide (p.1 = k)) then m.map (fun p => if p.1 = k then (k, v) else p)
  else m ++ [(k, v)]

/-- The method `decodeState.saveError`: the first error is kept. -/
def saveError (saved : Option GoError) (err : GoError) : Option GoError :=
  match saved with
  | some e => some e
  | none => some err

/-- The members of an object stored into a `map[string]string`: a string is
stored, `null` stores the empty string, another value is a type error and
stores the empty string. -/
def storeMap : List Member → List (String × String) → Option GoError →
    List (String × String) × Option GoError
  | [], m, saved => (m, saved)
  | mem :: rest, m, saved =>
    match mem.kind with
    | .string s => storeMap rest (mapSet m mem.key s) saved
    | .null => storeMap rest (mapSet m mem.key "") saved
    | k =>
      storeMap rest (mapSet m mem.key "")
        (saveError saved (.UnmarshalTypeError k.name "string" mem.off "" ""))

/-- The function `foldName` of `encoding/json`: ASCII letters in upper case,
the other code points folded by the table. -/
def foldName (U : Unicode) (s : String) : List Char :=
  s.toList.map (fun c =>
    if c.toNat < 0x80 then
      (if 97 ≤ c.toNat ∧ c.toNat ≤ 122 then Char.ofNat (c.toNat - 32) else c)
    else U.foldRune c)

/-- The field of a struct a key denotes: the field of that name, or else the
first field with the same folded name. -/
def findField (U : Unicode) (fields : List (String × String)) (key : String) : Option String :=
  match fields.find? (fun f => decide (f.1 = key)) with
  | some f => some f.1
  | none => (fields.find? (fun f => decide (foldName U f.1 = foldName U key))).map (fun f => f.1)

/-- The members of an object stored into a struct of string fields: a string
is stored in the field the key denotes and `null` leaves it, another value is a
type error naming the struct and the field; a key that denotes no field is an
error when unknown fields are disallowed. -/
def storeStruct (U : Unicode) (disallowUnknownFields : Bool) (name : String) :
    List Member → List (String × String) → Option GoError →
    List (String × String) × Option GoError
  | [], fields, saved => (fields, saved)
  | mem :: rest, fields, saved =>
    match findField U fields mem.key with
    | some f =>
      match mem.kind with
      | .string s => storeStruct U disallowUnknownFields name rest (mapSet fields f s) saved
      | .null => storeStruct U disallowUnknownFields name rest fields saved
      | k =>
        storeStruct U disallowUnknownFields name rest fields
          (saveError saved (.UnmarshalTypeError k.name "string" mem.off name f))
    | none =>
      if disallowUnknownFields then
        storeStruct U disallowUnknownFields name rest fields
          (saveError saved (.errorString ("json: unknown field " ++ Quote U mem.key)))
      else storeStruct U disallowUnknownFields name rest fields saved

/-- The constant `phasePanicMsg`. -/
def phasePanicMsg : String := "JSON decoder out of sync - data changing underfoot?"

/-- The method `decodeState.unmarshal` on the bytes of one scanned value: the
error and the destination after the call; the exception is a panic. -/
def unmarshal (U : Unicode) (disallowUnknownFields : Bool) (data : List UInt8) (v : Dest) :
    Except String (Option GoError × Dest) :=
  match v with
  | .invalid text => .ok (some (.InvalidUnmarshalError text), v)
  | .map m =>
    match data.dropWhile isSpace with
    | [] => .error phasePanicMsg
    | c :: cs =>
      if c.toNat = 123 then
        match readMembers data.length data.length cs with
        | none => .error phasePanicMsg
        | some ms => .ok ((storeMap ms (m.getD []) none).2, .map (some (storeMap ms (m.getD []) none).1))
      else
        match readItem data.length (c :: cs) with
        | none => .error phasePanicMsg
        | some item =>
          match item.kind with
          | .null => .ok (none, .map none)
          | k => .ok (some (.UnmarshalTypeError k.name "map[string]string" item.off "" ""), v)
  | .struct name typ fields =>
    match data.dropWhile isSpace with
    | [] => .error phasePanicMsg
    | c :: cs =>
      if c.toNat = 123 then
        match readMembers data.length data.length cs with
        | none => .error phasePanicMsg
        | some ms =>
          .ok ((storeStruct U disallowUnknownFields name ms fields none).2,
            .struct name typ (storeStruct U disallowUnknownFields name ms fields none).1)
      else
        match readItem data.length (c :: cs) with
        | none => .error phasePanicMsg
        | some item =>
          match item.kind with
          | .null => .ok (none, v)
          | k => .ok (some (.UnmarshalTypeError k.name typ item.off "" ""), v)

/-! ## Standard library: `json.Decoder` (`stream.go`) and `http.MaxBytesReader` -/

/-- The reader returned by `http.MaxBytesReader(w, body, n)`, by what a caller
reads from it: the first `n` bytes of the body, then `io.EOF` when the body has
no more bytes and the error `http: request body too large` when it has. -/
def MaxBytesReader (body : List UInt8) (n : Nat) : List UInt8 × GoError :=
  (body.take n, if body.length > n then .MaxBytesError else .EOF)

/-- The struct `json.Decoder` over a reader: the bytes of the stream not yet
consumed, the error the reader reports after them, the scanner, the error the
decoder keeps, and the option set by `DisallowUnknownFields`. -/
structure Decoder where
  /-- The bytes not yet consumed. -/
  rest : List UInt8
  /-- The error of the reader once the bytes ran out. -/
  final : GoError
  /-- The field `scan`. -/
  scan : Scanner
  /-- The field `err`. -/
  err : Option GoError
  /-- The field `d.disallowUnknownFields`. -/
  disallowUnknownFields : Bool
  deriving DecidableEq, Repr

/-- Go's `json.NewDecoder`. -/
def NewDecoder (r : List UInt8 × GoError) : Decoder :=
  { rest := r.1, final := r.2, scan := freshScanner, err := none,
    disallowUnknownFields := false }

/-- The method `Decoder.DisallowUnknownFields`. -/
def Decoder.DisallowUnknownFields (dec : Decoder) : Decoder :=
  { dec with disallowUnknownFields := true }

/-- The function `nonSpace`. -/
def nonSpace (b : List UInt8) : Bool :=
  b.any (fun c => !isSpace c)

/-- The method `Decoder.readValue`: the length of the next value, or the
error, which the decoder keeps.  At the end of the stream a value that a
space would complete is complete; otherwise the error is
`io.ErrUnexpectedEOF` when a byte read is not a space and `io.EOF` when none is. -/
def Decoder.readValue (dec : Decoder) : Decoder × Except GoError Nat :=
  match scanValue dec.scan.reset dec.rest 0 with
  | .value n s => ({ dec with scan := s }, .ok n)
  | .failed err s => ({ dec with scan := s, err := some err }, .error err)
  | .needMore s =>
    if dec.final = .EOF then
      if (s.run 32).2 = .End then ({ dec with scan := (s.run 32).1 }, .ok dec.rest.length)
      else if nonSpace dec.rest then
        ({ dec with scan := (s.run 32).1, err := some .ErrUnexpectedEOF },
          .error .ErrUnexpectedEOF)
      else ({ dec with scan := (s.run 32).1, err := some .EOF }, .error .EOF)
    else ({ dec with scan := s, err := some dec.final }, .error dec.final)

/-- The method `Decoder.Decode`: the decoder after the call, the error and
the destination; the exception is a panic. -/
def Decoder.Decode (U : Unicode) (dec : Decoder) (v : Dest) :
    Except String (Decoder × Option GoError × Dest) :=
  match dec.err with
  | some err => .ok (dec, some err, v)
  | none =>
    match dec.readValue with
    | (dec', .error err) => .ok (dec', some err, v)
    | (dec', .ok n) =>
      match unmarshal U dec.disallowUnknownFields (dec.rest.take n) v with
      | .error p => .error p
      | .ok (err, v') => .ok ({ dec' with rest := dec.rest.drop n }, err, v')

/-! ## encoding.go: `ReadJSON` -/

/-- The value of a panic: an error or a text. -/
inductive Panic
  | err (e : GoError)
  | text (s : String)
  deriving DecidableEq, Repr

/-- What `ReadJSON` returns: the error, and the destination after the call. -/
structure ReadResult where
  /-- The error returned. -/
  err : Option GoError
  /-- The destination after the call. -/
  dst : Dest
  deriving DecidableEq, Repr

/-- The text `fmt.Errorf("%w (at character %d)", ErrJSONParsing, offset)` wraps
`ErrJSONParsing` with. -/
def parsingAt (offset : Int) : GoError :=
  .wrap (Sentinel.ErrJSONParsing.text ++ " (at character " ++ formatInt offset ++ ")")
    (.sentinel .ErrJSONParsing)

/-- The `switch` of `ReadJSON` on the error of the first `Decode`: the error
returned, or the panic. -/
def ReadJSON.classify (U : Unicode) (err : GoError) : Except Panic (Option GoError) :=
  match err.AsSyntaxError with
  | some offset => .ok (some (parsingAt offset))
  | none =>
    if err.Is .ErrUnexpectedEOF then .ok (some (.sentinel .ErrJSONParsing))
    else
      match err.AsUnmarshalTypeError with
      | some (field, offset) =>
        if field ≠ "" then .ok (some (.custom (NewJSONCustomError InvalidType field)))
        else .ok (some (parsingAt offset))
      | none =>
        if err.Is .EOF then .ok (some (.sentinel .ErrJSONEmpty))
        else
          match err.Error U with
          | .error p => .error (.text p)
          | .ok msg =>
            if startsWith msg "json: unknown field " then
              .ok (some (.custom (NewJSONCustomError UnknownKey
                (TrimLeading msg "json: unknown field "))))
            else if msg = "http: request body too large" then
              .ok (some (.sentinel .ErrJSONTooLarge))
            else if err.AsInvalidUnmarshalError then .error (.err err)
            else .ok (some err)

/-- The destination `&struct{}{}` of the second `Decode`. -/
def emptyStruct : Dest := .struct "" "struct {}" []

/-- The decoder `ReadJSON` builds: over the body limited to `MaxBytes`, unknown
fields disallowed. -/
def ReadJSON.decoder (r : Request) : Decoder :=
  (NewDecoder (MaxBytesReader r.Body MaxBytes)).DisallowUnknownFields

/-- The function `ReadJSON`; the exception is a panic. -/
def ReadJSON (U : Unicode) (r : Request) (dst : Dest) : Except Panic ReadResult :=
  match (ReadJSON.decoder r).Decode U dst with
  | .error p => .error (.text p)
  | .ok (_, some err, dst') =>
    match ReadJSON.classify U err with
    | .error p => .error p
    | .ok e => .ok { err := e, dst := dst' }
  | .ok (dec, none, dst') =>
    match dec.Decode U emptyStruct with
    | .error p => .error (.text p)
    | .ok (_, err, _) =>
      if err ≠ some .EOF then .ok { err := some (.sentinel .ErrJSONSingleValue), dst := dst' }
      else .ok { err := none, dst := dst' }

/-! ## Properties used in the proofs -/

/-- A result of a step is sound when an error code comes with a recorded
syntax error and a code that neither ends the value nor is an error leaves the
scanner out of the error state. -/
def SoundStep (r : Scanner × ScanCode) : Prop :=
  (r.2 = .Error → ∃ msg off, r.1.err = some (.SyntaxError msg off))
    ∧ (r.2 ≠ .Error → r.2 ≠ .End → r.1.step ≠ .Error)

/-- The scanner `b` is the scanner `a` in the same state with the stack `τ`
under its parse stack. -/
def Lifted (τ : List ParseState) (a b : Scanner) : Prop :=
  b.step = a.step ∧ b.parseState = a.parseState ++ τ

/-- The results of one step of a scanner and of the scanner lifted over `τ`
agree: unless the lifted step is an error, the codes are equal and either the
scanners after the step are lifted again, or the step closed the outermost
bracket of the first, which leaves the second at the end of a value with the
stack `τ`. -/
def LiftedStep (τ : List ParseState) (ra rb : Scanner × ScanCode) : Prop :=
  rb.2 = .Error ∨ (ra.2 = rb.2 ∧ (Lifted τ ra.1 rb.1
    ∨ (τ ≠ [] ∧ ra.1.parseState = [] ∧ rb.1.parseState = τ ∧ rb.1.step = .EndValue
        ∧ (ra.2 = .EndObject ∨ ra.2 = .EndArray))))

/-- The scanner reads the bytes as `Decoder.readValue` does, without an error,
and they are exactly one complete value: the value ends with their last byte,
a closing bracket, or some byte after them would end it. -/
def Accept : Scanner → List UInt8 → Prop
  | s, [] => ∃ c, (s.run c).2 = .End
  | s, c :: cs =>
    match (s.run c).2 with
    | .End => False
    | .Error => False
    | .EndObject =>
      if (stateEndValue (s.run c).1 32).2 = .End then cs = []
      else Accept (stateEndValue (s.run c).1 32).1 cs
    | .EndArray =>
      if (stateEndValue (s.run c).1 32).2 = .End then cs = []
      else Accept (stateEndValue (s.run c).1 32).1 cs
    | _ => Accept (s.run c).1 cs

/-- The scanner in a state with a parse stack, its other fields as at the start. -/
def Scanner.at (step : Step) (parseState : List ParseState) : Scanner :=
  { step := step, endTop := false, parseState := parseState, err := none, bytes := 0 }

/-- The states inside a number literal. -/
def Step.inNumber : Step → Bool
  | .Neg | .S1 | .S0 | .Dot | .Dot0 | .E | .ESign | .E0 => true
  | _ => false

/-- The result of a step inside a bracket: unless it is an error, the code does
not end the value, and the scanner is inside a bracket again unless the code
closes one. -/
def OpenStep (r : Scanner × ScanCode) : Prop :=
  r.2 = .Error ∨ (r.2 ≠ .End
    ∧ (r.2 = .EndObject ∨ r.2 = .EndArray ∨ (r.1.parseState ≠ [] ∧ r.1.step ≠ .EndTop)))

/-! ## Concrete inputs -/

/-- A request with the given `Authorization` header value, an empty body and
the background context. -/
def requestWithAuthorization (value : String) : Request :=
  { Header := [("Authorization", [value])], Body := [], ctx := [] }

/-- A request without headers, with an empty body and the background context. -/
def bareRequest : Request :=
  { Header := [], Body := [], ctx := [] }

/-- Tables used where the text is ASCII and no table is consulted. -/
def asciiOnly : Unicode :=
  { IsPrint := fun _ => false, ToLower := fun c => c, foldRune := fun c => c }

/-- The runtime values of the logger scenarios. -/
def sampleRuntime : Runtime :=
  { now := "2024-01-02T03:04:05Z", stack := "goroutine 1 [running]:\nmain.main()\n" }

/-- The recorder after the `WriteJSON` scenario: status 200, the envelope with
`key` set to `value`, a custom header and a conflicting `Content-Type`. -/
def writtenRecorder : ResponseRecorder :=
  { Code := 200,
    HeaderMap := [("Content-Type", ["application/json"]), ("Custom-Header", ["custom-value"])],
    Body := "\x7b\"key\":\"value\"\x7d",
    snapHeader := [("Content-Type", ["application/json"]), ("Custom-Header", ["custom-value"])],
    wroteHeader := true }

/-- The function `http.DetectContentType` on the texts of the scenarios, which
are plain text. -/
def sniffText : String → String := fun _ => "text/plain; charset=utf-8"

/-- A recorder whose header is written: a new recorder after `Write` of the text `x`. -/
def startedRecorder : ResponseRecorder :=
  { Code := 200,
    HeaderMap := [("Content-Type", ["text/plain; charset=utf-8"])],
    Body := "x",
    snapHeader := [("Content-Type", ["text/plain; charset=utf-8"])],
    wroteHeader := true }

/-- The recorder `startedRecorder` after `WriteJSON` with the status 500, the
envelope with `key` set to `value` and the extra header `X-Late`. -/
def lateRecorder : ResponseRecorder :=
  { Code := 200,
    HeaderMap := [("Content-Type", ["application/json"]), ("X-Late", ["1"])],
    Body := "x\x7b\"key\":\"value\"\x7d",
    snapHeader := [("Content-Type", ["text/plain; charset=utf-8"])],
    wroteHeader := true }

/-- The recorder after `WriteJSON` on a new recorder with the extra header
`content-type`, a spelling of the key that is not the canonical one. -/
def rawKeyRecorder : ResponseRecorder :=
  { Code := 200,
    HeaderMap := [("Content-Type", ["application/json"]), ("content-type", ["text/plain"])],
    Body := "\x7b\"key\":\"value\"\x7d",
    snapHeader := [("Content-Type", ["application/json"]), ("content-type", ["text/plain"])],
    wroteHeader := true }

/-- A request with the given body, without headers, with the background context. -/
def requestWithBody (body : List UInt8) : Request :=
  { Header := [], Body := body, ctx := [] }

/-- The destination `&map[string]string{}` of the tests. -/
def emptyMap : Dest := .map (some [])

/-- The destination `&struct{ Key string }{}` of the tests. -/
def keyStruct : Dest := .struct "" "struct { Key string }" [("Key", "")]

/-- A body one byte over the budget that starts with a byte no JSON value
starts with: `x` followed by `MaxBytes` bytes `a`. -/
def overBudgetInvalid : List UInt8 := 120 :: List.replicate MaxBytes 97

/-- The body of the test of a too large body: an object whose only member has a
string value of `MaxBytes + 1` bytes `a`. -/
def tooBigBody : List UInt8 :=
  bytesOf "\x7b\"tooBig\": \"" ++ (List.replicate (MaxBytes + 1) 97 ++ bytesOf "\"\x7d")

/-- The body of the test of a valid body: one object. -/
def singleValueBody : List UInt8 := bytesOf "\x7b\"key\":\"value\"\x7d"

/-- A body of two consecutive valid JSON values. -/
def twoValuesBody : List UInt8 := bytesOf "\x7b\"key\":\"value\"\x7d \x7b\"other\":\"x\"\x7d"

/-- The body of the test of a truncated body. -/
def truncatedBody : List UInt8 := bytesOf "\x7b\"key\":"

/-- A body of one space. -/
def spaceBody : List UInt8 := bytesOf " "

/-- The body of the test of an unknown field. -/
def unknownFieldBody : List UInt8 := bytesOf "\x7b\"unknownField\":\"value\"\x7d"

/-! # Theorems -/

/-! ## errors.go and http.go -/

/-- C5, as stated, fails: `NewJSONCustomError(InvalidType, "")` does not abort, it
returns a `JSONCustomError` value whose key is empty. -/
theorem NewJSONCustomError_empty_key_returns :
    ∃ e : JSONCustomError, NewJSONCustomError InvalidType "" = e ∧ e.Key = "" :=
  ⟨_, rfl, rfl⟩

/-- C5, amended: for every error type `t`, `NewJSONCustomError(t, "")` returns the
value with type `t` and an empty key; the fatal error is raised by the method
`Error` of that value, which panics with
`JSONCustomError initialized without a key` whatever the type, and which
returns a message and does not panic for every non-empty key. -/
theorem NewJSONCustomError_empty_key (U : Unicode) (t : JSONError) :
    NewJSONCustomError t "" = { Typ := t, Key := "" }
    ∧ (NewJSONCustomError t "").Error U = .error "JSONCustomError initialized without a key"
    ∧ (GoError.custom (NewJSONCustomError t "")).Error U
        = .error "JSONCustomError initialized without a key"
    ∧ ∀ k : String, k ≠ "" → ∃ msg, (NewJSONCustomError t k).Error U = .ok msg := by
  refine ⟨rfl, rfl, rfl, ?_⟩
  intro k hk
  unfold JSONCustomError.Error NewJSONCustomError
  simp only [hk, if_false]
  split
  · exact ⟨_, rfl⟩
  · split
    · exact ⟨_, rfl⟩
    · exact ⟨_, rfl⟩

/-- C6: for every request, with `h` the value `Header.Get` returns for
`Authorization` (empty when the header is absent): an empty `h` gives
`ErrNoAuthHeader` and an empty token; a non-empty `h` that does not split at the
spaces into exactly two parts of which the first lower-cases to `bearer` gives
`ErrInvalidAuthHeader` and an empty token; otherwise the second part is returned
verbatim with a nil error.  The four scenarios of the specification follow. -/
theorem ExtractBearerToken_spec (U : Unicode) (r : Request) :
    (r.Header.Get "Authorization" = "" →
        ExtractBearerToken U r = ("", some (.sentinel .ErrNoAuthHeader)))
    ∧ (r.Header.Get "Authorization" ≠ "" →
        (¬ ∃ p0 p1, SplitSpace (r.Header.Get "Authorization") = [p0, p1]
            ∧ ToLower U p0 = "bearer") →
        ExtractBearerToken U r = ("", some (.sentinel .ErrInvalidAuthHeader)))
    ∧ (∀ p0 p1, r.Header.Get "Authorization" ≠ "" →
        SplitSpace (r.Header.Get "Authorization") = [p0, p1] → ToLower U p0 = "bearer" →
        ExtractBearerToken U r = (p1, none))
    ∧ ExtractBearerToken U (requestWithAuthorization "Bearer token123") = ("token123", none)
    ∧ ExtractBearerToken U (requestWithAuthorization "bEARER a.b-c") = ("a.b-c", none)
    ∧ ExtractBearerToken U (requestWithAuthorization "")
        = ("", some (.sentinel .ErrNoAuthHeader))
    ∧ ExtractBearerToken U bareRequest = ("", some (.sentinel .ErrNoAuthHeader))
    ∧ ExtractBearerToken U (requestWithAuthorization "Bearer")
        = ("", some (.sentinel .ErrInvalidAuthHeader))
    ∧ ExtractBearerToken U (requestWithAuthorization "Basic abc")
        = ("", some (.sentinel .ErrInvalidAuthHeader))
    ∧ ExtractBearerToken U (requestWithAuthorization "Bearer a b")
        = ("", some (.sentinel .ErrInvalidAuthHeader)) := by
  refine ⟨?_, ?_, ?_, rfl, rfl, rfl, rfl, rfl, rfl, rfl⟩
  · intro h
    simp [ExtractBearerToken, h]
  · intro h hno
    unfold ExtractBearerToken
    simp only [h, if_false]
    split
    · rfl
    · rename_i hc
      exfalso
      apply hno
      have hlen : (SplitSpace (Header.Get r.Header "Authorization")).length = 2 := by
        by_contra hne
        exact hc (Or.inl hne)
      have hlow : ToLower U ((SplitSpace (Header.Get r.Header "Authorization")).getD 0 "")
          = "bearer" := by
        by_contra hne
        exact hc (Or.inr hne)
      match hs : SplitSpace (Header.Get r.Header "Authorization"), hlen with
      | [p0, p1], _ =>
        refine ⟨p0, p1, rfl, ?_⟩
        rw [hs] at hlow
        simpa using hlow
  · intro p0 p1 h hs hlow
    unfold ExtractBearerToken
    simp only [h, if_false, hs]
    simp [hlow]

/-- The method `Value` finds nothing under a key no pair of the chain carries. -/
theorem Context.Value_absent (ctx : Context) (key : CtxKey)
    (h : ∀ p ∈ ctx, p.1 ≠ key) : ctx.Value key = none := by
  induction ctx with
  | nil => rfl
  | cons p rest ih =>
    obtain ⟨k, v⟩ := p
    have hk : k ≠ key := h (k, v) (List.mem_cons_self _ _)
    simp only [Context.Value, hk, if_false]
    exact ih (fun q hq => h q (List.mem_cons_of_mem _ hq))

/-- C10: for every request, key and non-nil value `v` of type `t`, reading the
key back from the request returned by `ContextSet` with the type argument `t`
returns `v` (and with the type argument `any`, the value with its type), the
request given to `ContextSet` keeping its own context; `ContextGet` panics,
for every type argument, when no pair of the context carries the key and when
the stored value is nil, and for a concrete type argument when the stored
value has another type.  With key `key` and value `123` of type `int` the
value read back is `123`, and on a request without the key `ContextGet[any]`
panics. -/
theorem ContextGet_ContextSet (r : Request) (k : String) (t : GoType) (v : t.interp) :
    ContextGet (.concrete t) (ContextSet r k (some ⟨t, v⟩)) k = .ok v
    ∧ ContextGet .any (ContextSet r k (some ⟨t, v⟩)) k = .ok ⟨t, v⟩
    ∧ (ContextSet r k (some ⟨t, v⟩)).Header = r.Header
    ∧ (ContextSet r k (some ⟨t, v⟩)).Body = r.Body
    ∧ (∀ (V : TypeArg) (r' : Request), (∀ p ∈ r'.ctx, p.1 ≠ CtxKey.contextKey k) →
        ContextGet V r' k = .error ("key: " ++ k ++ " doesn't exist on context"))
    ∧ (∀ (V : TypeArg), ContextGet V (ContextSet r k none) k
        = .error ("key: " ++ k ++ " doesn't exist on context"))
    ∧ (∀ t' : GoType, t ≠ t' → ContextGet (.concrete t') (ContextSet r k (some ⟨t, v⟩)) k
        = .error ("key: " ++ k ++ " doesn't exist on context"))
    ∧ ContextGet (.concrete .int) (ContextSet bareRequest "key" (some ⟨.int, (123 : Int)⟩)) "key"
        = .ok (123 : Int)
    ∧ ContextGet .any bareRequest "key" = .error "key: key doesn't exist on context"
    ∧ ContextGet (.concrete .string) (ContextSet bareRequest "key" (some ⟨.int, (123 : Int)⟩))
        "key" = .error "key: key doesn't exist on context" := by
  refine ⟨?_, ?_, rfl, rfl, ?_, ?_, ?_, ?_, ?_, ?_⟩
  · simp [ContextGet, ContextSet, WithValue, Context.Value, typeAssert]
  · simp [ContextGet, ContextSet, WithValue, Context.Value, typeAssert]
  · intro V r' h
    unfold ContextGet
    rw [Context.Value_absent _ _ h]
    cases V <;> rfl
  · intro V
    cases V <;> simp [ContextGet, ContextSet, WithValue, Context.Value, typeAssert]
  · intro t' ht
    simp [ContextGet, ContextSet, WithValue, Context.Value, typeAssert, ht]
  · simp [ContextGet, ContextSet, WithValue, Context.Value, typeAssert, bareRequest]
  · rfl
  · simp [ContextGet, ContextSet, WithValue, Context.Value, typeAssert, bareRequest]

/-! ## logger.go -/

/-- No hexadecimal digit is a line feed. -/
theorem lowerhex_ne_newline (n : Nat) : lowerhex n ≠ '\n' := by
  have h : n % 16 < 16 := Nat.mod_lt _ (by decide)
  unfold lowerhex
  generalize n % 16 = k at h
  interval_cases k <;> decide

/-- The JSON text of one character holds no line feed. -/
theorem escapeJSONChar_no_newline (c : Char) : '\n' ∉ escapeJSONChar c := by
  have hx := lowerhex_ne_newline
  unfold escapeJSONChar
  split
  · split
    · rename_i hs
      simp only [htmlSafe, Bool.and_eq_true, decide_eq_true_eq] at hs
      intro hmem
      rw [List.mem_singleton] at hmem
      rw [← hmem] at hs
      exact absurd hs.1.1.1.1.1 (by decide)
    · split
      · rename_i hq
        rcases hq with hq | hq <;> subst hq <;> decide
      · repeat' split
        all_goals first
          | decide
          | (simp only [List.mem_cons, List.mem_singleton, List.not_mem_nil, or_false, not_or]
             refine ⟨by decide, by decide, by decide, by decide, ?_, ?_⟩
             · exact fun h => hx _ h.symm
             · exact fun h => hx _ h.symm)
  · split
    · simp only [List.mem_cons, List.mem_singleton, List.not_mem_nil, or_false, not_or]
      exact ⟨by decide, by decide, by decide, by decide, by decide, fun h => hx _ h.symm⟩
    · rename_i hlt _
      intro hmem
      rw [List.mem_singleton] at hmem
      rw [← hmem] at hlt
      exact hlt (by decide)

/-- A JSON string literal holds no line feed. -/
theorem jsonStringChars_no_newline (s : String) : '\n' ∉ jsonStringChars s := by
  unfold jsonStringChars
  simp only [List.mem_cons, List.mem_append, List.mem_flatMap, List.mem_singleton,
    List.not_mem_nil, or_false, not_or, not_exists, not_and]
  refine ⟨by decide, ?_, by decide⟩
  intro c _
  exact escapeJSONChar_no_newline c

/-- Members without a line feed join into a text without a line feed. -/
theorem joinMembers_no_newline (ms : List (List Char)) (h : ∀ m ∈ ms, '\n' ∉ m) :
    '\n' ∉ joinMembers ms := by
  induction ms with
  | nil => simp [joinMembers]
  | cons m rest ih =>
    cases rest with
    | nil => simpa [joinMembers] using h m (List.mem_cons_self _ _)
    | cons m' rest' =>
      have h1 := h m (List.mem_cons_self _ _)
      have h2 := ih (fun x hx => h x (List.mem_cons_of_mem _ hx))
      simp only [joinMembers, List.mem_append, List.mem_cons, not_or]
      exact ⟨h1, by decide, h2⟩

/-- The JSON text of a map of strings holds no line feed. -/
theorem jsonMapChars_no_newline (m : List (String × String)) : '\n' ∉ jsonMapChars m := by
  unfold jsonMapChars
  simp only [List.mem_cons, List.mem_append, List.mem_singleton, List.not_mem_nil, or_false,
    not_or]
  refine ⟨by decide, ?_, by decide⟩
  apply joinMembers_no_newline
  intro x hx
  rw [List.mem_map] at hx
  obtain ⟨p, _, rfl⟩ := hx
  simp only [List.mem_append, List.mem_cons, not_or]
  exact ⟨jsonStringChars_no_newline _, by decide, jsonStringChars_no_newline _⟩

/-- The JSON text of every member of a log entry holds no line feed. -/
theorem LogEntry.members_no_newline (e : LogEntry) : ∀ m ∈ e.members, '\n' ∉ m.2 := by
  intro m hm
  unfold LogEntry.members at hm
  simp only [List.mem_append, List.mem_cons, List.mem_singleton, List.not_mem_nil, or_false] at hm
  rcases hm with ((hm | hm) | hm) | hm
  · rcases hm with hm | hm <;> subst hm <;> exact jsonStringChars_no_newline _
  · split at hm
    · simp at hm
    · rw [List.mem_singleton] at hm
      subst hm
      exact jsonStringChars_no_newline _
  · split at hm
    · simp at hm
    · rw [List.mem_singleton] at hm
      subst hm
      exact jsonMapChars_no_newline _
  · split at hm
    · simp at hm
    · rw [List.mem_singleton] at hm
      subst hm
      exact jsonStringChars_no_newline _

/-- The serialization of a log entry succeeds and holds no line feed. -/
theorem MarshalLogEntry_line (e : LogEntry) :
    ∃ js, MarshalLogEntry e = .ok js ∧ '\n' ∉ js.toList := by
  refine ⟨_, rfl, ?_⟩
  simp only [String.toList, List.mem_cons, List.mem_append, List.mem_singleton,
    List.not_mem_nil, or_false, not_or]
  refine ⟨by decide, ?_, by decide⟩
  apply joinMembers_no_newline
  intro x hx
  rw [List.mem_map] at hx
  obtain ⟨m, hm, rfl⟩ := hx
  simp only [List.mem_append, List.mem_cons, not_or]
  exact ⟨jsonStringChars_no_newline _, by decide, LogEntry.members_no_newline e m hm⟩

/-- A level the logger does not drop is written: one call of `Write` with the
serialization of the entry followed by a line feed. -/
theorem Logger.print_written {σ : Type} (U : Unicode) (W : Writer σ) (rt : Runtime)
    (l : Logger σ) (level : Level) (message : String) (properties : List (String × String))
    (h : ¬ level < l.minLevel) (js : String)
    (hjs : MarshalLogEntry (Logger.entry rt level message properties) = .ok js) :
    l.print U W rt level message properties
      = ({ l with out := (W.Write l.out (js ++ "\n")).1 }, (W.Write l.out (js ++ "\n")).2.1,
          (W.Write l.out (js ++ "\n")).2.2) := by
  unfold Logger.print
  simp only [h, if_false]
  have he : (if level ≥ LevelError then
      ({ Level := level.String, Time := rt.now, Message := message, Properties := properties,
         Trace := rt.stack } : LogEntry)
      else { Level := level.String, Time := rt.now, Message := message,
             Properties := properties, Trace := "" })
      = Logger.entry rt level message properties := by
    unfold Logger.entry
    split <;> rfl
  simp only [he, hjs]

/-- C7: for every logger, sink and emit at level `level`: when `level` is below
the minimum level the call returns zero bytes and no error and the logger, its
sink included, is unchanged; otherwise the sink receives exactly one call of
`Write`, whose data is the serialized entry, free of line feeds, followed by one
line feed.  In particular `PrintInfo` on a logger whose minimum level is `Error`
or above leaves the sink unchanged and reports nothing, and on a buffer the
content stays empty. -/
theorem Logger_print_filter {σ : Type} (U : Unicode) (W : Writer σ) (rt : Runtime)
    (l : Logger σ) (level : Level) (message : String) (properties : List (String × String)) :
    (level < l.minLevel → l.print U W rt level message properties = (l, 0, none))
    ∧ (¬ level < l.minLevel →
        ∃ js, MarshalLogEntry (Logger.entry rt level message properties) = .ok js
          ∧ '\n' ∉ js.toList
          ∧ l.print U W rt level message properties
            = ({ l with out := (W.Write l.out (js ++ "\n")).1 },
                (W.Write l.out (js ++ "\n")).2.1, (W.Write l.out (js ++ "\n")).2.2))
    ∧ (LevelError ≤ l.minLevel →
        l.PrintInfo U W rt message properties = { logger := l, stderr := [], exit := none })
    ∧ (Logger.PrintInfo U bytesBuffer rt (NewLogger "" LevelError) message properties).logger.out
        = ""
    ∧ LevelInfo < LevelError ∧ LevelError < LevelFatal := by
  have hdrop : ∀ (l : Logger σ), level < l.minLevel →
      l.print U W rt level message properties = (l, 0, none) := by
    intro l h
    unfold Logger.print
    simp only [h, if_true]
  refine ⟨hdrop l, ?_, ?_, ?_, by decide, by decide⟩
  · intro h
    obtain ⟨js, hjs, hnl⟩ := MarshalLogEntry_line (Logger.entry rt level message properties)
    exact ⟨js, hjs, hnl, Logger.print_written U W rt l level message properties h js hjs⟩
  · intro h
    have hlt : LevelInfo < l.minLevel := lt_of_lt_of_le (by decide) h
    unfold Logger.PrintInfo Logger.print
    simp only [hlt, if_true]
  · unfold Logger.PrintInfo Logger.print NewLogger
    have hlt : LevelInfo < LevelError := by decide
    simp only [hlt, if_true]

/-- C8: with a non-empty captured stack, the entry the logger builds for an
emit has the level string of the level, the current time and the message and
properties passed in; at level `Error` or above its trace is the captured
stack, non-empty, and is a member of the JSON object written; below `Error`
its trace is empty and the object written has no member `trace`.  The emit
operations write that entry: `PrintInfo` at `INFO`, `PrintError` at `ERROR` and
`PrintFatal` at `FATAL`, the last two with the text of the error as message. -/
theorem Logger_entry_trace (rt : Runtime) (hstack : rt.stack ≠ "") (level : Level)
    (message : String) (properties : List (String × String)) :
    (Logger.entry rt level message properties).Level = level.String
    ∧ (Logger.entry rt level message properties).Time = rt.now
    ∧ (Logger.entry rt level message properties).Message = message
    ∧ (Logger.entry rt level message properties).Properties = properties
    ∧ (LevelError ≤ level →
        (Logger.entry rt level message properties).Trace = rt.stack
        ∧ (Logger.entry rt level message properties).Trace ≠ ""
        ∧ ("trace", jsonStringChars rt.stack)
            ∈ (Logger.entry rt level message properties).members)
    ∧ (level < LevelError →
        (Logger.entry rt level message properties).Trace = ""
        ∧ ∀ m ∈ (Logger.entry rt level message properties).members, m.1 ≠ "trace")
    ∧ LevelInfo.String = "INFO" ∧ LevelError.String = "ERROR" ∧ LevelFatal.String = "FATAL"
    ∧ (∀ {σ : Type} (U : Unicode) (W : Writer σ) (l : Logger σ), l.minLevel ≤ LevelInfo →
        ∃ js, MarshalLogEntry (Logger.entry rt LevelInfo message properties) = .ok js
          ∧ (l.PrintInfo U W rt message properties).logger.out
              = (W.Write l.out (js ++ "\n")).1)
    ∧ (∀ {σ : Type} (U : Unicode) (W : Writer σ) (l : Logger σ) (err : GoError),
        l.minLevel ≤ LevelError → err.Error U = .ok message →
        ∃ js r, MarshalLogEntry (Logger.entry rt LevelError message properties) = .ok js
          ∧ l.PrintError U W rt err properties = .ok r
          ∧ r.logger.out = (W.Write l.out (js ++ "\n")).1 ∧ r.exit = none)
    ∧ (∀ {σ : Type} (U : Unicode) (W : Writer σ) (l : Logger σ) (err : GoError),
        l.minLevel ≤ LevelFatal → err.Error U = .ok message →
        ∃ js r, MarshalLogEntry (Logger.entry rt LevelFatal message properties) = .ok js
          ∧ l.PrintFatal U W rt err properties = .ok r
          ∧ r.logger.out = (W.Write l.out (js ++ "\n")).1 ∧ r.exit = some 1) := by
  refine ⟨rfl, rfl, rfl, rfl, ?_, ?_, by decide, by decide, by decide, ?_, ?_, ?_⟩
  · intro h
    have hge : level ≥ LevelError := h
    have ht : (Logger.entry rt level message properties).Trace = rt.stack := by
      simp only [Logger.entry, hge, if_true]
    refine ⟨ht, by rw [ht]; exact hstack, ?_⟩
    unfold LogEntry.members
    rw [ht]
    simp only [hstack, if_false]
    simp
  · intro h
    have hge : ¬ level ≥ LevelError := not_le.mpr h
    have ht : (Logger.entry rt level message properties).Trace = "" := by
      simp only [Logger.entry, hge, if_false]
    refine ⟨ht, ?_⟩
    intro m hm
    unfold LogEntry.members at hm
    rw [ht] at hm
    simp only [if_true, List.append_nil, List.mem_append, List.mem_cons, List.mem_singleton,
      List.not_mem_nil, or_false] at hm
    rcases hm with (hm | hm) | hm
    · rcases hm with hm | hm
      · subst hm
        exact (by decide : ("level" : String) ≠ "trace")
      · subst hm
        exact (by decide : ("time" : String) ≠ "trace")
    · split at hm
      · simp at hm
      · rw [List.mem_singleton] at hm
        subst hm
        exact (by decide : ("message" : String) ≠ "trace")
    · split at hm
      · simp at hm
      · rw [List.mem_singleton] at hm
        subst hm
        exact (by decide : ("properties" : String) ≠ "trace")
  · intro σ U W l h
    obtain ⟨js, hjs, _⟩ := MarshalLogEntry_line (Logger.entry rt LevelInfo message properties)
    refine ⟨js, hjs, ?_⟩
    unfold Logger.PrintInfo
    rw [Logger.print_written U W rt l LevelInfo message properties (not_lt.mpr h) js hjs]
    cases (W.Write l.out (js ++ "\n")).2.2 <;> rfl
  · intro σ U W l err h herr
    obtain ⟨js, hjs, _⟩ := MarshalLogEntry_line (Logger.entry rt LevelError message properties)
    unfold Logger.PrintError
    rw [herr]
    simp only
    rw [Logger.print_written U W rt l LevelError message properties (not_lt.mpr h) js hjs]
    cases (W.Write l.out (js ++ "\n")).2.2
    · exact ⟨js, _, hjs, rfl, rfl, rfl⟩
    · exact ⟨js, _, hjs, rfl, rfl, rfl⟩
  · intro σ U W l err h herr
    obtain ⟨js, hjs, _⟩ := MarshalLogEntry_line (Logger.entry rt LevelFatal message properties)
    unfold Logger.PrintFatal
    rw [herr]
    simp only
    rw [Logger.print_written U W rt l LevelFatal message properties (not_lt.mpr h) js hjs]
    cases (W.Write l.out (js ++ "\n")).2.2
    · exact ⟨js, _, hjs, rfl, rfl, rfl⟩
    · exact ⟨js, _, hjs, rfl, rfl, rfl⟩

set_option maxRecDepth 100000 in
/-- C8 at a concrete input: the test of `PrintError` (minimum level `Error`, an
error with the text `This is an error message`, one property) writes a line
whose trace member holds the captured stack. -/
theorem Logger_entry_trace_witness :
    sampleRuntime.stack ≠ ""
    ∧ ("trace", jsonStringChars sampleRuntime.stack)
        ∈ (Logger.entry sampleRuntime LevelError "This is an error message"
            [("errorKey", "errorValue")]).members
    ∧ (Logger.PrintError asciiOnly bytesBuffer sampleRuntime (NewLogger "" LevelError)
        (.errorString "This is an error message") [("errorKey", "errorValue")]).map
          (fun r => r.logger.out)
        = .ok "\x7b\"level\":\"ERROR\",\"time\":\"2024-01-02T03:04:05Z\",\"message\":\"This is an error message\",\"properties\":\x7b\"errorKey\":\"errorValue\"\x7d,\"trace\":\"goroutine 1 [running]:\\nmain.main()\\n\"\x7d\n" :=
  ⟨by decide,
   ((Logger_entry_trace sampleRuntime (by decide) LevelError "This is an error message"
      [("errorKey", "errorValue")]).2.2.2.2.1 (le_refl _)).2.2,
   by decide⟩

/-! ## encoding.go: `WriteJSON` -/

/-- Dropping the pairs of one key does not change what is read under another. -/
theorem Header.index_filter (h : Header) (k k' : String) (hk : k ≠ k') :
    Header.index (h.filter (fun p => decide (p.1 ≠ k))) k' = Header.index h k' := by
  induction h with
  | nil => rfl
  | cons p rest ih =>
    obtain ⟨a, b⟩ := p
    rw [List.filter_cons]
    by_cases ha : a = k
    · have hak' : a ≠ k' := fun e => hk (ha ▸ e)
      have hd : decide ((a, b).1 ≠ k) = false := by simpa using ha
      rw [hd]
      simp only [Bool.false_eq_true, if_false]
      rw [ih]
      simp only [Header.index, hak', if_false]
    · have hd : decide ((a, b).1 ≠ k) = true := by simpa using ha
      rw [hd]
      simp only [if_true]
      by_cases hak' : a = k'
      · simp only [Header.index, hak', if_true]
      · simp only [Header.index, hak', if_false]
        exact ih

/-- Reading a map after a write: the written key has the written value, the
other keys are as before. -/
theorem Header.index_assign (h : Header) (k k' : String) (v : List String) :
    (h.assign k v).index k' = if k = k' then some v else h.index k' := by
  unfold Header.assign
  by_cases hk : k = k'
  · simp only [Header.index, hk, if_true]
  · simp only [Header.index, hk, if_false]
    exact Header.index_filter h k k' hk

/-- The map after the loop of `WriteJSON` over the extra headers. -/
theorem Header.index_foldr_assign (headers h0 : Header) (k : String) :
    (headers.foldr (fun kv m => Header.assign m kv.1 kv.2) h0).index k
      = match headers.index k with
        | some v => some v
        | none => h0.index k := by
  induction headers with
  | nil => rfl
  | cons p rest ih =>
    obtain ⟨a, b⟩ := p
    rw [List.foldr_cons, Header.index_assign]
    by_cases ha : a = k
    · simp only [ha, if_true, Header.index]
    · simp only [ha, if_false, Header.index]
      exact ih

/-- The loop of `WriteJSON` on a recorder changes the header map only. -/
theorem recorder_foldr (sniff : String → String) (headers : Header) (w : ResponseRecorder) :
    headers.foldr (fun kv x => (recorder sniff).setHeader x
        (((recorder sniff).Header x).assign kv.1 kv.2)) w
      = { w with HeaderMap :=
            (headers.foldr (fun kv m => Header.assign m kv.1 kv.2) w.HeaderMap) } := by
  induction headers with
  | nil => rfl
  | cons p rest ih =>
    simp only [List.foldr, ih]
    rfl

/-- The canonical form of `Content-Type` is itself. -/
theorem canonical_content_type : CanonicalMIMEHeaderKey "Content-Type" = "Content-Type" := by
  decide

/-- What `WriteJSON` does on a recorder that has not written its header, for a
status of three digits and an envelope that serializes to `js`: the error is
nil when the status allows a body and `http.ErrBodyNotAllowed` when it does not. -/
theorem WriteJSON_recorder_eq (U : Unicode) (sniff : String → String) (w : ResponseRecorder)
    (status : Int) (data : Envelope) (headers : Header) (js : String)
    (hfresh : w.wroteHeader = false) (hjs : Marshal data = .ok js)
    (hlo : 100 ≤ status) (hhi : status ≤ 999) :
    WriteJSON U (recorder sniff) w status data headers
      = .ok ({ Code := status,
               HeaderMap := (headers.foldr (fun kv m => Header.assign m kv.1 kv.2)
                  w.HeaderMap).assign "Content-Type" ["application/json"],
               Body := w.Body ++ js,
               snapHeader := (headers.foldr (fun kv m => Header.assign m kv.1 kv.2)
                  w.HeaderMap).assign "Content-Type" ["application/json"],
               wroteHeader := true },
             if bodyAllowedForStatus status then none else some ErrBodyNotAllowed) := by
  unfold WriteJSON
  simp only [hjs, recorder_foldr]
  have hcode : ¬ (status < 100 ∨ status > 999) := by omega
  simp only [recorder, ResponseRecorder.WriteHeader, hfresh, Bool.false_eq_true, if_false, hcode,
    ResponseRecorder.Write, if_true, Header.Set, canonical_content_type]
  by_cases hb : bodyAllowedForStatus status = true
  · simp only [hb, if_true]
  · simp only [hb, if_false, Bool.false_eq_true]

/-- What `WriteJSON` does on a recorder whose header is written, for an
envelope that serializes to `js`: the status and the headers snapshot stay, the
header map is changed and the body grows. -/
theorem WriteJSON_recorder_started (U : Unicode) (sniff : String → String)
    (w : ResponseRecorder) (status : Int) (data : Envelope) (headers : Header) (js : String)
    (hstarted : w.wroteHeader = true) (hjs : Marshal data = .ok js) :
    WriteJSON U (recorder sniff) w status data headers
      = .ok ({ Code := w.Code,
               HeaderMap := (headers.foldr (fun kv m => Header.assign m kv.1 kv.2)
                  w.HeaderMap).assign "Content-Type" ["application/json"],
               Body := w.Body ++ js,
               snapHeader := w.snapHeader,
               wroteHeader := true },
             if bodyAllowedForStatus w.Code then none else some ErrBodyNotAllowed) := by
  unfold WriteJSON
  simp only [hjs, recorder_foldr]
  simp only [recorder, ResponseRecorder.WriteHeader, hstarted, if_true,
    ResponseRecorder.Write, Header.Set, canonical_content_type]
  by_cases hb : bodyAllowedForStatus w.Code = true
  · simp only [hb, if_true]
  · simp only [hb, if_false, Bool.false_eq_true]

/-- C9, as stated, fails: on a recorder whose header is written (a new recorder
after `Write` of the text `x`), `WriteJSON` with the status 500, a serializable
envelope and the extra header `X-Late` returns a nil error, and the recorded
status is 200 and not 500, the headers of the response, taken when the header
was written, hold the content type of the earlier write and no `X-Late`, and
the body is not the serialization of the envelope. -/
theorem WriteJSON_started_recorder_keeps_status :
    ResponseRecorder.Write sniffText NewRecorder "x" = .ok (startedRecorder, 1, none)
    ∧ WriteJSON asciiOnly (recorder sniffText) startedRecorder 500
        (some [("key", .str "value")]) [("X-Late", ["1"])] = .ok (lateRecorder, none)
    ∧ lateRecorder.Code = 200
    ∧ lateRecorder.Code ≠ 500
    ∧ lateRecorder.snapHeader.Get "Content-Type" = "text/plain; charset=utf-8"
    ∧ lateRecorder.snapHeader.index "X-Late" = none
    ∧ Marshal (some [("key", .str "value")]) = .ok "\x7b\"key\":\"value\"\x7d"
    ∧ lateRecorder.Body ≠ "\x7b\"key\":\"value\"\x7d" :=
  ⟨rfl, rfl, rfl, by decide, rfl, rfl, rfl, by decide⟩

/-- C9, amended: on a response recorder that has not yet written its header,
for every status, envelope and extra-header map.  When `WriteJSON` returns a
nil error: the map entry `Content-Type` of the response is exactly
`application/json` (and `Get` returns it) whatever the extra headers hold
under that key, every extra header under another key, a differently spelled
`content-type` included, is in the response with exactly the values given,
the keys that are neither keep their previous values, the headers snapshot
taken when the header was written is that map, the recorded status is the
given status, which has three digits and allows a body, and the body received
the JSON serialization of the envelope.  And `WriteJSON` does return a nil
error for every serializable envelope and every status of three digits that
allows a body. -/
theorem WriteJSON_recorder (U : Unicode) (sniff : String → String) (w : ResponseRecorder)
    (status : Int) (data : Envelope) (headers : Header)
    (hfresh : w.wroteHeader = false) :
    (∀ w', WriteJSON U (recorder sniff) w status data headers = .ok (w', none) →
      w'.HeaderMap.index "Content-Type" = some ["application/json"]
      ∧ w'.HeaderMap.Get "Content-Type" = "application/json"
      ∧ (∀ k v, k ≠ "Content-Type" → headers.index k = some v → w'.HeaderMap.index k = some v)
      ∧ (∀ k, k ≠ "Content-Type" → headers.index k = none →
          w'.HeaderMap.index k = w.HeaderMap.index k)
      ∧ w'.snapHeader = w'.HeaderMap
      ∧ w'.Code = status
      ∧ (100 ≤ status ∧ status ≤ 999 ∧ bodyAllowedForStatus status = true)
      ∧ ∃ js, Marshal data = .ok js ∧ w'.Body = w.Body ++ js)
    ∧ (∀ js, Marshal data = .ok js → 100 ≤ status → status ≤ 999 →
        bodyAllowedForStatus status = true →
        ∃ w', WriteJSON U (recorder sniff) w status data headers = .ok (w', none)) := by
  constructor
  · intro w' hok
    cases hm : Marshal data with
    | error err =>
      unfold WriteJSON at hok
      simp only [hm] at hok
      cases hok
    | ok js =>
      by_cases hcode : status < 100 ∨ status > 999
      · unfold WriteJSON at hok
        simp only [hm, recorder_foldr] at hok
        simp only [recorder, ResponseRecorder.WriteHeader, hfresh, Bool.false_eq_true, if_false,
          hcode, if_true] at hok
        cases hok
      · have hlo : 100 ≤ status := by omega
        have hhi : status ≤ 999 := by omega
        rw [WriteJSON_recorder_eq U sniff w status data headers js hfresh hm hlo hhi] at hok
        by_cases hb : bodyAllowedForStatus status = true
        · rw [if_pos hb] at hok
          simp only [Except.ok.injEq, Prod.mk.injEq, and_true] at hok
          subst hok
          have hct : Header.index (Header.assign (headers.foldr
              (fun kv m => Header.assign m kv.1 kv.2) w.HeaderMap) "Content-Type"
                ["application/json"]) "Content-Type" = some ["application/json"] := by
            rw [Header.index_assign]
            simp
          refine ⟨hct, ?_, ?_, ?_, rfl, rfl, ⟨hlo, hhi, hb⟩, js, rfl, rfl⟩
          · simp only [Header.Get, canonical_content_type, hct]
          · intro k v hk hv
            simp only [Header.index_assign, Ne.symm hk, if_false, Header.index_foldr_assign, hv]
          · intro k hk hv
            simp only [Header.index_assign, Ne.symm hk, if_false, Header.index_foldr_assign, hv]
        · rw [if_neg hb] at hok
          simp only [Except.ok.injEq, Prod.mk.injEq] at hok
          exact absurd hok.2 (by simp)
  · intro js hm hlo hhi hb
    rw [WriteJSON_recorder_eq U sniff w status data headers js hfresh hm hlo hhi, if_pos hb]
    exact ⟨_, rfl⟩

/-- C9 at concrete inputs: a new recorder, status 200, the envelope with `key`
set to `value`, a custom header and a conflicting `Content-Type`; and the same
call with the conflicting type under the key `content-type`, which stays in the
header map beside `Content-Type`. -/
theorem WriteJSON_recorder_witness :
    NewRecorder.wroteHeader = false
    ∧ WriteJSON asciiOnly (recorder (fun _ => "")) NewRecorder 200 (some [("key", .str "value")])
        [("Custom-Header", ["custom-value"]), ("Content-Type", ["text/plain"])]
      = .ok (writtenRecorder, none)
    ∧ writtenRecorder.HeaderMap.Get "Content-Type" = "application/json"
    ∧ writtenRecorder.HeaderMap.index "Custom-Header" = some ["custom-value"]
    ∧ writtenRecorder.Code = 200
    ∧ writtenRecorder.Body = "\x7b\"key\":\"value\"\x7d"
    ∧ WriteJSON asciiOnly (recorder (fun _ => "")) NewRecorder 200 (some [("key", .str "value")])
        [("content-type", ["text/plain"])] = .ok (rawKeyRecorder, none)
    ∧ rawKeyRecorder.HeaderMap.index "content-type" = some ["text/plain"]
    ∧ rawKeyRecorder.HeaderMap.Get "Content-Type" = "application/json" :=
  ⟨rfl, rfl,
   ((WriteJSON_recorder asciiOnly (fun _ => "") NewRecorder 200
      (some [("key", .str "value")])
      [("Custom-Header", ["custom-value"]), ("Content-Type", ["text/plain"])] rfl).1
      writtenRecorder rfl).2.1,
   ((WriteJSON_recorder asciiOnly (fun _ => "") NewRecorder 200
      (some [("key", .str "value")])
      [("Custom-Header", ["custom-value"]), ("Content-Type", ["text/plain"])] rfl).1
      writtenRecorder rfl).2.2.1 "Custom-Header" ["custom-value"] (by decide) rfl,
   rfl, rfl, rfl,
   ((WriteJSON_recorder asciiOnly (fun _ => "") NewRecorder 200
      (some [("key", .str "value")]) [("content-type", ["text/plain"])] rfl).1
      rawKeyRecorder rfl).2.2.1 "content-type" ["text/plain"] (by decide) rfl,
   ((WriteJSON_recorder asciiOnly (fun _ => "") NewRecorder 200
      (some [("key", .str "value")]) [("content-type", ["text/plain"])] rfl).1
      rawKeyRecorder rfl).2.1⟩

/-! ## encoding.go: `ReadJSON` -/

/-- The result of `scanner.error` is sound. -/
theorem SoundStep.of_error (s : Scanner) (c : UInt8) (ctx : String) : SoundStep (s.error c ctx) := by
  refine ⟨fun _ => ⟨_, _, rfl⟩, fun h => absurd rfl h⟩

/-- A result whose code is no error and that ends the value or leaves the
scanner out of the error state is sound. -/
theorem SoundStep.of_code (s : Scanner) (code : ScanCode) (h1 : code ≠ .Error)
    (h2 : code = .End ∨ s.step ≠ .Error) : SoundStep (s, code) := by
  refine ⟨fun h => absurd h h1, fun _ hne => ?_⟩
  rcases h2 with h2 | h2
  · exact absurd h2 hne
  · exact h2

/-- The state `stateEndTop` is sound. -/
theorem stateEndTop_sound (s : Scanner) (c : UInt8) : SoundStep (stateEndTop s c) := by
  unfold stateEndTop
  split
  · exact SoundStep.of_code _ _ (by decide) (Or.inl rfl)
  · exact SoundStep.of_code _ _ (by decide) (Or.inl rfl)

/-- Popping the parse stack leaves the scanner out of the error state. -/
theorem popParseState_step (s : Scanner) : s.popParseState.step ≠ .Error := by
  unfold Scanner.popParseState
  dsimp only
  split <;> simp

/-- The state `stateEndValue` is sound. -/
theorem stateEndValue_sound (s : Scanner) (c : UInt8) : SoundStep (stateEndValue s c) := by
  unfold stateEndValue
  split
  · exact stateEndTop_sound _ _
  · split
    · exact SoundStep.of_code _ _ (by decide) (Or.inr (by simp))
    · split
      · split
        · exact SoundStep.of_code _ _ (by decide) (Or.inr (by simp))
        · exact SoundStep.of_error _ _ _
      · split
        · exact SoundStep.of_code _ _ (by decide) (Or.inr (by simp))
        · split
          · exact SoundStep.of_code _ _ (by decide) (Or.inr (popParseState_step s))
          · exact SoundStep.of_error _ _ _
      · split
        · exact SoundStep.of_code _ _ (by decide) (Or.inr (by simp))
        · split
          · exact SoundStep.of_code _ _ (by decide) (Or.inr (popParseState_step s))
          · exact SoundStep.of_error _ _ _

/-- Pushing on the parse stack is sound. -/
theorem pushParseState_sound (s : Scanner) (c : UInt8) (p : ParseState) (code : ScanCode)
    (h1 : code ≠ .Error) (h2 : s.step ≠ .Error) : SoundStep (s.pushParseState c p code) := by
  unfold Scanner.pushParseState
  simp only
  split
  · exact SoundStep.of_code _ _ h1 (Or.inr h2)
  · exact SoundStep.of_error _ _ _

/-- The state `stateBeginValue` is sound. -/
theorem stateBeginValue_sound (s : Scanner) (c : UInt8) (hs : s.step ≠ .Error) :
    SoundStep (stateBeginValue s c) := by
  unfold stateBeginValue
  repeat' split
  all_goals first
    | exact SoundStep.of_error _ _ _
    | exact SoundStep.of_code _ _ (by decide) (Or.inr hs)
    | exact SoundStep.of_code _ _ (by decide) (Or.inr (by simp))
    | exact pushParseState_sound _ _ _ _ (by decide) (by simp)

/-- The state `stateBeginString` is sound. -/
theorem stateBeginString_sound (s : Scanner) (c : UInt8) (hs : s.step ≠ .Error) :
    SoundStep (stateBeginString s c) := by
  unfold stateBeginString
  repeat' split
  all_goals first
    | exact SoundStep.of_error _ _ _
    | exact SoundStep.of_code _ _ (by decide) (Or.inr hs)
    | exact SoundStep.of_code _ _ (by decide) (Or.inr (by simp))

/-- The state `state0` is sound. -/
theorem state0_sound (s : Scanner) (c : UInt8) : SoundStep (state0 s c) := by
  unfold state0
  repeat' split
  all_goals first
    | exact stateEndValue_sound _ _
    | exact SoundStep.of_code _ _ (by decide) (Or.inr (by simp))

/-- The state `stateESign` is sound. -/
theorem stateESign_sound (s : Scanner) (c : UInt8) : SoundStep (stateESign s c) := by
  unfold stateESign
  repeat' split
  all_goals first
    | exact SoundStep.of_error _ _ _
    | exact SoundStep.of_code _ _ (by decide) (Or.inr (by simp))

/-- Every step from a state other than the error state is sound. -/
theorem Scanner.run_sound (s : Scanner) (c : UInt8) (hs : s.step ≠ .Error) :
    SoundStep (s.run c) := by
  unfold Scanner.run
  cases hstep : s.step <;> simp only
  case Error => exact absurd hstep hs
  case BeginValue => exact stateBeginValue_sound s c hs
  case BeginString => exact stateBeginString_sound s c hs
  case EndValue => exact stateEndValue_sound s c
  case EndTop => exact stateEndTop_sound s c
  case S0 => exact state0_sound s c
  case ESign => exact stateESign_sound s c
  all_goals
    simp only [stateBeginValueOrEmpty, stateBeginStringOrEmpty, stateInString, stateInStringEsc,
      stateInStringEscHex, stateNeg, state1, stateDot, stateDot0, stateE, stateE0, stateLiteral]
    repeat' split
    all_goals first
      | exact SoundStep.of_error _ _ _
      | exact stateEndValue_sound _ _
      | exact stateBeginValue_sound s c hs
      | exact stateBeginString_sound s c hs
      | exact state0_sound s c
      | exact stateESign_sound s c
      | exact SoundStep.of_code _ _ (by decide) (Or.inr hs)
      | exact SoundStep.of_code _ _ (by decide) (Or.inr (by simp))

/-- The state `stateEndValue` on a space leaves the scanner out of the error state. -/
theorem stateEndValue_space_step (s : Scanner) : (stateEndValue s 32).1.step ≠ .Error := by
  unfold stateEndValue
  split
  · simp [stateEndTop, isSpace]
  · simp [isSpace]

/-- The error of a scan started out of the error state is a syntax error. -/
theorem scanValue_failed (bytes : List UInt8) : ∀ (s : Scanner) (n : Nat) (err : GoError)
    (s' : Scanner), s.step ≠ .Error → scanValue s bytes n = .failed err s' →
    ∃ msg off, err = .SyntaxError msg off := by
  induction bytes with
  | nil => intro s n err s' _ h; simp [scanValue] at h
  | cons c cs ih =>
    intro s n err s' hs h
    have hsound := Scanner.run_sound { s with bytes := s.bytes + 1 } c hs
    unfold scanValue at h
    simp only at h
    split at h
    · cases h
    · split at h
      · cases h
      · exact ih _ _ _ _ (stateEndValue_space_step _) h
    · split at h
      · cases h
      · exact ih _ _ _ _ (stateEndValue_space_step _) h
    · rename_i hcode
      obtain ⟨msg, off, he⟩ := hsound.1 hcode
      rw [he] at h
      simp only [ScanOutcome.failed.injEq] at h
      exact ⟨msg, off, h.1.symm⟩
    · rename_i h1 h2 h3 h4
      exact ih _ _ _ _ (hsound.2 h4 h1) h

/-- The scan of white space from the beginning of a value runs out of bytes at
the beginning of a value. -/
theorem scanValue_spaces (bytes : List UInt8) : ∀ (s : Scanner) (n : Nat),
    s.step = .BeginValue → nonSpace bytes = false →
    ∃ s', scanValue s bytes n = .needMore s' ∧ s'.step = .BeginValue := by
  induction bytes with
  | nil => intro s n hs _; exact ⟨s, rfl, hs⟩
  | cons c cs ih =>
    intro s n hs hsp
    simp only [nonSpace, List.any_cons, Bool.or_eq_false_iff, Bool.not_eq_false'] at hsp
    have hrun : Scanner.run { s with bytes := s.bytes + 1 } c
        = ({ s with bytes := s.bytes + 1 }, .SkipSpace) := by
      simp only [Scanner.run, hs, stateBeginValue, hsp.1, if_true]
    unfold scanValue
    simp only [hrun]
    exact ih _ _ hs hsp.2

/-- A list starts with each of its initial segments. -/
theorem dropLeading_append (p l : List Char) : dropLeading p (p ++ l) = some l := by
  induction p with
  | nil => rfl
  | cons a as ih => simp [dropLeading, ih]

/-- A concatenation starts with its left part. -/
theorem startsWith_append (p x : String) : startsWith (p ++ x) p = true := by
  simp [startsWith, String.toList, String.data_append, dropLeading_append]

/-- Trimming the left part of a concatenation leaves the right part. -/
theorem TrimLeading_append (p x : String) : TrimLeading (p ++ x) p = x := by
  simp [TrimLeading, String.toList, String.data_append, dropLeading_append]

/-- A quoted string is not empty. -/
theorem Quote_ne_empty (U : Unicode) (s : String) : Quote U s ≠ "" := by
  intro h
  have := congrArg String.data h
  simp [Quote] at this

/-- The decoder of `ReadJSON` within the budget reads the whole body and then `io.EOF`. -/
theorem ReadJSON.decoder_small (r : Request) (h : r.Body.length ≤ MaxBytes) :
    ReadJSON.decoder r = ⟨r.Body, .EOF, freshScanner, none, true⟩ := by
  simp [ReadJSON.decoder, NewDecoder, MaxBytesReader, Decoder.DisallowUnknownFields,
    List.take_of_length_le h, Nat.not_lt.mpr h]

/-- The decoder of `ReadJSON` beyond the budget reads `MaxBytes` bytes and then
the error of the limited reader. -/
theorem ReadJSON.decoder_large (r : Request) (h : MaxBytes < r.Body.length) :
    ReadJSON.decoder r = ⟨r.Body.take MaxBytes, .MaxBytesError, freshScanner, none, true⟩ := by
  simp [ReadJSON.decoder, NewDecoder, MaxBytesReader, Decoder.DisallowUnknownFields, h]

/-- When reading the first value fails, `ReadJSON` returns what its switch makes
of the error and leaves the destination as it was. -/
theorem ReadJSON_of_readValue_error (U : Unicode) (r : Request) (dst : Dest) (dec' : Decoder)
    (err : GoError) (e : Option GoError)
    (h : (ReadJSON.decoder r).readValue = (dec', .error err))
    (hc : ReadJSON.classify U err = .ok e) :
    ReadJSON U r dst = .ok { err := e, dst := dst } := by
  have herr : (ReadJSON.decoder r).err = none := rfl
  unfold ReadJSON Decoder.Decode
  simp only [herr, h, hc]

/-- C3, amended: for every body longer than `MaxBytes`, whatever the bytes
beyond the budget are.  When the first `MaxBytes` bytes hold neither a complete
JSON value nor a syntax error (the scan of the first value is still under way
when the budget runs out), `ReadJSON` returns `ErrJSONTooLarge` and leaves the
destination as it was.  When the scan of the first `MaxBytes` bytes meets a
syntax error before it completes a value, `ReadJSON` returns the parsing error
with the offset of that syntax error, which matches `ErrJSONParsing` and does
not match `ErrJSONTooLarge`, and leaves the destination as it was. -/
theorem ReadJSON_too_large (U : Unicode) (r : Request) (dst : Dest)
    (hlen : MaxBytes < r.Body.length) :
    (∀ s, scanValue freshScanner (r.Body.take MaxBytes) 0 = .needMore s →
        ReadJSON U r dst = .ok { err := some (.sentinel .ErrJSONTooLarge), dst := dst })
    ∧ (∀ err s, scanValue freshScanner (r.Body.take MaxBytes) 0 = .failed err s →
        ∃ msg off, err = .SyntaxError msg off
          ∧ ReadJSON U r dst = .ok { err := some (parsingAt off), dst := dst }
          ∧ (parsingAt off).Is (.sentinel .ErrJSONParsing) = true
          ∧ (parsingAt off).Is (.sentinel .ErrJSONTooLarge) = false
          ∧ parsingAt off ≠ .sentinel .ErrJSONTooLarge) := by
  have hreset : freshScanner.reset = freshScanner := rfl
  constructor
  · intro s hscan
    have hrv : (ReadJSON.decoder r).readValue
        = (⟨r.Body.take MaxBytes, .MaxBytesError, s, some .MaxBytesError, true⟩,
            .error .MaxBytesError) := by
      rw [ReadJSON.decoder_large r hlen]
      unfold Decoder.readValue
      simp only [hreset, hscan]
      rfl
    exact ReadJSON_of_readValue_error U r dst _ .MaxBytesError _ hrv rfl
  · intro err s hscan
    obtain ⟨msg, off, rfl⟩ := scanValue_failed _ freshScanner 0 err s (by decide) hscan
    have hrv : (ReadJSON.decoder r).readValue
        = (⟨r.Body.take MaxBytes, .MaxBytesError, s, some (.SyntaxError msg off), true⟩,
            .error (.SyntaxError msg off)) := by
      rw [ReadJSON.decoder_large r hlen]
      unfold Decoder.readValue
      simp only [hreset, hscan]
    exact ⟨msg, off, rfl, ReadJSON_of_readValue_error U r dst _ _ _ hrv rfl,
      by simp [parsingAt, GoError.Is], by simp [parsingAt, GoError.Is], by simp [parsingAt]⟩

/-- A scan that runs out of bytes goes on over the bytes that follow. -/
theorem scanValue_append (a b : List UInt8) : ∀ (s s' : Scanner) (n : Nat),
    scanValue s a n = .needMore s' → scanValue s (a ++ b) n = scanValue s' b (n + a.length) := by
  induction a with
  | nil =>
    intro s s' n h
    simp only [scanValue, ScanOutcome.needMore.injEq] at h
    subst h
    rfl
  | cons c cs ih =>
    intro s s' n h
    have hlen : n + (c :: cs).length = n + 1 + cs.length := by
      simp only [List.length_cons]; omega
    rw [List.cons_append, hlen]
    simp only [scanValue] at h ⊢
    generalize Scanner.run { s with bytes := s.bytes + 1 } c = r at h ⊢
    obtain ⟨s1, code⟩ := r
    cases code <;> simp only at h ⊢
    case End => cases h
    case Error => split at h <;> cases h
    case EndObject =>
      split at h
      · cases h
      · rename_i he
        rw [if_neg he]
        exact ih _ _ _ h
    case EndArray =>
      split at h
      · cases h
      · rename_i he
        rw [if_neg he]
        exact ih _ _ _ h
    all_goals exact ih _ _ _ h

/-- Inside a string literal the scan reads over bytes `a`. -/
theorem scanValue_inString (k : Nat) : ∀ (s : Scanner) (n : Nat), s.step = .InString →
    scanValue s (List.replicate k 97) n = .needMore { s with bytes := s.bytes + k } := by
  induction k with
  | zero => intro s n _; simp [scanValue]
  | succ k ih =>
    intro s n hs
    have hrun : Scanner.run { s with bytes := s.bytes + 1 } 97
        = ({ s with bytes := s.bytes + 1 }, .Continue) := by
      simp only [Scanner.run, hs, stateInString]
      rfl
    rw [List.replicate_succ]
    simp only [scanValue, hrun]
    rw [ih { s with bytes := s.bytes + 1 } (n + 1) hs]
    simp only [ScanOutcome.needMore.injEq, Scanner.mk.injEq, true_and]
    push_cast
    ring

/-- The first `MaxBytes` bytes of the too large body of the test. -/
theorem take_tooBigBody : tooBigBody.take MaxBytes
    = bytesOf "\x7b\"tooBig\": \"" ++ List.replicate 1048564 97 := by
  have hp : (bytesOf "\x7b\"tooBig\": \"").length = 12 := by decide
  have hm : MaxBytes = 1048576 := rfl
  unfold tooBigBody
  rw [List.take_append_eq_append_take, List.take_of_length_le (by rw [hp, hm]; omega), hp,
    List.take_append_eq_append_take, List.take_replicate, List.length_replicate, hm]
  have h1 : min (1048576 - 12) (1048576 + 1) = 1048564 := by omega
  have h2 : 1048576 - 12 - (1048576 + 1) = 0 := by omega
  rw [h1, h2, List.take_zero, List.append_nil]

/-- The too large body of the test is over the budget. -/
theorem length_tooBigBody : MaxBytes < tooBigBody.length := by
  have hp : (bytesOf "\x7b\"tooBig\": \"").length = 12 := by decide
  unfold tooBigBody
  rw [List.length_append, List.length_append, List.length_replicate, hp]
  omega

set_option maxRecDepth 100000 in
/-- The scan of the too large body of the test is inside its string when the
budget runs out. -/
theorem scan_tooBigBody : scanValue freshScanner (tooBigBody.take MaxBytes) 0
    = .needMore { step := .InString, endTop := false, parseState := [.ObjectValue],
                  err := none, bytes := 1048576 } := by
  rw [take_tooBigBody,
    scanValue_append _ _ freshScanner
      { step := .InString, endTop := false, parseState := [.ObjectValue], err := none,
        bytes := 12 } 0 (by rfl),
    scanValue_inString _ _ _ rfl]
  rfl

/-- The body `x` followed by `MaxBytes` bytes `a` is one byte over the budget. -/
theorem length_overBudgetInvalid : MaxBytes < overBudgetInvalid.length := by
  unfold overBudgetInvalid
  rw [List.length_cons, List.length_replicate]
  exact Nat.lt_succ_self _

set_option maxRecDepth 100000 in
/-- The scan of the first `MaxBytes` bytes of the body `x` followed by bytes
`a` fails at the first byte. -/
theorem scan_overBudgetInvalid :
    scanValue freshScanner ((requestWithBody overBudgetInvalid).Body.take MaxBytes) 0
      = .failed (.SyntaxError "invalid character 'x' looking for beginning of value" 1)
          { step := .Error, endTop := false, parseState := [],
            err := some (.SyntaxError "invalid character 'x' looking for beginning of value" 1),
            bytes := 1 } := by
  have h : MaxBytes = 1048575 + 1 := rfl
  simp only [requestWithBody]
  rw [overBudgetInvalid, h, List.take_succ_cons]
  rfl

set_option maxRecDepth 100000 in
/-- C3, as stated, fails: the body `x` followed by `MaxBytes` bytes `a` is one
byte over the budget, and `ReadJSON` returns the parsing error of its first
byte, which is not `ErrJSONTooLarge` and does not match it. -/
theorem ReadJSON_over_budget_not_too_large :
    MaxBytes < overBudgetInvalid.length
    ∧ ReadJSON asciiOnly (requestWithBody overBudgetInvalid) emptyMap
        = .ok { err := some (parsingAt 1), dst := emptyMap }
    ∧ parsingAt 1 ≠ .sentinel .ErrJSONTooLarge
    ∧ (parsingAt 1).Is (.sentinel .ErrJSONTooLarge) = false := by
  have hlen := length_overBudgetInvalid
  refine ⟨hlen, ?_, by decide, by decide⟩
  have hrv : (ReadJSON.decoder (requestWithBody overBudgetInvalid)).readValue
      = (⟨overBudgetInvalid.take MaxBytes, .MaxBytesError,
            { step := .Error, endTop := false, parseState := [],
              err := some (.SyntaxError "invalid character 'x' looking for beginning of value" 1),
              bytes := 1 },
            some (.SyntaxError "invalid character 'x' looking for beginning of value" 1), true⟩,
          .error (.SyntaxError "invalid character 'x' looking for beginning of value" 1)) := by
    rw [ReadJSON.decoder_large _ hlen]
    unfold Decoder.readValue
    have hreset : freshScanner.reset = freshScanner := rfl
    have hscan := scan_overBudgetInvalid
    simp only [requestWithBody] at hscan
    simp only [hreset, requestWithBody, hscan]
  exact ReadJSON_of_readValue_error _ _ _ _ _ _ hrv rfl

/-- C3 at concrete inputs: the body of the test, an object whose string value
runs over the budget, gives `ErrJSONTooLarge`; the body `x` followed by
`MaxBytes` bytes `a` gives the parsing error of its first byte. -/
theorem ReadJSON_too_large_witness :
    MaxBytes < tooBigBody.length
    ∧ ReadJSON asciiOnly (requestWithBody tooBigBody) emptyMap
        = .ok { err := some (.sentinel .ErrJSONTooLarge), dst := emptyMap }
    ∧ MaxBytes < overBudgetInvalid.length
    ∧ ∃ msg off,
        GoError.SyntaxError "invalid character 'x' looking for beginning of value" 1
          = .SyntaxError msg off
        ∧ ReadJSON asciiOnly (requestWithBody overBudgetInvalid) emptyMap
          = .ok { err := some (parsingAt off), dst := emptyMap }
        ∧ (parsingAt off).Is (.sentinel .ErrJSONParsing) = true
        ∧ (parsingAt off).Is (.sentinel .ErrJSONTooLarge) = false
        ∧ parsingAt off ≠ .sentinel .ErrJSONTooLarge :=
  ⟨length_tooBigBody,
   (ReadJSON_too_large asciiOnly (requestWithBody tooBigBody) emptyMap length_tooBigBody).1 _
     scan_tooBigBody,
   length_overBudgetInvalid,
   (ReadJSON_too_large asciiOnly (requestWithBody overBudgetInvalid) emptyMap
     length_overBudgetInvalid).2 _ _ scan_overBudgetInvalid⟩

/-- C4, amended: the empty body gives exactly `ErrJSONEmpty`, which does not
match `ErrJSONParsing`, for every destination; so does every body within the
budget that holds white space only; and every body within the budget that holds
a byte other than white space and in which the decoder finds no complete value
(it is truncated or malformed) gives an error that matches `ErrJSONParsing` and
is not `ErrJSONEmpty`. -/
theorem ReadJSON_empty_or_truncated (U : Unicode) (r : Request) (dst : Dest) :
    (r.Body = [] → ReadJSON U r dst = .ok { err := some (.sentinel .ErrJSONEmpty), dst := dst })
    ∧ (GoError.sentinel .ErrJSONEmpty).Is (.sentinel .ErrJSONParsing) = false
    ∧ (r.Body.length ≤ MaxBytes → nonSpace r.Body = false →
        ReadJSON U r dst = .ok { err := some (.sentinel .ErrJSONEmpty), dst := dst })
    ∧ (r.Body.length ≤ MaxBytes → nonSpace r.Body = true →
        (∀ n, (ReadJSON.decoder r).readValue.2 ≠ .ok n) →
        ∃ e, ReadJSON U r dst = .ok { err := some e, dst := dst }
          ∧ e.Is (.sentinel .ErrJSONParsing) = true
          ∧ e ≠ .sentinel .ErrJSONEmpty) := by
  have hreset : freshScanner.reset = freshScanner := rfl
  have hspace : ∀ r : Request, r.Body.length ≤ MaxBytes → nonSpace r.Body = false →
      ReadJSON U r dst = .ok { err := some (.sentinel .ErrJSONEmpty), dst := dst } := by
    intro r hlen hsp
    obtain ⟨s', hs', hstep⟩ := scanValue_spaces r.Body freshScanner 0 rfl hsp
    have hrun : (s'.run 32).2 ≠ .End := by
      simp [Scanner.run, hstep, stateBeginValue, isSpace]
    have hrv : (ReadJSON.decoder r).readValue
        = (⟨r.Body, .EOF, (s'.run 32).1, some .EOF, true⟩, .error .EOF) := by
      rw [ReadJSON.decoder_small r hlen]
      unfold Decoder.readValue
      simp only [hreset, hs', hrun, hsp, if_true, if_false, Bool.false_eq_true]
    exact ReadJSON_of_readValue_error U r dst _ _ _ hrv rfl
  refine ⟨?_, by decide, hspace r, ?_⟩
  · intro h
    exact hspace r (by rw [h]; exact Nat.zero_le _) (by rw [h]; rfl)
  · intro hlen hns hno
    rw [ReadJSON.decoder_small r hlen] at hno
    cases hscan : scanValue freshScanner r.Body 0 with
    | value n s =>
      exfalso
      apply hno n
      unfold Decoder.readValue
      simp only [hreset, hscan]
    | failed err s =>
      obtain ⟨msg, off, rfl⟩ := scanValue_failed r.Body freshScanner 0 err s (by decide) hscan
      have hrv : (ReadJSON.decoder r).readValue
          = (⟨r.Body, .EOF, s, some (.SyntaxError msg off), true⟩,
              .error (.SyntaxError msg off)) := by
        rw [ReadJSON.decoder_small r hlen]
        unfold Decoder.readValue
        simp only [hreset, hscan]
      exact ⟨parsingAt off, ReadJSON_of_readValue_error U r dst _ _ _ hrv rfl,
        by simp [parsingAt, GoError.Is], by simp [parsingAt]⟩
    | needMore s =>
      by_cases hend : (s.run 32).2 = .End
      · exfalso
        apply hno r.Body.length
        unfold Decoder.readValue
        simp only [hreset, hscan, hend, if_true]
      · have hrv : (ReadJSON.decoder r).readValue
            = (⟨r.Body, .EOF, (s.run 32).1, some .ErrUnexpectedEOF, true⟩,
                .error .ErrUnexpectedEOF) := by
          rw [ReadJSON.decoder_small r hlen]
          unfold Decoder.readValue
          simp only [hreset, hscan, hend, hns, if_true, if_false]
        exact ⟨.sentinel .ErrJSONParsing, ReadJSON_of_readValue_error U r dst _ _ _ hrv rfl,
          by decide, by decide⟩

/-- Printable ASCII characters other than quote and backslash are quoted as they are. -/
theorem quoteBody_plain (U : Unicode) (l : List Char)
    (h : ∀ c ∈ l, 0x20 ≤ c.toNat ∧ c.toNat < 0x7F ∧ c ≠ dquote ∧ c ≠ backslash) :
    quoteBody U l = l := by
  induction l with
  | nil => rfl
  | cons c cs ih =>
    obtain ⟨h1, h2, h3, h4⟩ := h c (List.mem_cons_self _ _)
    have hp : IsPrint U c = true := by
      have : c.toNat ≤ 0xFF := by omega
      simp [IsPrint, isPrintLatin1, this, h1, h2]
    simp only [quoteBody, appendEscapedRune, appendEscapedRuneWith, h3, h4, or_self, if_false, hp,
      if_true, List.singleton_append, ih (fun x hx => h x (List.mem_cons_of_mem _ hx))]

/-- The switch of `ReadJSON` on the report of an unknown field. -/
theorem classify_unknown_field (U : Unicode) (q : String) :
    ReadJSON.classify U (.errorString ("json: unknown field " ++ q))
      = .ok (some (.custom (NewJSONCustomError UnknownKey q))) := by
  simp only [ReadJSON.classify, GoError.AsSyntaxError, GoError.AsUnmarshalTypeError,
    GoError.Error, startsWith_append, TrimLeading_append, if_true]
  have h1 : GoError.Is (.errorString ("json: unknown field " ++ q)) .ErrUnexpectedEOF = false := by
    simp [GoError.Is]
  have h2 : GoError.Is (.errorString ("json: unknown field " ++ q)) .EOF = false := by
    simp [GoError.Is]
  simp [h1, h2]

/-- Writing under a key that is present keeps the keys. -/
theorem mapSet_names (m : List (String × String)) (k v : String)
    (h : m.any (fun p => decide (p.1 = k)) = true) :
    (mapSet m k v).map (fun p => p.1) = m.map (fun p => p.1) := by
  unfold mapSet
  simp only [h, if_true, List.map_map]
  apply List.map_congr_left
  intro p _
  simp only [Function.comp]
  split
  · rename_i hp; exact hp.symm
  · rfl

/-- The name of the first pair whose name passes a test depends on the names only. -/
theorem find_names (P : String → Bool) : ∀ (a b : List (String × String)),
    a.map (fun p => p.1) = b.map (fun p => p.1) →
    (a.find? (fun f => P f.1)).map (fun f => f.1) = (b.find? (fun f => P f.1)).map (fun f => f.1) := by
  intro a
  induction a with
  | nil =>
    intro b h
    cases b with
    | nil => rfl
    | cons _ _ => simp at h
  | cons x xs ih =>
    intro b h
    cases b with
    | nil => simp at h
    | cons y ys =>
      simp only [List.map_cons, List.cons.injEq] at h
      simp only [List.find?_cons, h.1]
      cases P y.1
      · exact ih ys h.2
      · simp [h.1]

/-- The field a key denotes depends on the names of the fields only. -/
theorem findField_names (U : Unicode) (a b : List (String × String)) (key : String)
    (h : a.map (fun p => p.1) = b.map (fun p => p.1)) :
    findField U a key = findField U b key := by
  have h1 := find_names (fun n => decide (n = key)) a b h
  have h2 := find_names (fun n => decide (foldName U n = foldName U key)) a b h
  unfold findField
  cases ha : a.find? (fun f => decide (f.1 = key)) <;>
    cases hb : b.find? (fun f => decide (f.1 = key)) <;>
    simp only [ha, hb, Option.map_none', Option.map_some', reduceCtorEq, Option.some.injEq] at h1 ⊢
  · exact h2
  · exact h1

/-- The field a key denotes is a field of the struct. -/
theorem findField_mem (U : Unicode) (fields : List (String × String)) (key f : String)
    (h : findField U fields key = some f) : fields.any (fun p => decide (p.1 = f)) = true := by
  unfold findField at h
  rw [List.any_eq_true]
  cases h1 : fields.find? (fun f => decide (f.1 = key)) with
  | some x =>
    simp only [h1, Option.some.injEq] at h
    exact ⟨x, List.mem_of_find?_eq_some h1, by simp [h]⟩
  | none =>
    simp only [h1] at h
    cases h2 : fields.find? (fun f => decide (foldName U f.1 = foldName U key)) with
    | some x =>
      simp only [h2, Option.map_some', Option.some.injEq] at h
      exact ⟨x, List.mem_of_find?_eq_some h2, by simp [h]⟩
    | none => simp [h2] at h

/-- Once an error is saved it is the error of the store. -/
theorem storeStruct_saved (U : Unicode) (b : Bool) (name : String) (ms : List Member) :
    ∀ (fields : List (String × String)) (e : GoError),
    (storeStruct U b name ms fields (some e)).2 = some e := by
  induction ms with
  | nil => intro fields e; rfl
  | cons m rest ih =>
    intro fields e
    unfold storeStruct
    split
    · split <;> simp only [saveError, ih]
    · split <;> simp only [saveError, ih]

/-- The first member of an object whose key denotes no field of the struct,
after members that are stored without error, is the unknown field the decoder
reports. -/
theorem storeStruct_unknown (U : Unicode) (name : String) (mem : Member) (post : List Member)
    (pre : List Member) : ∀ (fields : List (String × String)),
    (∀ m ∈ pre, (findField U fields m.key).isSome = true
      ∧ (m.kind = .null ∨ ∃ s, m.kind = .string s)) →
    findField U fields mem.key = none →
    (storeStruct U true name (pre ++ mem :: post) fields none).2
      = some (.errorString ("json: unknown field " ++ Quote U mem.key)) := by
  induction pre with
  | nil =>
    intro fields _ hmem
    simp only [List.nil_append, storeStruct, hmem, if_true, saveError, storeStruct_saved]
  | cons m rest ih =>
    intro fields hpre hmem
    obtain ⟨hf, hk⟩ := hpre m (List.mem_cons_self _ _)
    obtain ⟨f, hf'⟩ := Option.isSome_iff_exists.mp hf
    rw [List.cons_append]
    unfold storeStruct
    simp only [hf']
    rcases hk with hk | ⟨s, hk⟩
    · simp only [hk]
      exact ih fields (fun x hx => hpre x (List.mem_cons_of_mem _ hx)) hmem
    · simp only [hk]
      have hn := mapSet_names fields f s (findField_mem U fields m.key f hf')
      apply ih
      · intro x hx
        rw [findField_names U _ fields x.key hn]
        exact hpre x (List.mem_cons_of_mem _ hx)
      · rw [findField_names U _ fields mem.key hn]
        exact hmem

/-- An escaped rune has at least one character. -/
theorem appendEscapedRuneWith_length (p : Char → Bool) (r : Char) :
    1 ≤ (appendEscapedRuneWith p r).length := by
  have h : ∃ x xs, appendEscapedRuneWith p r = x :: xs := by
    unfold appendEscapedRuneWith
    by_cases h0 : r = dquote ∨ r = backslash
    · exact ⟨_, _, if_pos h0⟩
    rw [if_neg h0]
    by_cases h1 : p r = true
    · exact ⟨_, _, if_pos h1⟩
    rw [if_neg h1]
    by_cases h2 : r.toNat = 7
    · exact ⟨_, _, if_pos h2⟩
    rw [if_neg h2]
    by_cases h3 : r.toNat = 8
    · exact ⟨_, _, if_pos h3⟩
    rw [if_neg h3]
    by_cases h4 : r.toNat = 12
    · exact ⟨_, _, if_pos h4⟩
    rw [if_neg h4]
    by_cases h5 : r.toNat = 10
    · exact ⟨_, _, if_pos h5⟩
    rw [if_neg h5]
    by_cases h6 : r.toNat = 13
    · exact ⟨_, _, if_pos h6⟩
    rw [if_neg h6]
    by_cases h7 : r.toNat = 9
    · exact ⟨_, _, if_pos h7⟩
    rw [if_neg h7]
    by_cases h8 : r.toNat = 11
    · exact ⟨_, _, if_pos h8⟩
    rw [if_neg h8]
    by_cases h9 : r.toNat < 0x20 ∨ r.toNat = 0x7F
    · exact ⟨_, _, if_pos h9⟩
    rw [if_neg h9]
    by_cases h10 : r.toNat < 0x10000
    · exact ⟨_, _, if_pos h10⟩
    rw [if_neg h10]
    exact ⟨_, _, rfl⟩
  obtain ⟨x, xs, hx⟩ := h
  rw [hx, List.length_cons]
  omega

/-- Quoting does not shorten a text. -/
theorem quoteBody_length (U : Unicode) (l : List Char) : l.length ≤ (quoteBody U l).length := by
  induction l with
  | nil => simp [quoteBody]
  | cons c cs ih =>
    have := appendEscapedRuneWith_length (IsPrint U) c
    simp only [quoteBody, appendEscapedRune, List.length_append, List.length_cons]
    omega

set_option maxRecDepth 100000 in
/-- C2: the code departs from the claim at the body of the test, whose field
`unknownField` is absent from the destination: the key of the error `ReadJSON`
returns is the name between double quotes, as the message of the decoder
quotes it, and not the exact name of the field. -/
theorem ReadJSON_unknown_key_is_quoted :
    ReadJSON asciiOnly (requestWithBody unknownFieldBody) keyStruct
      = .ok { err := some (.custom { Typ := UnknownKey, Key := "\"unknownField\"" }),
              dst := keyStruct }
    ∧ ("\"unknownField\"" : String) ≠ "unknownField" :=
  ⟨by rfl, by decide⟩

/-- The switch of `ReadJSON` on the report of an unknown field: whenever the
first `Decode` fails with the error `json: unknown field` followed by a name
`f` as `strconv.Quote` writes it, `ReadJSON` returns a `JSONCustomError` of
type `UnknownKey` whose key is that quoted form of `f`, never `f` itself; its
message is `body contains unknown key` followed by the quoted form, which for a
name of printable ASCII characters without quote or backslash is the name
between double quotes. -/
theorem ReadJSON_unknown_key (U : Unicode) (r : Request) (dst dst1 : Dest) (dec1 : Decoder)
    (f : String)
    (h : (ReadJSON.decoder r).Decode U dst
      = .ok (dec1, some (.errorString ("json: unknown field " ++ Quote U f)), dst1)) :
    ReadJSON U r dst
      = .ok { err := some (.custom { Typ := UnknownKey, Key := Quote U f }), dst := dst1 }
    ∧ JSONCustomError.Error U { Typ := UnknownKey, Key := Quote U f }
        = .ok ("body contains unknown key " ++ Quote U f)
    ∧ ((∀ c ∈ f.toList, 0x20 ≤ c.toNat ∧ c.toNat < 0x7F ∧ c ≠ dquote ∧ c ≠ backslash) →
        Quote U f = String.mk (dquote :: (f.toList ++ [dquote])))
    ∧ Quote U f ≠ f := by
  refine ⟨?_, ?_, ?_, ?_⟩
  · unfold ReadJSON
    simp only [h, classify_unknown_field]
    rfl
  · simp [JSONCustomError.Error, Quote_ne_empty, UnknownKey, InvalidType]
  · intro hp
    simp only [Quote, quoteBody_plain U _ hp]
  · intro he
    have hl := congrArg (fun s => s.data.length) he
    have hq := quoteBody_length U f.toList
    simp only [Quote, List.length_cons, List.length_append, List.length_singleton,
      String.toList] at hl hq
    omega

set_option maxRecDepth 100000 in
/-- The switch on the report of an unknown field at the body of the test, with
the field `unknownField`, decoded into a struct with the only field `Key`. -/
theorem ReadJSON_unknown_key_witness :
    ReadJSON asciiOnly (requestWithBody unknownFieldBody) keyStruct
      = .ok { err := some (.custom { Typ := UnknownKey, Key := "\"unknownField\"" }),
              dst := keyStruct }
    ∧ JSONCustomError.Error asciiOnly { Typ := UnknownKey, Key := "\"unknownField\"" }
        = .ok "body contains unknown key \"unknownField\"" :=
  ⟨(ReadJSON_unknown_key asciiOnly
      (requestWithBody unknownFieldBody) keyStruct keyStruct _
      "unknownField" rfl).1,
   (ReadJSON_unknown_key asciiOnly
      (requestWithBody unknownFieldBody) keyStruct keyStruct _
      "unknownField" rfl).2.1⟩

/-- The decoder of `ReadJSON` on an object with a member whose key denotes no
field of the struct it decodes into: when the first value of the body is an
object whose members are `pre`, then `mem`, then `post`, the members of `pre`
are stored without error and the key of `mem` denotes no field, `ReadJSON`
returns the `JSONCustomError` of type `UnknownKey` whose key is the name of
`mem` as `strconv.Quote` writes it, which is never the name itself, and the
destination holds what the members stored. -/
theorem ReadJSON_unknown_field (U : Unicode) (r : Request) (name typ : String)
    (fields : List (String × String)) (dec1 : Decoder) (n : Nat) (c : UInt8) (cs : List UInt8)
    (pre post : List Member) (mem : Member)
    (hrv : (ReadJSON.decoder r).readValue = (dec1, .ok n))
    (hobj : ((ReadJSON.decoder r).rest.take n).dropWhile isSpace = c :: cs)
    (hc : c.toNat = 123)
    (hms : readMembers ((ReadJSON.decoder r).rest.take n).length
      ((ReadJSON.decoder r).rest.take n).length cs = some (pre ++ mem :: post))
    (hpre : ∀ m ∈ pre, (findField U fields m.key).isSome = true
      ∧ (m.kind = .null ∨ ∃ s, m.kind = .string s))
    (hmem : findField U fields mem.key = none) :
    ReadJSON U r (.struct name typ fields)
      = .ok { err := some (.custom { Typ := UnknownKey, Key := Quote U mem.key }),
              dst := .struct name typ (storeStruct U true name (pre ++ mem :: post) fields none).1 }
    ∧ Quote U mem.key ≠ mem.key := by
  constructor
  · have herr : (ReadJSON.decoder r).err = none := rfl
    have hdis : (ReadJSON.decoder r).disallowUnknownFields = true := rfl
    have hu : unmarshal U true ((ReadJSON.decoder r).rest.take n) (.struct name typ fields)
        = .ok (some (.errorString ("json: unknown field " ++ Quote U mem.key)),
            .struct name typ (storeStruct U true name (pre ++ mem :: post) fields none).1) := by
      unfold unmarshal
      simp only [hobj, hc, if_true, hms]
      rw [storeStruct_unknown U name mem post pre fields hpre hmem]
    unfold ReadJSON Decoder.Decode
    simp only [herr, hrv, hdis, hu, classify_unknown_field]
    rfl
  · intro he
    have hl := congrArg (fun s => s.data.length) he
    have hq := quoteBody_length U mem.key.toList
    simp only [Quote, List.length_cons, List.length_append, List.length_singleton,
      String.toList] at hl hq
    omega

/-- A value found by `readValue` leaves the kept error and the reader as they were. -/
theorem Decoder.readValue_ok (dec dec' : Decoder) (n : Nat)
    (h : dec.readValue = (dec', .ok n)) : dec'.err = dec.err ∧ dec'.final = dec.final := by
  unfold Decoder.readValue at h
  split at h
  · simp only [Prod.mk.injEq] at h
    rw [← h.1]
    exact ⟨rfl, rfl⟩
  · simp only [Prod.mk.injEq, reduceCtorEq, and_false] at h
  · split at h
    · split at h
      · simp only [Prod.mk.injEq] at h
        rw [← h.1]
        exact ⟨rfl, rfl⟩
      · split at h <;> simp only [Prod.mk.injEq, reduceCtorEq, and_false] at h
    · simp only [Prod.mk.injEq, reduceCtorEq, and_false] at h

/-- A `Decode` that returns no error from a decoder without a kept error
leaves the decoder without a kept error, over the same reader. -/
theorem Decoder.Decode_ok (U : Unicode) (dec dec1 : Decoder) (v v1 : Dest)
    (herr : dec.err = none) (h : dec.Decode U v = .ok (dec1, none, v1)) :
    dec1.err = none ∧ dec1.final = dec.final := by
  unfold Decoder.Decode at h
  simp only [herr] at h
  rcases hrv : dec.readValue with ⟨dec', res⟩
  rw [hrv] at h
  cases res with
  | error e => simp at h
  | ok n =>
    obtain ⟨h1, h2⟩ := Decoder.readValue_ok dec dec' n hrv
    simp only at h
    cases hu : unmarshal U dec.disallowUnknownFields (List.take n dec.rest) v with
    | error p => rw [hu] at h; cases h
    | ok res =>
      obtain ⟨e, v'⟩ := res
      rw [hu] at h
      simp only [Except.ok.injEq, Prod.mk.injEq] at h
      rw [← h.1]
      exact ⟨by rw [← herr]; exact h1, h2⟩

/-- Storing into a struct saves no `io.EOF`. -/
theorem storeStruct_ne_EOF (U : Unicode) (b : Bool) (name : String) (ms : List Member) :
    ∀ (fields : List (String × String)) (saved : Option GoError),
    saved ≠ some .EOF → (storeStruct U b name ms fields saved).2 ≠ some .EOF := by
  induction ms with
  | nil => intro fields saved h; exact h
  | cons m rest ih =>
    intro fields saved h
    unfold storeStruct
    have hs : ∀ e : GoError, e ≠ .EOF → saveError saved e ≠ some .EOF := by
      intro e he
      unfold saveError
      cases saved with
      | none => simpa using he
      | some x => exact h
    split
    · split
      · exact ih _ _ h
      · exact ih _ _ h
      · exact ih _ _ (hs _ (by simp))
    · split
      · exact ih _ _ (hs _ (by simp))
      · exact ih _ _ h

/-- The error `unmarshal` returns for a struct is never `io.EOF`. -/
theorem unmarshal_struct_ne_EOF (U : Unicode) (b : Bool) (data : List UInt8)
    (name typ : String) (fields : List (String × String)) (e : Option GoError) (v : Dest)
    (h : unmarshal U b data (.struct name typ fields) = .ok (e, v)) : e ≠ some .EOF := by
  unfold unmarshal at h
  simp only at h
  split at h
  · cases h
  · split at h
    · split at h
      · cases h
      · simp only [Except.ok.injEq, Prod.mk.injEq] at h
        rw [← h.1]
        exact storeStruct_ne_EOF U b name _ _ _ (by simp)
    · split at h
      · cases h
      · split at h
        · simp only [Except.ok.injEq, Prod.mk.injEq] at h
          rw [← h.1]
          simp
        · simp only [Except.ok.injEq, Prod.mk.injEq] at h
          rw [← h.1]
          simp

/-- The follow-up `Decode` reports `io.EOF` exactly when the reader ends with
`io.EOF` and the bytes left are all white space. -/
theorem Decoder.Decode_EOF_iff (U : Unicode) (dec1 : Decoder) (herr : dec1.err = none) :
    (∃ dec2 d2, dec1.Decode U emptyStruct = .ok (dec2, some .EOF, d2))
      ↔ (dec1.final = .EOF ∧ nonSpace dec1.rest = false) := by
  have hstep : dec1.scan.reset.step = .BeginValue := rfl
  constructor
  · rintro ⟨dec2, d2, h⟩
    unfold Decoder.Decode at h
    simp only [herr] at h
    rcases hrv : dec1.readValue with ⟨dec', res⟩
    rw [hrv] at h
    cases res with
    | ok n =>
      simp only at h
      cases hu : unmarshal U dec1.disallowUnknownFields (List.take n dec1.rest) emptyStruct with
      | error p => rw [hu] at h; cases h
      | ok res =>
        obtain ⟨e, v'⟩ := res
        rw [hu] at h
        simp only [Except.ok.injEq, Prod.mk.injEq] at h
        exact absurd h.2.1 (unmarshal_struct_ne_EOF U _ _ _ _ _ e v' hu)
    | error e =>
      simp only [Except.ok.injEq, Prod.mk.injEq, Option.some.injEq] at h
      obtain ⟨_, he, _⟩ := h
      subst he
      unfold Decoder.readValue at hrv
      cases hscan : scanValue dec1.scan.reset dec1.rest 0 with
      | value n s => rw [hscan] at hrv; simp at hrv
      | failed err s =>
        rw [hscan] at hrv
        simp only [Prod.mk.injEq, Except.error.injEq] at hrv
        obtain ⟨msg, off, hm⟩ := scanValue_failed _ _ _ _ _ (by rw [hstep]; decide) hscan
        rw [hm] at hrv
        exact absurd hrv.2 (by simp)
      | needMore s =>
        rw [hscan] at hrv
        simp only at hrv
        by_cases hf : dec1.final = .EOF
        · refine ⟨hf, ?_⟩
          simp only [hf, if_true] at hrv
          by_cases hend : (s.run 32).2 = .End
          · simp [hend] at hrv
          · simp only [hend, if_false] at hrv
            by_cases hns : nonSpace dec1.rest = true
            · simp [hns] at hrv
            · simpa using hns
        · simp only [hf, if_false, Prod.mk.injEq, Except.error.injEq] at hrv
          exact False.elim hrv.2
  · rintro ⟨hf, hns⟩
    obtain ⟨s', hs', hst⟩ := scanValue_spaces dec1.rest dec1.scan.reset 0 hstep hns
    have hrun : (s'.run 32).2 ≠ .End := by
      simp [Scanner.run, hst, stateBeginValue, isSpace]
    have hd : dec1.Decode U emptyStruct
        = .ok ({ dec1 with scan := (s'.run 32).1, err := some .EOF }, some .EOF, emptyStruct) := by
      unfold Decoder.Decode Decoder.readValue
      simp only [herr, hs', hf, hrun, hns, if_true, if_false, Bool.false_eq_true]
    exact ⟨_, _, hd⟩

/-- The reader of `ReadJSON` ends with `io.EOF` exactly when the body is within the budget. -/
theorem ReadJSON.decoder_final (r : Request) :
    (ReadJSON.decoder r).final = .EOF ↔ r.Body.length ≤ MaxBytes := by
  have hf : (ReadJSON.decoder r).final
      = if r.Body.length > MaxBytes then .MaxBytesError else .EOF := rfl
  rw [hf]
  by_cases h : r.Body.length > MaxBytes
  · rw [if_pos h]
    constructor
    · intro h'; cases h'
    · intro h'; omega
  · rw [if_neg h]
    constructor
    · intro _; omega
    · intro _; rfl

set_option maxRecDepth 100000 in
/-- C4, as stated, fails: the body of one space is not empty and ends before a
complete value is formed (the decoder finds no value in it), and `ReadJSON`
returns `ErrJSONEmpty`, which does not match `ErrJSONParsing`. -/
theorem ReadJSON_space_body_is_empty :
    spaceBody ≠ []
    ∧ (∀ n, (ReadJSON.decoder (requestWithBody spaceBody)).readValue.2 ≠ .ok n)
    ∧ ReadJSON asciiOnly (requestWithBody spaceBody) emptyMap
        = .ok { err := some (.sentinel .ErrJSONEmpty), dst := emptyMap }
    ∧ (GoError.sentinel .ErrJSONEmpty).Is (.sentinel .ErrJSONParsing) = false := by
  refine ⟨by decide, ?_, rfl, by decide⟩
  intro n h
  have : (ReadJSON.decoder (requestWithBody spaceBody)).readValue.2 = .error .EOF := rfl
  rw [this] at h
  cases h

set_option maxRecDepth 100000 in
/-- C4 at concrete inputs: the empty body gives `ErrJSONEmpty`, the truncated
body of the test gives an error matching `ErrJSONParsing`. -/
theorem ReadJSON_empty_or_truncated_witness :
    ReadJSON asciiOnly (requestWithBody []) emptyMap
      = .ok { err := some (.sentinel .ErrJSONEmpty), dst := emptyMap }
    ∧ ∃ e, ReadJSON asciiOnly (requestWithBody truncatedBody) emptyMap
          = .ok { err := some e, dst := emptyMap }
        ∧ e.Is (.sentinel .ErrJSONParsing) = true ∧ e ≠ .sentinel .ErrJSONEmpty :=
  ⟨(ReadJSON_empty_or_truncated asciiOnly (requestWithBody []) emptyMap).1 rfl,
   (ReadJSON_empty_or_truncated asciiOnly (requestWithBody truncatedBody) emptyMap).2.2.2
     (by decide) (by decide)
     (by
       intro n h
       have : (ReadJSON.decoder (requestWithBody truncatedBody)).readValue.2
           = .error .ErrUnexpectedEOF := rfl
       rw [this] at h
       cases h)⟩

/-! ## The decoder does not panic -/

/-- Two errors agree. -/
theorem LiftedStep.of_errors (τ : List ParseState) (a b : Scanner) (c : UInt8) (ctx : String) :
    LiftedStep τ (a.error c ctx) (b.error c ctx) := Or.inl rfl

/-- A step that keeps the code and leaves the scanners lifted agrees. -/
theorem LiftedStep.of_lifted (τ : List ParseState) (a b : Scanner) (code : ScanCode)
    (h : Lifted τ a b) : LiftedStep τ (a, code) (b, code) := Or.inr ⟨rfl, Or.inl h⟩

/-- The state `stateEndTop` on a scanner and on the scanner lifted. -/
theorem stateEndTop_lift (τ : List ParseState) (a b : Scanner) (c : UInt8) (h : Lifted τ a b) :
    LiftedStep τ (stateEndTop a c) (stateEndTop b c) := by
  unfold stateEndTop
  split
  · refine Or.inr ⟨rfl, Or.inl ?_⟩
    exact ⟨rfl, h.2⟩
  · exact LiftedStep.of_lifted τ a b _ h

/-- The method `popParseState` on a scanner and on the scanner lifted: the
stacks stay lifted, or the first becomes empty and the second is at the end of a
value. -/
theorem popParseState_lift (τ : List ParseState) (a b : Scanner) (code : ScanCode)
    (hc : code = .EndObject ∨ code = .EndArray)
    (hp : b.parseState = a.parseState ++ τ) (ha : a.parseState ≠ []) :
    LiftedStep τ (a.popParseState, code) (b.popParseState, code) := by
  cases hap : a.parseState with
  | nil => exact absurd hap ha
  | cons x xs =>
    have hb : b.parseState = x :: (xs ++ τ) := by rw [hp, hap]; rfl
    refine Or.inr ⟨rfl, ?_⟩
    unfold Scanner.popParseState
    simp only [hap, hb, List.tail_cons]
    by_cases hx : xs = []
    · subst hx
      by_cases hτ : τ = []
      · subst hτ
        left
        simp [Lifted]
      · right
        have hl : ¬ τ.length = 0 := by simpa using hτ
        simp only [List.nil_append, hl, if_false, List.length_nil, if_true]
        refine ⟨hτ, ?_, ?_, ?_, hc⟩ <;> trivial
    · left
      have h1 : ¬ xs.length = 0 := by simpa using hx
      have h2 : ¬ (xs ++ τ).length = 0 := by
        simp only [List.length_append]; omega
      simp only [h1, h2, if_false]
      exact ⟨rfl, rfl⟩

/-- The state `stateEndValue` on a scanner and on the scanner lifted. -/
theorem stateEndValue_lift (τ : List ParseState) (a b : Scanner) (c : UInt8)
    (h : b.parseState = a.parseState ++ τ) (ha : a.parseState ≠ [] ∨ τ = []) :
    LiftedStep τ (stateEndValue a c) (stateEndValue b c) := by
  cases hap : a.parseState with
  | nil =>
    have hτ : τ = [] := by
      rcases ha with ha | ha
      · exact absurd hap ha
      · exact ha
    subst hτ
    have hb : b.parseState = [] := by rw [h, hap]; rfl
    unfold stateEndValue
    simp only [hap, hb]
    exact stateEndTop_lift [] _ _ c ⟨rfl, by simp [hap, hb]⟩
  | cons x xs =>
    have hb : b.parseState = x :: (xs ++ τ) := by rw [h, hap]; rfl
    have hne : a.parseState ≠ [] := by simp [hap]
    unfold stateEndValue
    simp only [hap, hb]
    split
    · exact LiftedStep.of_lifted τ _ _ _ ⟨rfl, by simp [hap, hb]⟩
    · cases x
      · simp only
        split
        · exact LiftedStep.of_lifted τ _ _ _ ⟨rfl, by simp⟩
        · exact LiftedStep.of_errors τ _ _ _ _
      · simp only
        split
        · exact LiftedStep.of_lifted τ _ _ _ ⟨rfl, by simp⟩
        · split
          · exact popParseState_lift τ a b _ (Or.inl rfl) h hne
          · exact LiftedStep.of_errors τ _ _ _ _
      · simp only
        split
        · exact LiftedStep.of_lifted τ _ _ _ ⟨rfl, by simp [hap, hb]⟩
        · split
          · exact popParseState_lift τ a b _ (Or.inr rfl) h hne
          · exact LiftedStep.of_errors τ _ _ _ _

/-- The method `pushParseState` on a scanner and on the scanner lifted: the
lifted stack is the longer one, so it reaches the nesting limit first. -/
theorem pushParseState_lift (τ : List ParseState) (a b : Scanner) (c : UInt8) (p : ParseState)
    (code : ScanCode) (h : Lifted τ a b) :
    LiftedStep τ (a.pushParseState c p code) (b.pushParseState c p code) := by
  unfold Scanner.pushParseState
  simp only
  by_cases hb : (p :: b.parseState).length ≤ maxNestingDepth
  · have ha : (p :: a.parseState).length ≤ maxNestingDepth := by
      rw [h.2] at hb
      simp only [List.length_cons, List.length_append] at hb ⊢
      omega
    rw [if_pos ha, if_pos hb]
    exact Or.inr ⟨rfl, Or.inl ⟨h.1, by simp [h.2]⟩⟩
  · rw [if_neg hb]
    exact Or.inl rfl

/-- The state `stateBeginValue` on a scanner and on the scanner lifted. -/
theorem stateBeginValue_lift (τ : List ParseState) (a b : Scanner) (c : UInt8)
    (h : Lifted τ a b) : LiftedStep τ (stateBeginValue a c) (stateBeginValue b c) := by
  unfold stateBeginValue
  by_cases h0 : isSpace c = true
  · rw [if_pos h0, if_pos h0]
    exact LiftedStep.of_lifted τ _ _ _ h
  rw [if_neg h0, if_neg h0]
  by_cases h1 : c.toNat = 123
  · rw [if_pos h1, if_pos h1]
    exact pushParseState_lift τ _ _ _ _ _ ⟨rfl, h.2⟩
  rw [if_neg h1, if_neg h1]
  by_cases h2 : c.toNat = 91
  · rw [if_pos h2, if_pos h2]
    exact pushParseState_lift τ _ _ _ _ _ ⟨rfl, h.2⟩
  rw [if_neg h2, if_neg h2]
  by_cases h3 : c.toNat = 34
  · rw [if_pos h3, if_pos h3]
    exact LiftedStep.of_lifted τ _ _ _ ⟨rfl, h.2⟩
  rw [if_neg h3, if_neg h3]
  by_cases h4 : c.toNat = 45
  · rw [if_pos h4, if_pos h4]
    exact LiftedStep.of_lifted τ _ _ _ ⟨rfl, h.2⟩
  rw [if_neg h4, if_neg h4]
  by_cases h5 : c.toNat = 48
  · rw [if_pos h5, if_pos h5]
    exact LiftedStep.of_lifted τ _ _ _ ⟨rfl, h.2⟩
  rw [if_neg h5, if_neg h5]
  by_cases h6 : c.toNat = 116
  · rw [if_pos h6, if_pos h6]
    exact LiftedStep.of_lifted τ _ _ _ ⟨rfl, h.2⟩
  rw [if_neg h6, if_neg h6]
  by_cases h7 : c.toNat = 102
  · rw [if_pos h7, if_pos h7]
    exact LiftedStep.of_lifted τ _ _ _ ⟨rfl, h.2⟩
  rw [if_neg h7, if_neg h7]
  by_cases h8 : c.toNat = 110
  · rw [if_pos h8, if_pos h8]
    exact LiftedStep.of_lifted τ _ _ _ ⟨rfl, h.2⟩
  rw [if_neg h8, if_neg h8]
  by_cases h9 : 49 ≤ c.toNat ∧ c.toNat ≤ 57
  · rw [if_pos h9, if_pos h9]
    exact LiftedStep.of_lifted τ _ _ _ ⟨rfl, h.2⟩
  rw [if_neg h9, if_neg h9]
  exact LiftedStep.of_errors τ _ _ _ _

/-- The state `stateBeginString` on a scanner and on the scanner lifted. -/
theorem stateBeginString_lift (τ : List ParseState) (a b : Scanner) (c : UInt8)
    (h : Lifted τ a b) : LiftedStep τ (stateBeginString a c) (stateBeginString b c) := by
  unfold stateBeginString
  split_ifs
  all_goals first
    | exact LiftedStep.of_errors τ _ _ _ _
    | exact LiftedStep.of_lifted τ _ _ _ h
    | exact LiftedStep.of_lifted τ _ _ _ ⟨rfl, h.2⟩

/-- The state `state0` on a scanner and on the scanner lifted. -/
theorem state0_lift (τ : List ParseState) (a b : Scanner) (c : UInt8)
    (h : Lifted τ a b) (ha : a.parseState ≠ [] ∨ τ = []) :
    LiftedStep τ (state0 a c) (state0 b c) := by
  unfold state0
  split_ifs
  all_goals first
    | exact LiftedStep.of_lifted τ _ _ _ ⟨rfl, h.2⟩
    | exact stateEndValue_lift τ a b c h.2 ha

/-- The state `stateESign` on a scanner and on the scanner lifted. -/
theorem stateESign_lift (τ : List ParseState) (a b : Scanner) (c : UInt8)
    (h : Lifted τ a b) : LiftedStep τ (stateESign a c) (stateESign b c) := by
  unfold stateESign
  split_ifs
  all_goals first
    | exact LiftedStep.of_errors τ _ _ _ _
    | exact LiftedStep.of_lifted τ _ _ _ ⟨rfl, h.2⟩

/-- The state `stateBeginStringOrEmpty` on a scanner and on the scanner lifted. -/
theorem stateBeginStringOrEmpty_lift (τ : List ParseState) (a b : Scanner) (c : UInt8)
    (h : Lifted τ a b) (ha : a.parseState ≠ [] ∨ τ = []) :
    LiftedStep τ (stateBeginStringOrEmpty a c) (stateBeginStringOrEmpty b c) := by
  unfold stateBeginStringOrEmpty
  split_ifs
  · exact LiftedStep.of_lifted τ _ _ _ h
  · apply stateEndValue_lift
    · simp only [h.2]
      rcases ha with ha | ha
      · cases hap : a.parseState with
        | nil => exact absurd hap ha
        | cons x xs => simp
      · subst ha
        simp
    · left
      simp
  · exact stateBeginString_lift τ a b c h

/-- One step of a scanner and of the scanner lifted over a stack agree. -/
theorem Scanner.run_lift (τ : List ParseState) (a b : Scanner) (c : UInt8)
    (h : Lifted τ a b) (ha : a.parseState ≠ [] ∨ τ = []) :
    LiftedStep τ (a.run c) (b.run c) := by
  unfold Scanner.run
  rw [h.1]
  cases hstep : a.step <;> simp only
  case Error => exact LiftedStep.of_lifted τ _ _ _ h
  case BeginValue => exact stateBeginValue_lift τ a b c h
  case BeginString => exact stateBeginString_lift τ a b c h
  case BeginStringOrEmpty => exact stateBeginStringOrEmpty_lift τ a b c h ha
  case EndValue => exact stateEndValue_lift τ a b c h.2 ha
  case EndTop => exact stateEndTop_lift τ a b c h
  case S0 => exact state0_lift τ a b c h ha
  case ESign => exact stateESign_lift τ a b c h
  all_goals
    simp only [stateBeginValueOrEmpty, stateInString, stateInStringEsc,
      stateInStringEscHex, stateNeg, state1, stateDot, stateDot0, stateE, stateE0, stateLiteral]
    split_ifs
    all_goals first
      | exact LiftedStep.of_errors τ _ _ _ _
      | exact LiftedStep.of_lifted τ _ _ _ h
      | exact LiftedStep.of_lifted τ _ _ _ ⟨rfl, h.2⟩
      | exact stateEndValue_lift τ a b c h.2 ha
      | exact stateBeginValue_lift τ a b c h
      | exact state0_lift τ a b c h ha
      | exact stateESign_lift τ a b c h

/-- Lifting over the empty stack is symmetric. -/
theorem Lifted.symm_nil (a b : Scanner) (h : Lifted [] a b) : Lifted [] b a :=
  ⟨h.1.symm, by rw [h.2]; simp⟩

/-- One step gives two scanners in the same state with the same stack the same
code, and leaves them so unless it is an error. -/
theorem Scanner.run_congr (a b : Scanner) (c : UInt8) (h : Lifted [] a b) :
    (a.run c).2 = (b.run c).2 ∧ ((a.run c).2 ≠ .Error → Lifted [] (a.run c).1 (b.run c).1) := by
  have h1 := Scanner.run_lift [] a b c h (Or.inr rfl)
  have h2 := Scanner.run_lift [] b a c (Lifted.symm_nil a b h) (Or.inr rfl)
  unfold LiftedStep at h1 h2
  have hcode : (a.run c).2 = (b.run c).2 := by
    rcases h1 with h1 | h1
    · rcases h2 with h2 | h2
      · rw [h1, h2]
      · exact h2.1.symm
    · exact h1.1
  refine ⟨hcode, fun hne => ?_⟩
  rcases h1 with h1 | h1
  · rw [hcode] at hne; exact absurd h1 hne
  · rcases h1.2 with h3 | h3
    · exact h3
    · exact absurd rfl h3.1

/-- The state `stateEndValue` gives two scanners with the same stack the same
code, and leaves them with the same state and stack unless it is an error. -/
theorem stateEndValue_congr (a b : Scanner) (c : UInt8) (h : Lifted [] a b) :
    (stateEndValue a c).2 = (stateEndValue b c).2
      ∧ ((stateEndValue a c).2 ≠ .Error → Lifted [] (stateEndValue a c).1 (stateEndValue b c).1) := by
  have hp : b.parseState = a.parseState ++ [] := h.2
  have hp' : a.parseState = b.parseState ++ [] := by rw [h.2]; simp
  have h1 := stateEndValue_lift [] a b c hp (Or.inr rfl)
  have h2 := stateEndValue_lift [] b a c hp' (Or.inr rfl)
  unfold LiftedStep at h1 h2
  have hcode : (stateEndValue a c).2 = (stateEndValue b c).2 := by
    rcases h1 with h1 | h1
    · rcases h2 with h2 | h2
      · rw [h1, h2]
      · exact h2.1.symm
    · exact h1.1
  refine ⟨hcode, fun hne => ?_⟩
  rcases h1 with h1 | h1
  · rw [hcode] at hne; exact absurd h1 hne
  · rcases h1.2 with h3 | h3
    · exact h3
    · exact absurd rfl h3.1

/-- The state `stateEndValue` on a space: the end of the value at the top
level, a space read over inside a bracket. -/
theorem stateEndValue_space (s : Scanner) :
    (s.parseState = [] ∧ (stateEndValue s 32).2 = .End)
      ∨ (s.parseState ≠ [] ∧ stateEndValue s 32 = ({ s with step := .EndValue }, .SkipSpace)) := by
  cases hp : s.parseState with
  | nil =>
    left
    refine ⟨rfl, ?_⟩
    unfold stateEndValue
    simp only [hp]
    unfold stateEndTop
    split <;> rfl
  | cons x xs =>
    right
    refine ⟨by simp, ?_⟩
    unfold stateEndValue
    simp only [hp]
    rw [if_pos (by decide)]

/-- The state `stateEndValue` on a space is no error. -/
theorem stateEndValue_space_code (s : Scanner) : (stateEndValue s 32).2 ≠ .Error := by
  rcases stateEndValue_space s with h | h
  · rw [h.2]; decide
  · rw [h.2]; exact fun h' => ScanCode.noConfusion h' 

/-- Acceptance depends on the state and the stack of the scanner only. -/
theorem Accept.congr (d : List UInt8) : ∀ (a b : Scanner), Lifted [] a b → Accept a d →
    Accept b d := by
  induction d with
  | nil =>
    intro a b h ⟨c, hc⟩
    exact ⟨c, by rw [← (Scanner.run_congr a b c h).1]; exact hc⟩
  | cons c cs ih =>
    intro a b h hacc
    obtain ⟨hcode, hl⟩ := Scanner.run_congr a b c h
    unfold Accept at hacc ⊢
    rw [← hcode]
    cases hk : (a.run c).2 <;> rw [hk] at hacc hl <;> simp only at hacc ⊢
    case EndObject =>
      obtain ⟨h1, h2⟩ := stateEndValue_congr _ _ 32 (hl (by simp))
      rw [← h1]
      split at hacc
      · rename_i he; rw [if_pos he]; exact hacc
      · rename_i he
        rw [if_neg he]
        exact ih _ _ (h2 (stateEndValue_space_code _)) hacc
    case EndArray =>
      obtain ⟨h1, h2⟩ := stateEndValue_congr _ _ 32 (hl (by simp))
      rw [← h1]
      split at hacc
      · rename_i he; rw [if_pos he]; exact hacc
      · rename_i he
        rw [if_neg he]
        exact ih _ _ (h2 (stateEndValue_space_code _)) hacc
    all_goals exact ih _ _ (hl (by simp)) hacc

/-- The count of bytes is no part of the state and the stack. -/
theorem Lifted.bytes (s : Scanner) (k : Int) : Lifted [] { s with bytes := k } s :=
  ⟨rfl, by simp⟩

/-- A value found by the loop of `readValue` is accepted. -/
theorem scanValue_accept (d : List UInt8) : ∀ (s : Scanner) (m n : Nat) (S : Scanner),
    scanValue s d m = .value n S → m ≤ n ∧ n ≤ m + d.length ∧ Accept s (d.take (n - m)) := by
  induction d with
  | nil => intro s m n S h; simp [scanValue] at h
  | cons c cs ih =>
    intro s m n S h
    simp only [scanValue] at h
    obtain ⟨hcode, hl⟩ := Scanner.run_congr { s with bytes := s.bytes + 1 } s c (Lifted.bytes s _)
    cases hk : (Scanner.run { s with bytes := s.bytes + 1 } c).2 <;> rw [hk] at h hl hcode <;>
      simp only at h
    case End =>
      simp only [ScanOutcome.value.injEq] at h
      obtain ⟨rfl, _⟩ := h
      refine ⟨le_refl _, Nat.le_add_right _ _, ?_⟩
      rw [Nat.sub_self, List.take_zero]
      exact ⟨c, hcode.symm⟩
    case Error => split at h <;> cases h
    case EndObject =>
      obtain ⟨h1, h2⟩ := stateEndValue_congr _ _ 32 (hl (by simp))
      split at h
      · rename_i he
        simp only [ScanOutcome.value.injEq] at h
        obtain ⟨rfl, _⟩ := h
        refine ⟨Nat.le_succ _, by simp, ?_⟩
        rw [Nat.add_sub_cancel_left, List.take_succ_cons, List.take_zero]
        unfold Accept
        rw [← hcode]
        simp only
        rw [if_pos (by rw [← h1]; exact he)]
        trivial
      · rename_i he
        obtain ⟨hb1, hb2, hacc⟩ := ih _ _ _ _ h
        refine ⟨by omega, by simp only [List.length_cons]; omega, ?_⟩
        have hnm : n - m = (n - (m + 1)) + 1 := by omega
        rw [hnm, List.take_succ_cons]
        unfold Accept
        rw [← hcode]
        simp only
        rw [if_neg (by rw [← h1]; exact he)]
        exact Accept.congr _ _ _ (h2 (stateEndValue_space_code _)) hacc
    case EndArray =>
      obtain ⟨h1, h2⟩ := stateEndValue_congr _ _ 32 (hl (by simp))
      split at h
      · rename_i he
        simp only [ScanOutcome.value.injEq] at h
        obtain ⟨rfl, _⟩ := h
        refine ⟨Nat.le_succ _, by simp, ?_⟩
        rw [Nat.add_sub_cancel_left, List.take_succ_cons, List.take_zero]
        unfold Accept
        rw [← hcode]
        simp only
        rw [if_pos (by rw [← h1]; exact he)]
        trivial
      · rename_i he
        obtain ⟨hb1, hb2, hacc⟩ := ih _ _ _ _ h
        refine ⟨by omega, by simp only [List.length_cons]; omega, ?_⟩
        have hnm : n - m = (n - (m + 1)) + 1 := by omega
        rw [hnm, List.take_succ_cons]
        unfold Accept
        rw [← hcode]
        simp only
        rw [if_neg (by rw [← h1]; exact he)]
        exact Accept.congr _ _ _ (h2 (stateEndValue_space_code _)) hacc
    all_goals
      obtain ⟨hb1, hb2, hacc⟩ := ih _ _ _ _ h
      refine ⟨by omega, by simp only [List.length_cons]; omega, ?_⟩
      have hnm : n - m = (n - (m + 1)) + 1 := by omega
      rw [hnm, List.take_succ_cons]
      unfold Accept
      rw [← hcode]
      simp only
      exact Accept.congr _ _ _ (hl (by simp)) hacc

/-- Bytes that run out where some byte would end the value are accepted. -/
theorem scanValue_needMore_accept (d : List UInt8) : ∀ (s : Scanner) (m : Nat) (s' : Scanner),
    scanValue s d m = .needMore s' → (∃ c, (s'.run c).2 = .End) → Accept s d := by
  induction d with
  | nil =>
    intro s m s' h hend
    simp only [scanValue, ScanOutcome.needMore.injEq] at h
    subst h
    exact hend
  | cons c cs ih =>
    intro s m s' h hend
    simp only [scanValue] at h
    obtain ⟨hcode, hl⟩ := Scanner.run_congr { s with bytes := s.bytes + 1 } s c (Lifted.bytes s _)
    cases hk : (Scanner.run { s with bytes := s.bytes + 1 } c).2 <;> rw [hk] at h hl hcode <;>
      simp only at h
    case End => cases h
    case Error => split at h <;> cases h
    case EndObject =>
      obtain ⟨h1, h2⟩ := stateEndValue_congr _ _ 32 (hl (by simp))
      split at h
      · cases h
      · rename_i he
        unfold Accept
        rw [← hcode]
        simp only
        rw [if_neg (by rw [← h1]; exact he)]
        exact Accept.congr _ _ _ (h2 (stateEndValue_space_code _)) (ih _ _ _ h hend)
    case EndArray =>
      obtain ⟨h1, h2⟩ := stateEndValue_congr _ _ 32 (hl (by simp))
      split at h
      · cases h
      · rename_i he
        unfold Accept
        rw [← hcode]
        simp only
        rw [if_neg (by rw [← h1]; exact he)]
        exact Accept.congr _ _ _ (h2 (stateEndValue_space_code _)) (ih _ _ _ h hend)
    all_goals
      unfold Accept
      rw [← hcode]
      simp only
      exact Accept.congr _ _ _ (hl (by simp)) (ih _ _ _ h hend)

/-- The bytes of a value found by `readValue` are accepted from the start state. -/
theorem Decoder.readValue_accept (dec dec' : Decoder) (n : Nat)
    (h : dec.readValue = (dec', .ok n)) : Accept dec.scan.reset (dec.rest.take n) := by
  unfold Decoder.readValue at h
  cases hscan : scanValue dec.scan.reset dec.rest 0 with
  | value k s =>
    rw [hscan] at h
    simp only [Prod.mk.injEq, Except.ok.injEq] at h
    obtain ⟨_, rfl⟩ := h
    exact (scanValue_accept _ _ _ _ _ hscan).2.2
  | failed err s => rw [hscan] at h; simp at h
  | needMore s =>
    rw [hscan] at h
    simp only at h
    split at h
    · split at h
      · rename_i hend
        simp only [Prod.mk.injEq, Except.ok.injEq] at h
        obtain ⟨_, rfl⟩ := h
        rw [List.take_length]
        exact scanValue_needMore_accept _ _ _ _ hscan ⟨32, hend⟩
      · split at h <;> simp at h
    · simp at h

/-- An accepted byte that closes no bracket: the code is no error and does not
end the value, and the scanner after it accepts the rest. -/
theorem Accept.next (s s' : Scanner) (c : UInt8) (cs : List UInt8) (code : ScanCode)
    (hr : s.run c = (s', code)) (h3 : code ≠ .EndObject) (h4 : code ≠ .EndArray)
    (h : Accept s (c :: cs)) : code ≠ .Error ∧ code ≠ .End ∧ Accept s' cs := by
  unfold Accept at h
  rw [hr] at h
  cases code <;> simp only at h
  case EndObject => exact absurd rfl h3
  case EndArray => exact absurd rfl h4
  all_goals exact ⟨by simp, by simp, h⟩

/-- Acceptance by a scanner is acceptance in its state with its stack. -/
theorem Accept.at (s : Scanner) (d : List UInt8) (st : Step) (σ : List ParseState)
    (hs : s.step = st) (hp : s.parseState = σ) (h : Accept s d) : Accept (Scanner.at st σ) d :=
  Accept.congr d s _ ⟨hs.symm, by simp [Scanner.at, hp]⟩ h

/-- Inside a string no byte ends the value. -/
theorem Accept.inString_nil (st : Step) (σ : List ParseState)
    (hst : st = .InString ∨ st = .InStringEsc ∨ st = .InStringEscU ∨ st = .InStringEscU1
      ∨ st = .InStringEscU12 ∨ st = .InStringEscU123) : ¬ Accept (Scanner.at st σ) [] := by
  rintro ⟨c, hc⟩
  rcases hst with h | h | h | h | h | h <;> subst h <;>
    simp only [Scanner.run, Scanner.at, stateInString, stateInStringEsc, stateInStringEscHex,
      Scanner.error] at hc <;>
    split_ifs at hc

/-- The scanner reads over a byte of a string that is no quote, no backslash and
no control character. -/
theorem Accept.inString_plain (σ : List ParseState) (c : UInt8) (cs : List UInt8)
    (h1 : c.toNat ≠ 34) (h2 : c.toNat ≠ 92) (h3 : ¬ c.toNat < 0x20)
    (h : Accept (Scanner.at .InString σ) (c :: cs)) : Accept (Scanner.at .InString σ) cs := by
  have hr : (Scanner.at .InString σ).run c = (Scanner.at .InString σ, .Continue) := by
    simp only [Scanner.run, Scanner.at, stateInString, h1, h2, h3, if_false]
  exact (Accept.next _ _ c cs _ hr (by decide) (by decide) h).2.2

/-- The scanner inside a string reads over bytes that are not ASCII. -/
theorem Accept.inString_drop (σ : List ParseState) : ∀ (k : Nat) (d : List UInt8),
    (∀ b ∈ d.take k, 0x80 ≤ b.toNat) → Accept (Scanner.at .InString σ) d →
    Accept (Scanner.at .InString σ) (d.drop k) := by
  intro k
  induction k with
  | zero => intro d _ h; exact h
  | succ k ih =>
    intro d hb h
    cases d with
    | nil => exact h
    | cons c cs =>
      have hc : 0x80 ≤ c.toNat := hb c (by simp)
      rw [List.drop_succ_cons]
      apply ih cs (fun b hb' => hb b (by simp [List.take_succ_cons, hb']))
      exact Accept.inString_plain σ c cs (by omega) (by omega) (by omega) h

/-- The width `DecodeRune` reports for a byte that is not ASCII is at least 1,
and the bytes it covers are not ASCII. -/
theorem DecodeRune_width (c : UInt8) (cs : List UInt8) (hc : ¬ c.toNat < 0x80) :
    1 ≤ (DecodeRune (c :: cs)).2
      ∧ ∀ b ∈ (c :: cs).take (DecodeRune (c :: cs)).2, 0x80 ≤ b.toNat := by
  have hc' : 0x80 ≤ c.toNat := by omega
  have one : ∀ r : Char, 1 ≤ ((r, 1) : Char × Nat).2
      ∧ ∀ b ∈ (c :: cs).take ((r, 1) : Char × Nat).2, 0x80 ≤ b.toNat := by
    intro r
    refine ⟨le_refl _, fun b hb => ?_⟩
    simp only [List.take_succ_cons, List.take_zero, List.mem_singleton] at hb
    rw [hb]; exact hc'
  unfold DecodeRune
  simp only [hc, if_false]
  by_cases h1 : c.toNat < 0xC2
  · rw [if_pos h1]; exact one _
  rw [if_neg h1]
  by_cases h2 : c.toNat < 0xE0
  · rw [if_pos h2]
    cases cs with
    | nil => exact one _
    | cons b1 cs1 =>
      simp only
      by_cases hb1 : inRange 0x80 0xBF b1 = true
      · rw [if_pos hb1]
        refine ⟨by simp, fun b hb => ?_⟩
        simp only [inRange, decide_eq_true_eq] at hb1
        simp only [List.take_succ_cons, List.take_zero, List.mem_cons, List.mem_singleton,
          List.not_mem_nil, or_false] at hb
        rcases hb with hb | hb <;> rw [hb] <;> omega
      · rw [if_neg hb1]; exact one _
  rw [if_neg h2]
  by_cases h3 : c.toNat < 0xF0
  · rw [if_pos h3]
    match cs with
    | [] => exact one _
    | [_] => exact one _
    | b1 :: b2 :: cs2 =>
      simp only
      by_cases hb1 : inRange (if c.toNat = 0xE0 then 0xA0 else 0x80)
          (if c.toNat = 0xED then 0x9F else 0xBF) b1 = true ∧ inRange 0x80 0xBF b2 = true
      · rw [if_pos hb1]
        refine ⟨by simp, fun b hb => ?_⟩
        simp only [inRange, decide_eq_true_eq] at hb1
        simp only [List.take_succ_cons, List.take_zero, List.mem_cons, List.mem_singleton,
          List.not_mem_nil, or_false] at hb
        obtain ⟨⟨hlo, _⟩, ⟨_, _⟩⟩ := hb1
        have : 0x80 ≤ b1.toNat := by
          by_cases hE : c.toNat = 0xE0
          · rw [if_pos hE] at hlo; omega
          · rw [if_neg hE] at hlo; omega
        rcases hb with hb | hb | hb <;> rw [hb] <;> omega
      · rw [if_neg hb1]; exact one _
  rw [if_neg h3]
  by_cases h4 : c.toNat < 0xF5
  · rw [if_pos h4]
    match cs with
    | [] => exact one _
    | [_] => exact one _
    | [_, _] => exact one _
    | b1 :: b2 :: b3 :: cs3 =>
      simp only
      by_cases hb1 : inRange (if c.toNat = 0xF0 then 0x90 else 0x80)
          (if c.toNat = 0xF4 then 0x8F else 0xBF) b1 = true ∧ inRange 0x80 0xBF b2 = true
            ∧ inRange 0x80 0xBF b3 = true
      · rw [if_pos hb1]
        refine ⟨by simp, fun b hb => ?_⟩
        simp only [inRange, decide_eq_true_eq] at hb1
        simp only [List.take_succ_cons, List.take_zero, List.mem_cons, List.mem_singleton,
          List.not_mem_nil, or_false] at hb
        obtain ⟨⟨hlo, _⟩, ⟨_, _⟩, ⟨_, _⟩⟩ := hb1
        have : 0x80 ≤ b1.toNat := by
          by_cases hE : c.toNat = 0xF0
          · rw [if_pos hE] at hlo; omega
          · rw [if_neg hE] at hlo; omega
        rcases hb with hb | hb | hb | hb <;> rw [hb] <;> omega
      · rw [if_neg hb1]; exact one _
  rw [if_neg h4]; exact one _

/-- An error is a result of a step inside a bracket. -/
theorem OpenStep.of_failure (s : Scanner) (c : UInt8) (ctx : String) :
    OpenStep (s.error c ctx) := Or.inl rfl

/-- A code that does not end the value, with a scanner inside a bracket, is a
result of a step inside a bracket. -/
theorem OpenStep.of_plain (s : Scanner) (code : ScanCode) (h1 : code ≠ .End)
    (hp : s.parseState ≠ []) (ht : s.step ≠ .EndTop) : OpenStep (s, code) :=
  Or.inr ⟨h1, Or.inr (Or.inr ⟨hp, ht⟩)⟩

/-- The state `stateEndValue` inside a bracket. -/
theorem stateEndValue_open (s : Scanner) (c : UInt8) (hp : s.parseState ≠ []) :
    OpenStep (stateEndValue s c) := by
  cases hs : s.parseState with
  | nil => exact absurd hs hp
  | cons x xs =>
    unfold stateEndValue
    simp only [hs]
    split
    · exact OpenStep.of_plain _ _ (by decide) (by simp [hs]) (by simp)
    · cases x <;> simp only
      · split
        · exact OpenStep.of_plain _ _ (by decide) (by simp) (by simp)
        · exact OpenStep.of_failure _ _ _
      · split
        · exact OpenStep.of_plain _ _ (by decide) (by simp) (by simp)
        · split
          · exact Or.inr ⟨fun h => ScanCode.noConfusion h, Or.inl rfl⟩
          · exact OpenStep.of_failure _ _ _
      · split
        · exact OpenStep.of_plain _ _ (by decide) (by simp [hs]) (by simp)
        · split
          · exact Or.inr ⟨fun h => ScanCode.noConfusion h, Or.inr (Or.inl rfl)⟩
          · exact OpenStep.of_failure _ _ _

/-- The method `pushParseState` leaves the scanner inside a bracket. -/
theorem pushParseState_open (s : Scanner) (c : UInt8) (p : ParseState) (code : ScanCode)
    (h1 : code ≠ .End) (ht : s.step ≠ .EndTop) : OpenStep (s.pushParseState c p code) := by
  unfold Scanner.pushParseState
  simp only
  split
  · exact OpenStep.of_plain _ _ h1 (by simp) ht
  · exact Or.inl rfl

/-- The state `stateBeginValue` inside a bracket. -/
theorem stateBeginValue_open (s : Scanner) (c : UInt8) (hp : s.parseState ≠ [])
    (ht : s.step ≠ .EndTop) : OpenStep (stateBeginValue s c) := by
  unfold stateBeginValue
  by_cases h0 : isSpace c = true
  · rw [if_pos h0]; exact OpenStep.of_plain _ _ (by decide) hp ht
  rw [if_neg h0]
  by_cases h1 : c.toNat = 123
  · rw [if_pos h1]; exact pushParseState_open _ _ _ _ (by decide) (by simp)
  rw [if_neg h1]
  by_cases h2 : c.toNat = 91
  · rw [if_pos h2]; exact pushParseState_open _ _ _ _ (by decide) (by simp)
  rw [if_neg h2]
  by_cases h3 : c.toNat = 34
  · rw [if_pos h3]; exact OpenStep.of_plain _ _ (by decide) hp (by simp)
  rw [if_neg h3]
  by_cases h4 : c.toNat = 45
  · rw [if_pos h4]; exact OpenStep.of_plain _ _ (by decide) hp (by simp)
  rw [if_neg h4]
  by_cases h5 : c.toNat = 48
  · rw [if_pos h5]; exact OpenStep.of_plain _ _ (by decide) hp (by simp)
  rw [if_neg h5]
  by_cases h6 : c.toNat = 116
  · rw [if_pos h6]; exact OpenStep.of_plain _ _ (by decide) hp (by simp)
  rw [if_neg h6]
  by_cases h7 : c.toNat = 102
  · rw [if_pos h7]; exact OpenStep.of_plain _ _ (by decide) hp (by simp)
  rw [if_neg h7]
  by_cases h8 : c.toNat = 110
  · rw [if_pos h8]; exact OpenStep.of_plain _ _ (by decide) hp (by simp)
  rw [if_neg h8]
  by_cases h9 : 49 ≤ c.toNat ∧ c.toNat ≤ 57
  · rw [if_pos h9]; exact OpenStep.of_plain _ _ (by decide) hp (by simp)
  rw [if_neg h9]
  exact OpenStep.of_failure _ _ _

/-- The state `stateBeginString` inside a bracket. -/
theorem stateBeginString_open (s : Scanner) (c : UInt8) (hp : s.parseState ≠ [])
    (ht : s.step ≠ .EndTop) : OpenStep (stateBeginString s c) := by
  unfold stateBeginString
  split_ifs
  all_goals first
    | exact OpenStep.of_failure _ _ _
    | exact OpenStep.of_plain _ _ (by decide) hp ht
    | exact OpenStep.of_plain _ _ (by decide) hp (by simp)

/-- The state `state0` inside a bracket. -/
theorem state0_open (s : Scanner) (c : UInt8) (hp : s.parseState ≠ []) :
    OpenStep (state0 s c) := by
  unfold state0
  split_ifs
  all_goals first
    | exact OpenStep.of_plain _ _ (by decide) hp (by simp)
    | exact stateEndValue_open s c hp

/-- The state `stateESign` inside a bracket. -/
theorem stateESign_open (s : Scanner) (c : UInt8) (hp : s.parseState ≠ []) :
    OpenStep (stateESign s c) := by
  unfold stateESign
  split_ifs
  all_goals first
    | exact OpenStep.of_failure _ _ _
    | exact OpenStep.of_plain _ _ (by decide) hp (by simp)

/-- The state `stateBeginStringOrEmpty` inside a bracket. -/
theorem stateBeginStringOrEmpty_open (s : Scanner) (c : UInt8) (hp : s.parseState ≠ [])
    (ht : s.step ≠ .EndTop) : OpenStep (stateBeginStringOrEmpty s c) := by
  unfold stateBeginStringOrEmpty
  split_ifs
  · exact OpenStep.of_plain _ _ (by decide) hp ht
  · exact stateEndValue_open _ c (by simp)
  · exact stateBeginString_open s c hp ht

/-- One step of a scanner inside a bracket. -/
theorem Scanner.run_open (s : Scanner) (c : UInt8) (hp : s.parseState ≠ [])
    (ht : s.step ≠ .EndTop) : OpenStep (s.run c) := by
  unfold Scanner.run
  cases hstep : s.step <;> simp only
  case Error => exact Or.inl rfl
  case EndTop => exact absurd hstep ht
  case BeginValue => exact stateBeginValue_open s c hp ht
  case BeginString => exact stateBeginString_open s c hp ht
  case BeginStringOrEmpty => exact stateBeginStringOrEmpty_open s c hp ht
  case EndValue => exact stateEndValue_open s c hp
  case S0 => exact state0_open s c hp
  case ESign => exact stateESign_open s c hp
  all_goals
    simp only [stateBeginValueOrEmpty, stateInString, stateInStringEsc,
      stateInStringEscHex, stateNeg, state1, stateDot, stateDot0, stateE, stateE0, stateLiteral]
    split_ifs
    all_goals first
      | exact OpenStep.of_failure _ _ _
      | exact OpenStep.of_plain _ _ (by decide) hp ht
      | exact OpenStep.of_plain _ _ (by decide) hp (by simp)
      | exact stateEndValue_open s c hp
      | exact stateBeginValue_open s c hp ht
      | exact state0_open s c hp
      | exact stateESign_open s c hp

/-- At the top level a complete value followed by no byte is accepted. -/
theorem Accept.end_nil : Accept (Scanner.at .EndValue []) [] := ⟨32, rfl⟩

/-- The closing bracket of a nested value: the loop of `readValue`, started
inside the brackets alone, finds the end of the value where the scanner of the
whole text is at the end of a value under the stack it had before. -/
theorem scanValue_nested (τ : List ParseState) (d : List UInt8) : ∀ (a b : Scanner) (m : Nat),
    Lifted τ a b → a.parseState ≠ [] → a.step ≠ .EndTop → Accept b d →
    ∃ n S, scanValue a d m = .value n S ∧ m < n ∧ n ≤ m + d.length
      ∧ Accept (Scanner.at .EndValue τ) (d.drop (n - m)) := by
  induction d with
  | nil =>
    intro a b m h hp ht ⟨c, hc⟩
    rcases Scanner.run_lift τ a b c h (Or.inl hp) with hl | ⟨hcode, _⟩
    · rw [hc] at hl; cases hl
    · rcases Scanner.run_open a c hp ht with ho | ⟨ho, _⟩
      · rw [hcode, hc] at ho; cases ho
      · rw [hcode, hc] at ho; exact absurd rfl ho
  | cons c cs ih =>
    intro a b m h hp ht hacc
    have hbE : (b.run c).2 ≠ .Error := by
      intro he; unfold Accept at hacc; rw [he] at hacc; exact hacc
    have hbN : (b.run c).2 ≠ .End := by
      intro he; unfold Accept at hacc; rw [he] at hacc; exact hacc
    have hL : Lifted τ { a with bytes := a.bytes + 1 } b := ⟨h.1, h.2⟩
    rcases Scanner.run_lift τ _ b c hL (Or.inl hp) with hl | ⟨hcode, hls⟩
    · exact absurd hl hbE
    rcases Scanner.run_open { a with bytes := a.bytes + 1 } c hp ht with ho | ⟨_, hop⟩
    · rw [hcode] at ho; exact absurd ho hbE
    unfold Accept at hacc
    rw [← hcode] at hacc hbE hbN
    simp only [scanValue]
    cases hk : (Scanner.run { a with bytes := a.bytes + 1 } c).2 <;>
      rw [hk] at hacc hop hls hbE hbN <;> simp only at hacc ⊢
    case EndObject | EndArray =>
      have hbτ : (Scanner.run { a with bytes := a.bytes + 1 } c).1.parseState = [] →
          (b.run c).1.parseState = τ := by
        intro h0
        rcases hls with hls | hls
        · rw [hls.2, h0]; rfl
        · exact hls.2.2.1
      rcases stateEndValue_space (Scanner.run { a with bytes := a.bytes + 1 } c).1 with
        ⟨hs1, hs2⟩ | ⟨hs1, hs2⟩
      · rw [if_pos hs2]
        refine ⟨m + 1, _, rfl, by omega, by simp, ?_⟩
        rw [Nat.add_sub_cancel_left]
        show Accept _ cs
        rcases stateEndValue_space (b.run c).1 with ⟨hb1, hb2⟩ | ⟨hb1, hb2⟩
        · rw [if_pos hb2] at hacc
          have hτ : τ = [] := by rw [← hbτ hs1]; exact hb1
          rw [hacc, hτ]
          exact Accept.end_nil
        · rw [hb2] at hacc
          simp only [reduceCtorEq, if_false] at hacc
          exact Accept.at { (b.run c).1 with step := .EndValue } cs .EndValue τ rfl (hbτ hs1) hacc
      · rw [hs2]
        simp only [reduceCtorEq, if_false]
        have hls' : Lifted τ (Scanner.run { a with bytes := a.bytes + 1 } c).1 (b.run c).1 := by
          rcases hls with hls | hls
          · exact hls
          · exact absurd hls.2.1 hs1
        have hbne : (b.run c).1.parseState ≠ [] := by
          rw [hls'.2]
          intro h0
          exact hs1 (List.append_eq_nil.mp h0).1
        rcases stateEndValue_space (b.run c).1 with ⟨hb1, _⟩ | ⟨_, hb2⟩
        · exact absurd hb1 hbne
        rw [hb2] at hacc
        simp only [reduceCtorEq, if_false] at hacc
        obtain ⟨n, S, h1, h2, h3, h4⟩ :=
          ih { (Scanner.run { a with bytes := a.bytes + 1 } c).1 with step := .EndValue }
            { (b.run c).1 with step := .EndValue } (m + 1) ⟨rfl, hls'.2⟩ hs1 (by simp) hacc
        refine ⟨n, S, h1, by omega, by simp only [List.length_cons]; omega, ?_⟩
        have hnm : n - m = (n - (m + 1)) + 1 := by omega
        rw [hnm, List.drop_succ_cons]
        exact h4
    all_goals
      have hls' : Lifted τ (Scanner.run { a with bytes := a.bytes + 1 } c).1 (b.run c).1 := by
        rcases hls with hls | hls
        · exact hls
        · rcases hls.2.2.2.2 with h0 | h0 <;> cases h0
      have hop' : (Scanner.run { a with bytes := a.bytes + 1 } c).1.parseState ≠ []
          ∧ (Scanner.run { a with bytes := a.bytes + 1 } c).1.step ≠ .EndTop := by
        rcases hop with h0 | h0 | h0
        · cases h0
        · cases h0
        · exact h0
      obtain ⟨n, S, h1, h2, h3, h4⟩ := ih _ _ (m + 1) hls' hop'.1 hop'.2 hacc
      refine ⟨n, S, h1, by omega, by simp only [List.length_cons]; omega, ?_⟩
      have hnm : n - m = (n - (m + 1)) + 1 := by omega
      rw [hnm, List.drop_succ_cons]
      exact h4

/-- The closing quote of a string leaves the scanner at the end of a value. -/
theorem Accept.inString_quote (σ : List ParseState) (c : UInt8) (cs : List UInt8)
    (h1 : c.toNat = 34) (h : Accept (Scanner.at .InString σ) (c :: cs)) :
    Accept (Scanner.at .EndValue σ) cs := by
  have hr : (Scanner.at .InString σ).run c = (Scanner.at .EndValue σ, .Continue) := by
    simp only [Scanner.run, Scanner.at, stateInString, h1, if_true]
  exact (Accept.next _ _ c cs _ hr (by decide) (by decide) h).2.2

/-- A backslash inside a string starts an escape. -/
theorem Accept.inString_backslash (σ : List ParseState) (c : UInt8) (cs : List UInt8)
    (h1 : c.toNat = 92) (h : Accept (Scanner.at .InString σ) (c :: cs)) :
    Accept (Scanner.at .InStringEsc σ) cs := by
  have hr : (Scanner.at .InString σ).run c = (Scanner.at .InStringEsc σ, .Continue) := by
    simp [Scanner.run, Scanner.at, stateInString, h1]
  exact (Accept.next _ _ c cs _ hr (by decide) (by decide) h).2.2

/-- A control character inside a string is not accepted. -/
theorem Accept.inString_control (σ : List ParseState) (c : UInt8) (cs : List UInt8)
    (h1 : c.toNat ≠ 34) (h2 : c.toNat ≠ 92) (h3 : c.toNat < 0x20) :
    ¬ Accept (Scanner.at .InString σ) (c :: cs) := by
  intro h
  have hr : (Scanner.at .InString σ).run c
      = ((Scanner.at .InString σ).error c "in string literal") := by
    simp only [Scanner.run, Scanner.at, stateInString, h1, h2, h3, if_false, if_true]
  exact (Accept.next _ _ c cs _ hr (by decide) (by decide) h).1 rfl

/-- After a backslash the scanner accepts a one-letter escape or the letter u. -/
theorem Accept.inStringEsc (σ : List ParseState) (e : UInt8) (cs : List UInt8)
    (h : Accept (Scanner.at .InStringEsc σ) (e :: cs)) :
    ([98, 102, 110, 114, 116, 92, 47, 34].contains e.toNat = true
        ∧ Accept (Scanner.at .InString σ) cs)
      ∨ ([98, 102, 110, 114, 116, 92, 47, 34].contains e.toNat = false ∧ e.toNat = 117
        ∧ Accept (Scanner.at .InStringEscU σ) cs) := by
  by_cases h1 : [98, 102, 110, 114, 116, 92, 47, 34].contains e.toNat = true
  · left
    have hr : (Scanner.at .InStringEsc σ).run e = (Scanner.at .InString σ, .Continue) := by
      simp only [Scanner.run, Scanner.at, stateInStringEsc]
      rw [if_pos h1]
    exact ⟨h1, (Accept.next _ _ e cs _ hr (by decide) (by decide) h).2.2⟩
  · by_cases h2 : e.toNat = 117
    · right
      have hr : (Scanner.at .InStringEsc σ).run e = (Scanner.at .InStringEscU σ, .Continue) := by
        simp only [Scanner.run, Scanner.at, stateInStringEsc]
        rw [if_neg h1, if_pos h2]
      exact ⟨by simpa using h1, h2, (Accept.next _ _ e cs _ hr (by decide) (by decide) h).2.2⟩
    · exfalso
      have hr : (Scanner.at .InStringEsc σ).run e
          = ((Scanner.at .InStringEsc σ).error e "in string escape code") := by
        simp only [Scanner.run, Scanner.at, stateInStringEsc]
        rw [if_neg h1, if_neg h2]
      exact (Accept.next _ _ e cs _ hr (by decide) (by decide) h).1 rfl

/-- In a state that expects a hexadecimal digit the scanner accepts one. -/
theorem Accept.inStringHex (σ : List ParseState) (st next : Step)
    (hrun : ∀ c, (Scanner.at st σ).run c = stateInStringEscHex next (Scanner.at st σ) c)
    (d : List UInt8) (h : Accept (Scanner.at st σ) d) :
    ∃ c cs, d = c :: cs ∧ isHexDigit c = true ∧ Accept (Scanner.at next σ) cs := by
  cases d with
  | nil =>
    obtain ⟨c, hc⟩ := h
    rw [hrun] at hc
    unfold stateInStringEscHex at hc
    split at hc <;> cases hc
  | cons c cs =>
    by_cases hx : isHexDigit c = true
    · have hr : (Scanner.at st σ).run c = (Scanner.at next σ, .Continue) := by
        rw [hrun]; unfold stateInStringEscHex; rw [if_pos hx]; rfl
      exact ⟨c, cs, rfl, hx, (Accept.next _ _ c cs _ hr (by decide) (by decide) h).2.2⟩
    · exfalso
      have hr : (Scanner.at st σ).run c
          = (Scanner.at st σ).error c "in \\u hexadecimal character escape" := by
        rw [hrun]; unfold stateInStringEscHex; rw [if_neg hx]
      exact (Accept.next _ _ c cs _ hr (by decide) (by decide) h).1 rfl

/-- A hexadecimal digit of the scanner has a value. -/
theorem hexValue_isHexDigit (c : UInt8) (h : isHexDigit c = true) : ∃ v, hexValue c = some v := by
  unfold hexValue
  simp only [isHexDigit, isDigit, Bool.or_eq_true, decide_eq_true_eq] at h
  split_ifs with h1 h2 h3
  · exact ⟨_, rfl⟩
  · exact ⟨_, rfl⟩
  · exact ⟨_, rfl⟩
  · rcases h with (h | h) | h
    · exact absurd h h1
    · exact absurd h h2
    · exact absurd h h3

/-- After the letter u the scanner accepts four hexadecimal digits, which
`getu4` reads. -/
theorem Accept.inStringEscU (σ : List ParseState) (c e : UInt8) (d : List UInt8)
    (hc : c.toNat = 92) (he : e.toNat = 117) (h : Accept (Scanner.at .InStringEscU σ) d) :
    ∃ rr rest, getu4 (c :: e :: d) = some (rr, rest) ∧ rest.length + 4 = d.length
      ∧ Accept (Scanner.at .InString σ) rest := by
  obtain ⟨h1, d1, rfl, x1, a1⟩ := Accept.inStringHex σ .InStringEscU .InStringEscU1 (fun _ => rfl) d h
  obtain ⟨h2, d2, rfl, x2, a2⟩ := Accept.inStringHex σ .InStringEscU1 .InStringEscU12 (fun _ => rfl) d1 a1
  obtain ⟨h3, d3, rfl, x3, a3⟩ := Accept.inStringHex σ .InStringEscU12 .InStringEscU123 (fun _ => rfl) d2 a2
  obtain ⟨h4, d4, rfl, x4, a4⟩ := Accept.inStringHex σ .InStringEscU123 .InString (fun _ => rfl) d3 a3
  obtain ⟨v1, e1⟩ := hexValue_isHexDigit h1 x1
  obtain ⟨v2, e2⟩ := hexValue_isHexDigit h2 x2
  obtain ⟨v3, e3⟩ := hexValue_isHexDigit h3 x3
  obtain ⟨v4, e4⟩ := hexValue_isHexDigit h4 x4
  refine ⟨((v1 * 16 + v2) * 16 + v3) * 16 + v4, d4, ?_, by simp, a4⟩
  simp only [getu4, hc, he, e1, e2, e3, e4, and_self, if_true]

/-- Where `getu4` reads an escape, the scanner inside a string reads over it. -/
theorem Accept.of_getu4 (σ : List ParseState) (d rest : List UInt8) (rr : Nat)
    (hg : getu4 d = some (rr, rest)) (h : Accept (Scanner.at .InString σ) d) :
    rest.length + 6 = d.length ∧ Accept (Scanner.at .InString σ) rest := by
  match d, hg, h with
  | b :: u :: h1 :: h2 :: h3 :: h4 :: rest', hg, h =>
    by_cases hbu : b.toNat = 92 ∧ u.toNat = 117
    · have hesc := Accept.inString_backslash σ b _ hbu.1 h
      rcases Accept.inStringEsc σ u _ hesc with ⟨hs, _⟩ | ⟨_, _, hu⟩
      · rw [hbu.2] at hs; exact absurd hs (by decide)
      · obtain ⟨rr', rest'', hg', hlen, hacc⟩ := Accept.inStringEscU σ b u _ hbu.1 hbu.2 hu
        rw [hg] at hg'
        simp only [Option.some.injEq, Prod.mk.injEq] at hg'
        obtain ⟨_, rfl⟩ := hg'
        simp only [List.length_cons] at hlen ⊢
        exact ⟨by omega, hacc⟩
    · simp only [getu4, hbu, if_false] at hg
      cases hg
  | [], hg, _ => simp [getu4] at hg
  | [_], hg, _ => simp [getu4] at hg
  | [_, _], hg, _ => simp [getu4] at hg
  | [_, _, _], hg, _ => simp [getu4] at hg
  | [_, _, _, _], hg, _ => simp [getu4] at hg
  | [_, _, _, _, _], hg, _ => simp [getu4] at hg

/-- A one-letter escape of the scanner is one `unquoteBytes` knows, and is
not the letter u. -/
theorem simpleEscape_of_scanner (e : UInt8)
    (h : [98, 102, 110, 114, 116, 92, 47, 34].contains e.toNat = true) :
    e.toNat ≠ 117 ∧ ∃ ch, simpleEscape e = some ch := by
  simp only [List.contains_eq_any_beq, List.any_cons, List.any_nil, Bool.or_false,
    Bool.or_eq_true, beq_iff_eq] at h
  refine ⟨by omega, ?_⟩
  unfold simpleEscape
  split_ifs
  all_goals first
    | exact ⟨_, rfl⟩
    | omega

/-- A string literal the scanner accepts is unquoted: `unquoteRest` returns its
text and the bytes after the closing quote, where the scanner is at the end of
a value. -/
theorem unquoteRest_accept (σ : List ParseState) : ∀ (fuel : Nat) (d : List UInt8),
    d.length < fuel → Accept (Scanner.at .InString σ) d →
    ∃ chars rest, unquoteRest fuel d = some (chars, rest) ∧ rest.length < d.length
      ∧ Accept (Scanner.at .EndValue σ) rest := by
  intro fuel
  induction fuel with
  | zero => intro d h; exact absurd h (Nat.not_lt_zero _)
  | succ fuel ih =>
    intro d hlen hacc
    cases d with
    | nil => exact absurd hacc (Accept.inString_nil _ σ (Or.inl rfl))
    | cons c cs =>
      simp only [List.length_cons] at hlen
      by_cases h34 : c.toNat = 34
      · refine ⟨[], cs, ?_, by simp, Accept.inString_quote σ c cs h34 hacc⟩
        simp only [unquoteRest, h34, if_true]
      by_cases h92 : c.toNat = 92
      · have hesc := Accept.inString_backslash σ c cs h92 hacc
        cases cs with
        | nil => exact absurd hesc (Accept.inString_nil _ σ (Or.inr (Or.inl rfl)))
        | cons e cs' =>
          simp only [List.length_cons] at hlen
          rcases Accept.inStringEsc σ e cs' hesc with ⟨hs, ha⟩ | ⟨_, h117, ha⟩
          · obtain ⟨hne, ch, hch⟩ := simpleEscape_of_scanner e hs
            obtain ⟨chars, rest, hrec, hl, hr⟩ := ih cs' (by omega) ha
            refine ⟨ch :: chars, rest, ?_, by simp only [List.length_cons]; omega, hr⟩
            simp only [unquoteRest, h34, h92, hne, if_false, if_true, hch, hrec, Option.map_some',
              (by decide : ¬ (92 : Nat) = 34)]
          · obtain ⟨rr, after, hg, hgl, hga⟩ := Accept.inStringEscU σ c e cs' h92 h117 ha
            obtain ⟨chars, rest, hrec, hl, hr⟩ := ih after (by omega) hga
            simp only [unquoteRest, h34, h92, h117, if_false, if_true, hg,
              (by decide : ¬ (92 : Nat) = 34)]
            by_cases hsur : 0xD800 ≤ rr ∧ rr < 0xE000
            · rw [if_pos hsur]
              cases hg1 : getu4 after with
              | none =>
                simp only [hrec, Option.map_some']
                exact ⟨_, _, rfl, by simp only [List.length_cons]; omega, hr⟩
              | some p =>
                obtain ⟨rr1, after1⟩ := p
                simp only
                by_cases hpair : rr < 0xDC00 ∧ 0xDC00 ≤ rr1 ∧ rr1 < 0xE000
                · rw [if_pos hpair]
                  obtain ⟨hl1, ha1⟩ := Accept.of_getu4 σ after after1 rr1 hg1 hga
                  obtain ⟨chars1, rest1, hrec1, hl1', hr1⟩ := ih after1 (by omega) ha1
                  simp only [hrec1, Option.map_some']
                  exact ⟨_, _, rfl, by simp only [List.length_cons]; omega, hr1⟩
                · rw [if_neg hpair]
                  simp only [hrec, Option.map_some']
                  exact ⟨_, _, rfl, by simp only [List.length_cons]; omega, hr⟩
            · rw [if_neg hsur]
              simp only [hrec, Option.map_some']
              exact ⟨_, _, rfl, by simp only [List.length_cons]; omega, hr⟩
      by_cases h20 : c.toNat < 0x20
      · exact absurd hacc (Accept.inString_control σ c cs h34 h92 h20)
      by_cases h80 : c.toNat < 0x80
      · obtain ⟨chars, rest, hrec, hl, hr⟩ :=
          ih cs (by omega) (Accept.inString_plain σ c cs h34 h92 h20 hacc)
        refine ⟨Char.ofNat c.toNat :: chars, rest, ?_, by simp only [List.length_cons]; omega, hr⟩
        simp only [unquoteRest, h34, h92, h20, h80, if_false, if_true, hrec, Option.map_some']
      · obtain ⟨hw1, hw2⟩ := DecodeRune_width c cs h80
        have hdl : ((c :: cs).drop (DecodeRune (c :: cs)).2).length < (c :: cs).length := by
          rw [List.length_drop]
          simp only [List.length_cons]
          omega
        obtain ⟨chars, rest, hrec, hl, hr⟩ :=
          ih ((c :: cs).drop (DecodeRune (c :: cs)).2)
            (by simp only [List.length_cons] at hdl; omega)
            (Accept.inString_drop σ _ _ hw2 hacc)
        refine ⟨(DecodeRune (c :: cs)).1 :: chars, rest, ?_, by omega, hr⟩
        simp only [unquoteRest, h34, h92, h20, h80, if_false, hrec, Option.map_some']

/-- The state `stateEndValue` does not read the field `step`. -/
theorem stateEndValue_step (s : Scanner) (x : Step) (c : UInt8) :
    stateEndValue { s with step := x } c = stateEndValue s c := by
  cases s with
  | mk step endTop parseState err bytes =>
    cases parseState with
    | nil => rfl
    | cons p ps => cases p <;> rfl

/-- A byte of a number literal is no space and no separator. -/
theorem numberByte_facts (c : UInt8) (h : numberByte c = true) :
    isSpace c = false ∧ c.toNat ≠ 58 ∧ c.toNat ≠ 44 ∧ c.toNat ≠ 125 ∧ c.toNat ≠ 93 := by
  simp only [numberByte, isDigit, Bool.or_eq_true, decide_eq_true_eq] at h
  refine ⟨?_, by omega, by omega, by omega, by omega⟩
  simp only [isSpace, Bool.or_eq_false_iff, decide_eq_false_iff_not]
  omega

/-- A byte of a number literal after a complete value ends the value or is an error. -/
theorem stateEndValue_numberByte (s : Scanner) (c : UInt8) (h : numberByte c = true) :
    (stateEndValue s c).2 = .End ∨ (stateEndValue s c).2 = .Error := by
  obtain ⟨h0, h1, h2, h3, h4⟩ := numberByte_facts c h
  unfold stateEndValue
  cases s.parseState with
  | nil =>
    left
    simp only [stateEndTop]
    split <;> rfl
  | cons p ps =>
    right
    simp only [h0, Bool.false_eq_true, if_false]
    cases p <;> simp only [h1, h2, h3, h4, if_false] <;> rfl

/-- The bytes of number literals: digits, the point, the exponent letters and the signs. -/
theorem numberByte_of (c : UInt8)
    (h : (48 ≤ c.toNat ∧ c.toNat ≤ 57) ∨ c.toNat = 46 ∨ c.toNat = 101 ∨ c.toNat = 69
      ∨ c.toNat = 43 ∨ c.toNat = 45) : numberByte c = true := by
  simp only [numberByte, isDigit, Bool.or_eq_true, decide_eq_true_eq]
  omega

/-- One step inside a number literal: an error, or a byte of the literal that
leaves the scanner inside it, or the step of the state after a value. -/
theorem Scanner.run_inNumber (st : Step) (σ : List ParseState) (c : UInt8)
    (hst : st.inNumber = true) :
    ((Scanner.at st σ).run c).2 = .Error
      ∨ (numberByte c = true ∧ ∃ st', st'.inNumber = true
          ∧ (Scanner.at st σ).run c = (Scanner.at st' σ, .Continue))
      ∨ (Scanner.at st σ).run c = (Scanner.at .EndValue σ).run c := by
  have hend : stateEndValue (Scanner.at st σ) c = (Scanner.at .EndValue σ).run c :=
    (stateEndValue_step (Scanner.at st σ) .EndValue c).symm
  cases st <;> first | (exact absurd hst (by decide)) | skip
  all_goals
    simp only [Scanner.run, Scanner.at, stateNeg, state1, state0, stateDot, stateDot0, stateE,
      stateESign, stateE0] at hend ⊢
    split_ifs
    all_goals first
      | exact Or.inl rfl
      | exact Or.inr (Or.inr hend)
      | exact Or.inr (Or.inl ⟨by apply numberByte_of; omega, .S0, rfl, rfl⟩)
      | exact Or.inr (Or.inl ⟨by (try simp only [isDigit, decide_eq_true_eq] at *); apply numberByte_of; omega, .S1, rfl, rfl⟩)
      | exact Or.inr (Or.inl ⟨by (try simp only [isDigit, decide_eq_true_eq] at *); apply numberByte_of; omega, .Dot, rfl, rfl⟩)
      | exact Or.inr (Or.inl ⟨by (try simp only [isDigit, decide_eq_true_eq] at *); apply numberByte_of; omega, .Dot0, rfl, rfl⟩)
      | exact Or.inr (Or.inl ⟨by (try simp only [isDigit, decide_eq_true_eq] at *); apply numberByte_of; omega, .E, rfl, rfl⟩)
      | exact Or.inr (Or.inl ⟨by apply numberByte_of; omega, .ESign, rfl, rfl⟩)
      | exact Or.inr (Or.inl ⟨by (try simp only [isDigit, decide_eq_true_eq] at *); apply numberByte_of; omega, .E0, rfl, rfl⟩)

/-- Acceptance of bytes that are not empty depends on the first step only. -/
theorem Accept.of_run_eq (s s' : Scanner) (c : UInt8) (cs : List UInt8)
    (h : s.run c = s'.run c) (hacc : Accept s (c :: cs)) : Accept s' (c :: cs) := by
  unfold Accept at hacc ⊢
  rw [← h]
  exact hacc

/-- A number literal the scanner accepts ends where the bytes of a number end. -/
theorem Accept.number (σ : List ParseState) : ∀ (d : List UInt8) (st : Step),
    st.inNumber = true → Accept (Scanner.at st σ) d →
    Accept (Scanner.at .EndValue σ) (d.dropWhile numberByte) := by
  intro d
  induction d with
  | nil =>
    intro st hst ⟨c, hc⟩
    rcases Scanner.run_inNumber st σ c hst with h | ⟨_, _, _, h⟩ | h
    · rw [hc] at h; cases h
    · rw [h] at hc; cases hc
    · exact ⟨c, by rw [← h]; exact hc⟩
  | cons c cs ih =>
    intro st hst hacc
    by_cases hnb : numberByte c = true
    · rw [List.dropWhile_cons_of_pos hnb]
      rcases Scanner.run_inNumber st σ c hst with h | ⟨_, st', hst', h⟩ | h
      · unfold Accept at hacc; rw [h] at hacc; exact absurd hacc id
      · exact ih st' hst' (Accept.next _ _ c cs _ h (by decide) (by decide) hacc).2.2
      · exfalso
        have hr : (Scanner.at .EndValue σ).run c = stateEndValue (Scanner.at .EndValue σ) c := rfl
        unfold Accept at hacc
        rw [h, hr] at hacc
        rcases stateEndValue_numberByte (Scanner.at .EndValue σ) c hnb with he | he <;>
          rw [he] at hacc <;> exact hacc
    · rw [List.dropWhile_cons_of_neg hnb]
      rcases Scanner.run_inNumber st σ c hst with h | ⟨h, _⟩ | h
      · unfold Accept at hacc; rw [h] at hacc; exact absurd hacc id
      · exact absurd h hnb
      · exact Accept.of_run_eq _ _ c cs h hacc

/-- In a state of a literal name the scanner accepts the byte it expects. -/
theorem Accept.literal (σ : List ParseState) (st next : Step) (e : Nat) (ctx : String)
    (hrun : ∀ c, (Scanner.at st σ).run c = stateLiteral e next ctx (Scanner.at st σ) c)
    (d : List UInt8) (h : Accept (Scanner.at st σ) d) :
    ∃ c cs, d = c :: cs ∧ Accept (Scanner.at next σ) cs := by
  cases d with
  | nil =>
    obtain ⟨c, hc⟩ := h
    rw [hrun] at hc
    unfold stateLiteral at hc
    split at hc <;> cases hc
  | cons c cs =>
    by_cases hx : c.toNat = e
    · have hr : (Scanner.at st σ).run c = (Scanner.at next σ, .Continue) := by
        rw [hrun]; unfold stateLiteral; rw [if_pos hx]; rfl
      exact ⟨c, cs, rfl, (Accept.next _ _ c cs _ hr (by decide) (by decide) h).2.2⟩
    · exfalso
      have hr : (Scanner.at st σ).run c = (Scanner.at st σ).error c ctx := by
        rw [hrun]; unfold stateLiteral; rw [if_neg hx]
      exact (Accept.next _ _ c cs _ hr (by decide) (by decide) h).1 rfl

/-- After the first letter of `true` the scanner accepts three bytes. -/
theorem Accept.literal_true (σ : List ParseState) (d : List UInt8)
    (h : Accept (Scanner.at .T σ) d) :
    (d.drop 3).length < d.length ∧ Accept (Scanner.at .EndValue σ) (d.drop 3) := by
  obtain ⟨_, d1, rfl, a1⟩ := Accept.literal σ .T .Tr _ _ (fun _ => rfl) d h
  obtain ⟨_, d2, rfl, a2⟩ := Accept.literal σ .Tr .Tru _ _ (fun _ => rfl) d1 a1
  obtain ⟨_, d3, rfl, a3⟩ := Accept.literal σ .Tru .EndValue _ _ (fun _ => rfl) d2 a2
  exact ⟨by simp only [List.drop_succ_cons, List.drop_zero, List.length_cons]; omega, a3⟩

/-- After the first letter of `false` the scanner accepts four bytes. -/
theorem Accept.literal_false (σ : List ParseState) (d : List UInt8)
    (h : Accept (Scanner.at .F σ) d) :
    (d.drop 4).length < d.length ∧ Accept (Scanner.at .EndValue σ) (d.drop 4) := by
  obtain ⟨_, d1, rfl, a1⟩ := Accept.literal σ .F .Fa _ _ (fun _ => rfl) d h
  obtain ⟨_, d2, rfl, a2⟩ := Accept.literal σ .Fa .Fal _ _ (fun _ => rfl) d1 a1
  obtain ⟨_, d3, rfl, a3⟩ := Accept.literal σ .Fal .Fals _ _ (fun _ => rfl) d2 a2
  obtain ⟨_, d4, rfl, a4⟩ := Accept.literal σ .Fals .EndValue _ _ (fun _ => rfl) d3 a3
  exact ⟨by simp only [List.drop_succ_cons, List.drop_zero, List.length_cons]; omega, a4⟩

/-- After the first letter of `null` the scanner accepts three bytes. -/
theorem Accept.literal_null (σ : List ParseState) (d : List UInt8)
    (h : Accept (Scanner.at .N σ) d) :
    (d.drop 3).length < d.length ∧ Accept (Scanner.at .EndValue σ) (d.drop 3) := by
  obtain ⟨_, d1, rfl, a1⟩ := Accept.literal σ .N .Nu _ _ (fun _ => rfl) d h
  obtain ⟨_, d2, rfl, a2⟩ := Accept.literal σ .Nu .Nul _ _ (fun _ => rfl) d1 a1
  obtain ⟨_, d3, rfl, a3⟩ := Accept.literal σ .Nul .EndValue _ _ (fun _ => rfl) d2 a2
  exact ⟨by simp only [List.drop_succ_cons, List.drop_zero, List.length_cons]; omega, a3⟩

/-- The scanner reads over spaces before a value, before a key and after a
value inside a bracket. -/
theorem Accept.dropSpaces (st : Step) (σ : List ParseState)
    (hst : st = .BeginValue ∨ st = .BeginString ∨ st = .BeginStringOrEmpty
      ∨ (st = .EndValue ∧ σ ≠ [])) :
    ∀ d : List UInt8, Accept (Scanner.at st σ) d → Accept (Scanner.at st σ) (d.dropWhile isSpace) := by
  intro d
  induction d with
  | nil => intro h; exact h
  | cons c cs ih =>
    intro h
    by_cases hsp : isSpace c = true
    · rw [List.dropWhile_cons_of_pos hsp]
      apply ih
      have hr : (Scanner.at st σ).run c = (Scanner.at st σ, .SkipSpace) := by
        rcases hst with rfl | rfl | rfl | ⟨rfl, hσ⟩
        · simp only [Scanner.run, Scanner.at, stateBeginValue, hsp, if_true]
        · simp only [Scanner.run, Scanner.at, stateBeginString, hsp, if_true]
        · simp only [Scanner.run, Scanner.at, stateBeginStringOrEmpty, hsp, if_true]
        · cases σ with
          | nil => exact absurd rfl hσ
          | cons p ps => simp only [Scanner.run, Scanner.at, stateEndValue, hsp, if_true]
      exact (Accept.next _ _ c cs _ hr (by decide) (by decide) h).2.2
    · rw [List.dropWhile_cons_of_neg hsp]
      exact h

/-- The state `stateBeginValue` does not end the value. -/
theorem stateBeginValue_code (s : Scanner) (c : UInt8) : (stateBeginValue s c).2 ≠ .End := by
  have hpush : ∀ (s : Scanner) (p : ParseState) (code : ScanCode), code ≠ .End →
      (s.pushParseState c p code).2 ≠ .End := by
    intro s p code hcode
    unfold Scanner.pushParseState
    simp only
    split
    · exact hcode
    · exact fun h => ScanCode.noConfusion h
  unfold stateBeginValue
  by_cases h0 : isSpace c = true
  · rw [if_pos h0]; exact fun h => ScanCode.noConfusion h
  rw [if_neg h0]
  by_cases h1 : c.toNat = 123
  · rw [if_pos h1]; exact hpush _ _ _ (by decide)
  rw [if_neg h1]
  by_cases h2 : c.toNat = 91
  · rw [if_pos h2]; exact hpush _ _ _ (by decide)
  rw [if_neg h2]
  by_cases h3 : c.toNat = 34
  · rw [if_pos h3]; exact fun h => ScanCode.noConfusion h
  rw [if_neg h3]
  by_cases h4 : c.toNat = 45
  · rw [if_pos h4]; exact fun h => ScanCode.noConfusion h
  rw [if_neg h4]
  by_cases h5 : c.toNat = 48
  · rw [if_pos h5]; exact fun h => ScanCode.noConfusion h
  rw [if_neg h5]
  by_cases h6 : c.toNat = 116
  · rw [if_pos h6]; exact fun h => ScanCode.noConfusion h
  rw [if_neg h6]
  by_cases h7 : c.toNat = 102
  · rw [if_pos h7]; exact fun h => ScanCode.noConfusion h
  rw [if_neg h7]
  by_cases h8 : c.toNat = 110
  · rw [if_pos h8]; exact fun h => ScanCode.noConfusion h
  rw [if_neg h8]
  by_cases h9 : 49 ≤ c.toNat ∧ c.toNat ≤ 57
  · rw [if_pos h9]; exact fun h => ScanCode.noConfusion h
  rw [if_neg h9]
  exact fun h => ScanCode.noConfusion h

/-- The bytes do not run out before a value, before a key or after a value
inside a bracket. -/
theorem Accept.not_nil (st : Step) (σ : List ParseState)
    (hst : st = .BeginValue ∨ st = .BeginString ∨ st = .BeginStringOrEmpty
      ∨ (st = .EndValue ∧ σ ≠ [])) : ¬ Accept (Scanner.at st σ) [] := by
  rintro ⟨c, hc⟩
  rcases hst with rfl | rfl | rfl | ⟨rfl, hσ⟩
  · exact stateBeginValue_code (Scanner.at .BeginValue σ) c hc
  · simp only [Scanner.run, Scanner.at, stateBeginString, Scanner.error] at hc
    split_ifs at hc
  · simp only [Scanner.run, Scanner.at, stateBeginStringOrEmpty, stateBeginString,
      Scanner.error] at hc
    split_ifs at hc
    rcases stateEndValue_open ⟨.BeginStringOrEmpty, false, .ObjectValue :: σ.tail, none, 0⟩ c
      (by simp) with h | h
    · rw [hc] at h; cases h
    · exact h.1 hc
  · rcases stateEndValue_open (Scanner.at .EndValue σ) c hσ with h | h
    · have hc' : (stateEndValue (Scanner.at .EndValue σ) c).2 = .End := hc
      rw [hc'] at h; cases h
    · exact h.1 hc

/-- The first byte of a value the scanner accepts, and the state after it. -/
theorem Accept.beginValue (σ : List ParseState) (c : UInt8) (cs : List UInt8)
    (hsp : isSpace c = false) (h : Accept (Scanner.at .BeginValue σ) (c :: cs)) :
    (c.toNat = 123 ∧ Accept (Scanner.at .BeginStringOrEmpty (.ObjectKey :: σ)) cs)
      ∨ (c.toNat = 91 ∧ Accept (Scanner.at .BeginValueOrEmpty (.ArrayValue :: σ)) cs)
      ∨ (c.toNat = 34 ∧ Accept (Scanner.at .InString σ) cs)
      ∨ (c.toNat = 45 ∧ Accept (Scanner.at .Neg σ) cs)
      ∨ (c.toNat = 48 ∧ Accept (Scanner.at .S0 σ) cs)
      ∨ (c.toNat = 116 ∧ Accept (Scanner.at .T σ) cs)
      ∨ (c.toNat = 102 ∧ Accept (Scanner.at .F σ) cs)
      ∨ (c.toNat = 110 ∧ Accept (Scanner.at .N σ) cs)
      ∨ ((49 ≤ c.toNat ∧ c.toNat ≤ 57) ∧ Accept (Scanner.at .S1 σ) cs) := by
  have h0 : ¬ isSpace c = true := by rw [hsp]; decide
  have hrun : (Scanner.at .BeginValue σ).run c = stateBeginValue (Scanner.at .BeginValue σ) c := rfl
  by_cases h1 : c.toNat = 123
  · left
    refine ⟨h1, ?_⟩
    by_cases hd : (ParseState.ObjectKey :: σ).length ≤ maxNestingDepth
    · have hr : (Scanner.at .BeginValue σ).run c
          = (Scanner.at .BeginStringOrEmpty (.ObjectKey :: σ), .BeginObject) := by
        rw [hrun]; unfold stateBeginValue; rw [if_neg h0, if_pos h1]
        unfold Scanner.pushParseState
        simp only [Scanner.at]
        rw [if_pos hd]
      exact (Accept.next _ _ c cs _ hr (by decide) (by decide) h).2.2
    · exfalso
      have hr : ((Scanner.at .BeginValue σ).run c).2 = .Error := by
        rw [hrun]; unfold stateBeginValue; rw [if_neg h0, if_pos h1]
        unfold Scanner.pushParseState
        simp only [Scanner.at]
        rw [if_neg hd]
        rfl
      unfold Accept at h; rw [hr] at h; exact h
  by_cases h2 : c.toNat = 91
  · right; left
    refine ⟨h2, ?_⟩
    by_cases hd : (ParseState.ArrayValue :: σ).length ≤ maxNestingDepth
    · have hr : (Scanner.at .BeginValue σ).run c
          = (Scanner.at .BeginValueOrEmpty (.ArrayValue :: σ), .BeginArray) := by
        rw [hrun]; unfold stateBeginValue; rw [if_neg h0, if_neg h1, if_pos h2]
        unfold Scanner.pushParseState
        simp only [Scanner.at]
        rw [if_pos hd]
      exact (Accept.next _ _ c cs _ hr (by decide) (by decide) h).2.2
    · exfalso
      have hr : ((Scanner.at .BeginValue σ).run c).2 = .Error := by
        rw [hrun]; unfold stateBeginValue; rw [if_neg h0, if_neg h1, if_pos h2]
        unfold Scanner.pushParseState
        simp only [Scanner.at]
        rw [if_neg hd]
        rfl
      unfold Accept at h; rw [hr] at h; exact h
  by_cases h3 : c.toNat = 34
  · right; right; left
    have hr : (Scanner.at .BeginValue σ).run c = (Scanner.at .InString σ, .BeginLiteral) := by
      rw [hrun]; unfold stateBeginValue; rw [if_neg h0, if_neg h1, if_neg h2, if_pos h3]; rfl
    exact ⟨h3, (Accept.next _ _ c cs _ hr (by decide) (by decide) h).2.2⟩
  by_cases h4 : c.toNat = 45
  · right; right; right; left
    have hr : (Scanner.at .BeginValue σ).run c = (Scanner.at .Neg σ, .BeginLiteral) := by
      rw [hrun]; unfold stateBeginValue; rw [if_neg h0, if_neg h1, if_neg h2, if_neg h3, if_pos h4]; rfl
    exact ⟨h4, (Accept.next _ _ c cs _ hr (by decide) (by decide) h).2.2⟩
  by_cases h5 : c.toNat = 48
  · right; right; right; right; left
    have hr : (Scanner.at .BeginValue σ).run c = (Scanner.at .S0 σ, .BeginLiteral) := by
      rw [hrun]; unfold stateBeginValue; rw [if_neg h0, if_neg h1, if_neg h2, if_neg h3, if_neg h4, if_pos h5]; rfl
    exact ⟨h5, (Accept.next _ _ c cs _ hr (by decide) (by decide) h).2.2⟩
  by_cases h6 : c.toNat = 116
  · right; right; right; right; right; left
    have hr : (Scanner.at .BeginValue σ).run c = (Scanner.at .T σ, .BeginLiteral) := by
      rw [hrun]; unfold stateBeginValue; rw [if_neg h0, if_neg h1, if_neg h2, if_neg h3, if_neg h4, if_neg h5, if_pos h6]; rfl
    exact ⟨h6, (Accept.next _ _ c cs _ hr (by decide) (by decide) h).2.2⟩
  by_cases h7 : c.toNat = 102
  · right; right; right; right; right; right; left
    have hr : (Scanner.at .BeginValue σ).run c = (Scanner.at .F σ, .BeginLiteral) := by
      rw [hrun]; unfold stateBeginValue; rw [if_neg h0, if_neg h1, if_neg h2, if_neg h3, if_neg h4, if_neg h5, if_neg h6, if_pos h7]; rfl
    exact ⟨h7, (Accept.next _ _ c cs _ hr (by decide) (by decide) h).2.2⟩
  by_cases h8 : c.toNat = 110
  · right; right; right; right; right; right; right; left
    have hr : (Scanner.at .BeginValue σ).run c = (Scanner.at .N σ, .BeginLiteral) := by
      rw [hrun]; unfold stateBeginValue; rw [if_neg h0, if_neg h1, if_neg h2, if_neg h3, if_neg h4, if_neg h5, if_neg h6, if_neg h7, if_pos h8]; rfl
    exact ⟨h8, (Accept.next _ _ c cs _ hr (by decide) (by decide) h).2.2⟩
  by_cases h9 : 49 ≤ c.toNat ∧ c.toNat ≤ 57
  · right; right; right; right; right; right; right; right
    have hr : (Scanner.at .BeginValue σ).run c = (Scanner.at .S1 σ, .BeginLiteral) := by
      rw [hrun]; unfold stateBeginValue; rw [if_neg h0, if_neg h1, if_neg h2, if_neg h3, if_neg h4, if_neg h5, if_neg h6, if_neg h7, if_neg h8, if_pos h9]; rfl
    exact ⟨h9, (Accept.next _ _ c cs _ hr (by decide) (by decide) h).2.2⟩
  exfalso
  have hr : ((Scanner.at .BeginValue σ).run c).2 = .Error := by
    rw [hrun]; unfold stateBeginValue; rw [if_neg h0, if_neg h1, if_neg h2, if_neg h3, if_neg h4, if_neg h5, if_neg h6, if_neg h7, if_neg h8, if_neg h9]; rfl
  unfold Accept at h; rw [hr] at h; exact h

/-- The first byte of an object key the scanner accepts. -/
theorem Accept.beginString (st : Step) (σ : List ParseState) (c : UInt8) (cs : List UInt8)
    (hst : st = .BeginString ∨ st = .BeginStringOrEmpty)
    (hsp : isSpace c = false) (h125 : c.toNat ≠ 125) (h : Accept (Scanner.at st σ) (c :: cs)) :
    c.toNat = 34 ∧ Accept (Scanner.at .InString σ) cs := by
  have h0 : ¬ isSpace c = true := by rw [hsp]; decide
  have hrun : (Scanner.at st σ).run c = stateBeginString (Scanner.at st σ) c := by
    rcases hst with rfl | rfl
    · rfl
    · show stateBeginStringOrEmpty _ c = _
      unfold stateBeginStringOrEmpty
      rw [if_neg h0, if_neg h125]
  by_cases h34 : c.toNat = 34
  · have hr : (Scanner.at st σ).run c = (Scanner.at .InString σ, .BeginLiteral) := by
      rw [hrun]; unfold stateBeginString; rw [if_neg h0, if_pos h34]; rfl
    exact ⟨h34, (Accept.next _ _ c cs _ hr (by decide) (by decide) h).2.2⟩
  · exfalso
    have hr : ((Scanner.at st σ).run c).2 = .Error := by
      rw [hrun]; unfold stateBeginString; rw [if_neg h0, if_neg h34]; rfl
    unfold Accept at h; rw [hr] at h; exact h

/-- After an object key the scanner accepts a colon. -/
theorem Accept.endValue_key (σ : List ParseState) (c : UInt8) (cs : List UInt8)
    (hsp : isSpace c = false) (h : Accept (Scanner.at .EndValue (.ObjectKey :: σ)) (c :: cs)) :
    c.toNat = 58 ∧ Accept (Scanner.at .BeginValue (.ObjectValue :: σ)) cs := by
  have h0 : ¬ isSpace c = true := by rw [hsp]; decide
  by_cases h58 : c.toNat = 58
  · have hr : (Scanner.at .EndValue (.ObjectKey :: σ)).run c
        = (Scanner.at .BeginValue (.ObjectValue :: σ), .ObjectKey) := by
      show stateEndValue (Scanner.at .EndValue (.ObjectKey :: σ)) c = _
      simp only [stateEndValue, Scanner.at]
      rw [if_neg h0, if_pos h58]
    exact ⟨h58, (Accept.next _ _ c cs _ hr (by decide) (by decide) h).2.2⟩
  · exfalso
    have hr : ((Scanner.at .EndValue (.ObjectKey :: σ)).run c).2 = .Error := by
      show (stateEndValue _ c).2 = _
      simp only [stateEndValue, Scanner.at]
      rw [if_neg h0, if_neg h58]
      rfl
    unfold Accept at h; rw [hr] at h; exact h

/-- After the value of a member the scanner accepts a comma or the closing brace. -/
theorem Accept.endValue_value (σ : List ParseState) (c : UInt8) (cs : List UInt8)
    (hsp : isSpace c = false) (h : Accept (Scanner.at .EndValue (.ObjectValue :: σ)) (c :: cs)) :
    c.toNat = 125 ∨ (c.toNat = 44 ∧ Accept (Scanner.at .BeginString (.ObjectKey :: σ)) cs) := by
  have h0 : ¬ isSpace c = true := by rw [hsp]; decide
  by_cases h44 : c.toNat = 44
  · right
    have hr : (Scanner.at .EndValue (.ObjectValue :: σ)).run c
        = (Scanner.at .BeginString (.ObjectKey :: σ), .ObjectValue) := by
      show stateEndValue (Scanner.at .EndValue (.ObjectValue :: σ)) c = _
      simp only [stateEndValue, Scanner.at]
      rw [if_neg h0, if_pos h44]
    exact ⟨h44, (Accept.next _ _ c cs _ hr (by decide) (by decide) h).2.2⟩
  · by_cases h125 : c.toNat = 125
    · exact Or.inl h125
    · exfalso
      have hr : ((Scanner.at .EndValue (.ObjectValue :: σ)).run c).2 = .Error := by
        show (stateEndValue _ c).2 = _
        simp only [stateEndValue, Scanner.at]
        rw [if_neg h0, if_neg h44, if_neg h125]
        rfl
      unfold Accept at h; rw [hr] at h; exact h

/-- The first element left by `dropWhile` fails the test, and the elements
after it are fewer than the list had. -/
theorem dropWhile_eq_cons {α : Type} (p : α → Bool) : ∀ (l : List α) (c : α) (cs : List α),
    l.dropWhile p = c :: cs → p c = false ∧ cs.length < l.length := by
  intro l
  induction l with
  | nil => intro c cs h; cases h
  | cons x xs ih =>
    intro c cs h
    by_cases hx : p x = true
    · rw [List.dropWhile_cons_of_pos hx] at h
      obtain ⟨h1, h2⟩ := ih c cs h
      exact ⟨h1, by simp only [List.length_cons]; omega⟩
    · rw [List.dropWhile_cons_of_neg hx] at h
      simp only [List.cons.injEq] at h
      obtain ⟨rfl, rfl⟩ := h
      exact ⟨by simpa using hx, by simp⟩

/-- The loop of `readValue` on an opening bracket, from the start state. -/
theorem scanValue_bracket (σ : List ParseState) (c : UInt8) (cs : List UInt8) (p : ParseState)
    (st : Step) (hsp : isSpace c = false)
    (hc : (c.toNat = 123 ∧ p = .ObjectKey ∧ st = .BeginStringOrEmpty)
      ∨ (c.toNat ≠ 123 ∧ c.toNat = 91 ∧ p = .ArrayValue ∧ st = .BeginValueOrEmpty))
    (h : Accept (Scanner.at st (p :: σ)) cs) :
    ∃ n S, scanValue freshScanner (c :: cs) 0 = .value n S
      ∧ ((c :: cs).drop n).length < (c :: cs).length
      ∧ Accept (Scanner.at .EndValue σ) ((c :: cs).drop n) := by
  have h0 : ¬ isSpace c = true := by rw [hsp]; decide
  obtain ⟨n, S, h1, h2, h3, h4⟩ :=
    scanValue_nested σ cs ⟨st, false, [p], none, 0 + 1⟩ (Scanner.at st (p :: σ)) 1 ⟨rfl, rfl⟩
      (by simp) (by rcases hc with ⟨_, _, rfl⟩ | ⟨_, _, _, rfl⟩ <;> simp) h
  have hr : Scanner.run { freshScanner with bytes := freshScanner.bytes + 1 } c
      = (⟨st, false, [p], none, 0 + 1⟩, if c.toNat = 123 then .BeginObject else .BeginArray) := by
    show stateBeginValue _ c = _
    unfold stateBeginValue
    rcases hc with ⟨hc, rfl, rfl⟩ | ⟨hc, hc', rfl, rfl⟩
    · rw [if_neg h0, if_pos hc, if_pos hc]; rfl
    · rw [if_neg h0, if_neg hc, if_pos hc', if_neg hc]; rfl
  have hsv : scanValue freshScanner (c :: cs) 0 = scanValue ⟨st, false, [p], none, 0 + 1⟩ cs 1 := by
    simp only [scanValue]
    rw [hr]
    split_ifs <;> rfl
  refine ⟨n, S, by rw [hsv]; exact h1, ?_, ?_⟩
  · rw [List.length_drop]; simp only [List.length_cons]; omega
  · have hn : n = (n - 1) + 1 := by omega
    rw [hn, List.drop_succ_cons]
    exact h4

/-- From the bytes after the value `readItem` returns to the statement on the item. -/
theorem readItem_accept_of (total : Nat) (σ : List ParseState) (d R : List UInt8)
    (h : (readItem total d).map Item.rest = some R) (hl : R.length < d.length)
    (ha : Accept (Scanner.at .EndValue σ) R) :
    ∃ item, readItem total d = some item ∧ item.rest.length < d.length
      ∧ Accept (Scanner.at .EndValue σ) item.rest := by
  cases hi : readItem total d with
  | none => rw [hi] at h; cases h
  | some item =>
    rw [hi] at h
    simp only [Option.map_some', Option.some.injEq] at h
    rw [← h] at hl ha
    exact ⟨item, rfl, hl, ha⟩

/-- A value the scanner accepts is read: `readItem` returns its kind, and the
scanner is at the end of a value where the bytes after it start. -/
theorem readItem_accept (total : Nat) (σ : List ParseState) (c : UInt8) (cs : List UInt8)
    (hsp : isSpace c = false) (h : Accept (Scanner.at .BeginValue σ) (c :: cs)) :
    ∃ item, readItem total (c :: cs) = some item ∧ item.rest.length < (c :: cs).length
      ∧ Accept (Scanner.at .EndValue σ) item.rest := by
  have hdig : isDigit c = true ↔ 48 ≤ c.toNat ∧ c.toNat ≤ 57 := by
    simp only [isDigit, decide_eq_true_eq]
  have hdw : ∀ l : List UInt8, (l.dropWhile numberByte).length < (c :: l).length := by
    intro l
    have := (List.dropWhile_sublist numberByte (l := l)).length_le
    simp only [List.length_cons]; omega
  rcases Accept.beginValue σ c cs hsp h with ⟨hc, ha⟩ | ⟨hc, ha⟩ | ⟨hc, ha⟩ | ⟨hc, ha⟩ | ⟨hc, ha⟩
    | ⟨hc, ha⟩ | ⟨hc, ha⟩ | ⟨hc, ha⟩ | ⟨hc, ha⟩
  · obtain ⟨n, S, h1, h2, h3⟩ :=
      scanValue_bracket σ c cs .ObjectKey .BeginStringOrEmpty hsp (Or.inl ⟨hc, rfl, rfl⟩) ha
    have e1 : ¬ c.toNat = 34 := by omega
    have e2 : ¬ (c.toNat = 45 ∨ isDigit c = true) := by rw [hdig]; omega
    have e3 : ¬ c.toNat = 116 := by omega
    have e4 : ¬ c.toNat = 102 := by omega
    have e5 : ¬ c.toNat = 110 := by omega
    have e6 : c.toNat = 123 ∨ c.toNat = 91 := Or.inl hc
    refine readItem_accept_of total σ _ _ ?_ h2 h3
    unfold readItem
    simp only
    rw [if_neg e1, if_neg e2, if_neg e3, if_neg e4, if_neg e5, if_pos e6, h1]
    rfl
  · obtain ⟨n, S, h1, h2, h3⟩ :=
      scanValue_bracket σ c cs .ArrayValue .BeginValueOrEmpty hsp
        (Or.inr ⟨by omega, hc, rfl, rfl⟩) ha
    have e1 : ¬ c.toNat = 34 := by omega
    have e2 : ¬ (c.toNat = 45 ∨ isDigit c = true) := by rw [hdig]; omega
    have e3 : ¬ c.toNat = 116 := by omega
    have e4 : ¬ c.toNat = 102 := by omega
    have e5 : ¬ c.toNat = 110 := by omega
    have e6 : c.toNat = 123 ∨ c.toNat = 91 := Or.inr hc
    refine readItem_accept_of total σ _ _ ?_ h2 h3
    unfold readItem
    simp only
    rw [if_neg e1, if_neg e2, if_neg e3, if_neg e4, if_neg e5, if_pos e6, h1]
    rfl
  · obtain ⟨chars, rest, h1, h2, h3⟩ := unquoteRest_accept σ (c :: cs).length cs (by simp) ha
    refine readItem_accept_of total σ _ _ ?_
      (by simp only [List.length_cons]; omega) h3
    unfold readItem
    simp only
    rw [if_pos hc, h1]
    rfl
  · have e1 : ¬ c.toNat = 34 := by omega
    have e2 : c.toNat = 45 ∨ isDigit c = true := Or.inl hc
    refine readItem_accept_of total σ _ _ ?_ (hdw cs) (Accept.number σ cs .Neg rfl ha)
    unfold readItem
    simp only
    rw [if_neg e1, if_pos e2]
    rfl
  · have e1 : ¬ c.toNat = 34 := by omega
    have e2 : c.toNat = 45 ∨ isDigit c = true := Or.inr (hdig.mpr (by omega))
    refine readItem_accept_of total σ _ _ ?_ (hdw cs) (Accept.number σ cs .S0 rfl ha)
    unfold readItem
    simp only
    rw [if_neg e1, if_pos e2]
    rfl
  · have e1 : ¬ c.toNat = 34 := by omega
    have e2 : ¬ (c.toNat = 45 ∨ isDigit c = true) := by rw [hdig]; omega
    obtain ⟨hl, ha'⟩ := Accept.literal_true σ cs ha
    refine readItem_accept_of total σ _ _ ?_
      (by simp only [List.length_cons]; omega) ha'
    unfold readItem
    simp only
    rw [if_neg e1, if_neg e2, if_pos hc]
    rfl
  · have e1 : ¬ c.toNat = 34 := by omega
    have e2 : ¬ (c.toNat = 45 ∨ isDigit c = true) := by rw [hdig]; omega
    have e3 : ¬ c.toNat = 116 := by omega
    obtain ⟨hl, ha'⟩ := Accept.literal_false σ cs ha
    refine readItem_accept_of total σ _ _ ?_
      (by simp only [List.length_cons]; omega) ha'
    unfold readItem
    simp only
    rw [if_neg e1, if_neg e2, if_neg e3, if_pos hc]
    rfl
  · have e1 : ¬ c.toNat = 34 := by omega
    have e2 : ¬ (c.toNat = 45 ∨ isDigit c = true) := by rw [hdig]; omega
    have e3 : ¬ c.toNat = 116 := by omega
    have e4 : ¬ c.toNat = 102 := by omega
    obtain ⟨hl, ha'⟩ := Accept.literal_null σ cs ha
    refine readItem_accept_of total σ _ _ ?_
      (by simp only [List.length_cons]; omega) ha'
    unfold readItem
    simp only
    rw [if_neg e1, if_neg e2, if_neg e3, if_neg e4, if_pos hc]
    rfl
  · have e1 : ¬ c.toNat = 34 := by omega
    have e2 : c.toNat = 45 ∨ isDigit c = true := Or.inr (hdig.mpr (by omega))
    refine readItem_accept_of total σ _ _ ?_ (hdw cs) (Accept.number σ cs .S1 rfl ha)
    unfold readItem
    simp only
    rw [if_neg e1, if_pos e2]
    rfl

/-- The members of an object the scanner accepts are read. -/
theorem readMembers_accept (σ : List ParseState) (total : Nat) : ∀ (fuel : Nat) (d : List UInt8),
    d.length < fuel →
    (Accept (Scanner.at .BeginStringOrEmpty (.ObjectKey :: σ)) d
      ∨ Accept (Scanner.at .BeginString (.ObjectKey :: σ)) d) →
    ∃ ms, readMembers fuel total d = some ms := by
  intro fuel
  induction fuel with
  | zero => intro d h; exact absurd h (Nat.not_lt_zero _)
  | succ fuel ih =>
    intro d hlen hacc
    have hle : ∀ l : List UInt8, (l.dropWhile isSpace).length ≤ l.length :=
      fun l => (List.dropWhile_sublist isSpace (l := l)).length_le
    obtain ⟨st, hst, hacc⟩ : ∃ st, (st = .BeginString ∨ st = .BeginStringOrEmpty)
        ∧ Accept (Scanner.at st (.ObjectKey :: σ)) d := by
      rcases hacc with h | h
      · exact ⟨_, Or.inr rfl, h⟩
      · exact ⟨_, Or.inl rfl, h⟩
    have hst' : st = .BeginValue ∨ st = .BeginString ∨ st = .BeginStringOrEmpty
        ∨ (st = .EndValue ∧ ParseState.ObjectKey :: σ ≠ []) := by
      rcases hst with h | h
      · exact Or.inr (Or.inl h)
      · exact Or.inr (Or.inr (Or.inl h))
    have hacc1 := Accept.dropSpaces st _ hst' d hacc
    simp only [readMembers]
    cases hd : d.dropWhile isSpace with
    | nil => rw [hd] at hacc1; exact absurd hacc1 (Accept.not_nil st _ hst')
    | cons c cs =>
      rw [hd] at hacc1
      obtain ⟨hsp, hcl⟩ := dropWhile_eq_cons isSpace d c cs hd
      simp only
      by_cases h125 : c.toNat = 125
      · rw [if_pos h125]; exact ⟨_, rfl⟩
      rw [if_neg h125]
      obtain ⟨h34, hin⟩ := Accept.beginString st _ c cs hst hsp h125 hacc1
      rw [if_pos h34]
      obtain ⟨key, afterKey, hkey, hkl, hka⟩ :=
        unquoteRest_accept (.ObjectKey :: σ) (c :: cs).length cs (by simp) hin
      rw [hkey]
      simp only
      have hka1 := Accept.dropSpaces .EndValue _ (Or.inr (Or.inr (Or.inr ⟨rfl, by simp⟩)))
        afterKey hka
      cases hk : afterKey.dropWhile isSpace with
      | nil =>
        rw [hk] at hka1
        exact absurd hka1 (Accept.not_nil .EndValue _ (Or.inr (Or.inr (Or.inr ⟨rfl, by simp⟩))))
      | cons colon afterColon =>
        rw [hk] at hka1
        obtain ⟨hsp2, hcl2⟩ := dropWhile_eq_cons isSpace afterKey colon afterColon hk
        obtain ⟨h58, hbv⟩ := Accept.endValue_key σ colon afterColon hsp2 hka1
        simp only
        rw [if_pos h58]
        have hbv1 := Accept.dropSpaces .BeginValue _ (Or.inl rfl) afterColon hbv
        cases hv : afterColon.dropWhile isSpace with
        | nil =>
          rw [hv] at hbv1
          exact absurd hbv1 (Accept.not_nil .BeginValue _ (Or.inl rfl))
        | cons v vs =>
          rw [hv] at hbv1
          obtain ⟨hsp3, hcl3⟩ := dropWhile_eq_cons isSpace afterColon v vs hv
          obtain ⟨item, hitem, hil, hia⟩ := readItem_accept total (.ObjectValue :: σ) v vs hsp3 hbv1
          rw [hitem]
          simp only
          have hia1 := Accept.dropSpaces .EndValue _ (Or.inr (Or.inr (Or.inr ⟨rfl, by simp⟩)))
            item.rest hia
          cases hs : item.rest.dropWhile isSpace with
          | nil =>
            rw [hs] at hia1
            exact absurd hia1
              (Accept.not_nil .EndValue _ (Or.inr (Or.inr (Or.inr ⟨rfl, by simp⟩))))
          | cons sep afterSep =>
            rw [hs] at hia1
            obtain ⟨hsp4, hcl4⟩ := dropWhile_eq_cons isSpace item.rest sep afterSep hs
            simp only
            rcases Accept.endValue_value σ sep afterSep hsp4 hia1 with h | ⟨h44, hnext⟩
            · rw [if_pos h]; exact ⟨_, rfl⟩
            · have hn : ¬ sep.toNat = 125 := by omega
              rw [if_neg hn, if_pos h44]
              have hfl : afterSep.length < fuel := by
                have := hle afterKey
                have := hle afterColon
                simp only [List.length_cons] at hil hlen
                have e1 : (afterKey.dropWhile isSpace).length = afterColon.length + 1 := by
                  rw [hk]; rfl
                have e2 : (afterColon.dropWhile isSpace).length = vs.length + 1 := by
                  rw [hv]; rfl
                omega
              obtain ⟨ms, hms⟩ := ih afterSep hfl (Or.inr hnext)
              rw [hms]
              exact ⟨_, rfl⟩

/-- The method `unmarshal` does not panic on the bytes of a value the scanner accepts. -/
theorem unmarshal_accept (U : Unicode) (dis : Bool) (data : List UInt8) (v : Dest)
    (h : Accept (Scanner.at .BeginValue []) data) : ∃ r, unmarshal U dis data v = .ok r := by
  have h1 := Accept.dropSpaces .BeginValue [] (Or.inl rfl) data h
  cases hd : data.dropWhile isSpace with
  | nil => rw [hd] at h1; exact absurd h1 (Accept.not_nil .BeginValue [] (Or.inl rfl))
  | cons c cs =>
    rw [hd] at h1
    obtain ⟨hsp, hcl⟩ := dropWhile_eq_cons isSpace data c cs hd
    have hobj : c.toNat = 123 → ∃ ms, readMembers data.length data.length cs = some ms := by
      intro h123
      rcases Accept.beginValue [] c cs hsp h1 with ⟨_, ha⟩ | ⟨hc, _⟩ | ⟨hc, _⟩ | ⟨hc, _⟩
        | ⟨hc, _⟩ | ⟨hc, _⟩ | ⟨hc, _⟩ | ⟨hc, _⟩ | ⟨hc, _⟩
      · exact readMembers_accept [] data.length data.length cs hcl (Or.inl ha)
      all_goals omega
    obtain ⟨item, hitem, _, _⟩ := readItem_accept data.length [] c cs hsp h1
    cases v with
    | invalid text => exact ⟨_, rfl⟩
    | map m =>
      simp only [unmarshal, hd]
      by_cases h123 : c.toNat = 123
      · obtain ⟨ms, hms⟩ := hobj h123
        rw [if_pos h123, hms]
        exact ⟨_, rfl⟩
      · rw [if_neg h123, hitem]
        simp only
        cases item.kind <;> exact ⟨_, rfl⟩
    | struct name typ fields =>
      simp only [unmarshal, hd]
      by_cases h123 : c.toNat = 123
      · obtain ⟨ms, hms⟩ := hobj h123
        rw [if_pos h123, hms]
        exact ⟨_, rfl⟩
      · rw [if_neg h123, hitem]
        simp only
        cases item.kind <;> exact ⟨_, rfl⟩

/-- The method `Decoder.Decode` does not panic: it returns the decoder after the
call, the error and the destination. -/
theorem Decoder.Decode_returns (U : Unicode) (dec : Decoder) (v : Dest) :
    ∃ dec' err v', dec.Decode U v = .ok (dec', err, v') := by
  unfold Decoder.Decode
  cases dec.err with
  | some err => exact ⟨_, _, _, rfl⟩
  | none =>
    simp only
    cases hrv : dec.readValue with
    | mk dec' res =>
      cases res with
      | error err => exact ⟨_, _, _, rfl⟩
      | ok n =>
        simp only
        have hacc := Decoder.readValue_accept dec dec' n hrv
        obtain ⟨⟨err, v'⟩, hr⟩ := unmarshal_accept U dec.disallowUnknownFields (dec.rest.take n) v
          (Accept.at _ _ .BeginValue [] rfl rfl hacc)
        rw [hr]
        exact ⟨_, _, _, rfl⟩

/-! ## `ReadJSON`: one body, one value -/

/-- C1: whenever the first `Decode` into the destination returns no error, the
follow-up `Decode` of the remaining stream returns (it does not panic), and
`ReadJSON` returns nil if and only if its result is `io.EOF`, and returns
`ErrJSONSingleValue` when it is anything else; `ReadJSON` returns nil exactly
when the body is within the budget and only white space follows the first
value, and returns `ErrJSONSingleValue` in every other case.  In each case the
destination is as the first `Decode` left it. -/
theorem ReadJSON_single_value (U : Unicode) (r : Request) (dst dst1 : Dest) (dec1 : Decoder)
    (h : (ReadJSON.decoder r).Decode U dst = .ok (dec1, none, dst1)) :
    (∃ dec2 err2 d2, dec1.Decode U emptyStruct = .ok (dec2, err2, d2)
        ∧ (ReadJSON U r dst = .ok { err := none, dst := dst1 } ↔ err2 = some .EOF)
        ∧ (err2 ≠ some .EOF →
            ReadJSON U r dst = .ok { err := some (.sentinel .ErrJSONSingleValue), dst := dst1 }))
    ∧ (ReadJSON U r dst = .ok { err := none, dst := dst1 }
        ↔ (r.Body.length ≤ MaxBytes ∧ nonSpace dec1.rest = false))
    ∧ (¬ (r.Body.length ≤ MaxBytes ∧ nonSpace dec1.rest = false) →
        ReadJSON U r dst = .ok { err := some (.sentinel .ErrJSONSingleValue), dst := dst1 }) := by
  obtain ⟨herr1, hfin⟩ := Decoder.Decode_ok U _ dec1 dst dst1 rfl h
  obtain ⟨dec2, err2, d2, h2⟩ := Decoder.Decode_returns U dec1 emptyStruct
  have hsecond : (ReadJSON U r dst = .ok { err := none, dst := dst1 } ↔ err2 = some .EOF)
      ∧ (err2 ≠ some .EOF →
          ReadJSON U r dst = .ok { err := some (.sentinel .ErrJSONSingleValue), dst := dst1 }) := by
    unfold ReadJSON
    simp only [h, h2]
    by_cases he : err2 = some .EOF
    · simp [he]
    · simp [he]
  have heof : err2 = some .EOF ↔ (r.Body.length ≤ MaxBytes ∧ nonSpace dec1.rest = false) := by
    rw [← ReadJSON.decoder_final r, ← hfin, ← Decoder.Decode_EOF_iff U dec1 herr1]
    constructor
    · intro he
      subst he
      exact ⟨dec2, d2, h2⟩
    · rintro ⟨dec2', d2', h2'⟩
      rw [h2] at h2'
      simp only [Except.ok.injEq, Prod.mk.injEq] at h2'
      exact h2'.2.1
  refine ⟨⟨dec2, err2, d2, h2, hsecond⟩, ?_, ?_⟩
  · rw [← heof]
    exact hsecond.1
  · intro hn
    exact hsecond.2 (fun he => hn (heof.mp he))

set_option maxRecDepth 100000 in
/-- C1 at concrete inputs: the body of the test decodes into the map with
`key` set to `value` and gives nil; the same object followed by a second object
gives `ErrJSONSingleValue`. -/
theorem ReadJSON_single_value_witness :
    ReadJSON asciiOnly (requestWithBody singleValueBody) emptyMap
      = .ok { err := none, dst := .map (some [("key", "value")]) }
    ∧ ReadJSON asciiOnly (requestWithBody twoValuesBody) emptyMap
      = .ok { err := some (.sentinel .ErrJSONSingleValue),
              dst := .map (some [("key", "value")]) } :=
  ⟨(ReadJSON_single_value asciiOnly (requestWithBody singleValueBody) emptyMap
      (.map (some [("key", "value")])) _ rfl).2.1.mpr ⟨by decide, rfl⟩,
   (ReadJSON_single_value asciiOnly (requestWithBody twoValuesBody) emptyMap
      (.map (some [("key", "value")])) _ rfl).2.2 (by decide)⟩

end Common
